import Mathlib

/-!
# Maneuver planner: curve parameter solver and plan generation

Shallow embedding of `maneuver_planner.cpp`.  Scalars (`double` in the source) are the
elements of a linearly ordered field `α`; the functions taken from the C math library and
from the pose library (`tan`, `sin`, `cos`, `sqrt`, the constant `M_PI`, and the wrapping
of an angle that `getEulerYPR` and `angles::normalize_angle` perform) are the fields of a
`MathLib α`, so the definitions of the program are executable for every such library.
`realMath` interprets the library in exact real arithmetic, and `headerPiMath` does so with
the constant `M_PI` at its binary64 value.

The arithmetic of the field departs from the `double` arithmetic of the source in two places
that decide what the program does, and the development accounts for both.  Division is the
division of the field, so a quotient with the divisor zero is zero, where the source gets an
infinity or a NaN; the two divisors of the solver, `tan yaw` and `tan ((pi - yaw) / 2)`,
vanish or are undefined only at a goal heading that is a multiple of `pi`, and the
statements about the values the solver returns for every goal, and about the termination of
the sampling loop, are made for the other headings.  `computeCurveParametersIEEE` is the
solver over values that are a number, an infinity or a NaN: it is `computeCurveParameters`
for the other headings, and shows what the source returns for the heading `0`.  The loop
test `scale > 1.0` of the carrot planner is decided by the rounding of `scale += 0.05`, so
`carrotLoop` carries the binary64 value of `scale` beside its value in the field.

The loops of `makePlan` take a bound on the number of iterations (`fuel`); that they end
is proved, for a positive step size and a non-zero turning radius.
-/

namespace ManeuverPlanner

/-- The numeric library the planner is linked against, over the scalar type `α`. -/
structure MathLib (α : Type) where
  /-- The C library `tan`. -/
  tan : α → α
  /-- The C library `sin`. -/
  sin : α → α
  /-- The C library `cos`. -/
  cos : α → α
  /-- The C library `sqrt`. -/
  sqrt : α → α
  /-- The constant `M_PI`. -/
  pi : α
  /-- The representative of an angle that `getEulerYPR` reports for a planar rotation
  and that `angles::normalize_angle` returns. -/
  normalize_angle : α → α

/-- The representative in `(-pi, pi]` of the angle `a`: the wrapping that the pose library
performs in exact arithmetic. -/
def wrapAngle {α : Type} [LinearOrderedField α] [FloorRing α] (pi a : α) : α :=
  a - 2 * pi * ((Int.ceil ((a - pi) / (2 * pi)) : ℤ) : α)

/-- The numeric library in exact real arithmetic. -/
noncomputable def realMath : MathLib ℝ where
  tan := Real.tan
  sin := Real.sin
  cos := Real.cos
  sqrt := Real.sqrt
  pi := Real.pi
  normalize_angle := wrapAngle Real.pi

/-- The C++ `|` applied to two `bool` operands and read as a condition: both operands
are promoted to `int`, or-ed bit by bit, and the result is compared with zero. -/
def bitOr (a b : Bool) : Bool := (a.toNat ||| b.toNat) != 0

/-- The C++ `&` applied to two `bool` operands and read as a condition. -/
def bitAnd (a b : Bool) : Bool := (a.toNat &&& b.toNat) != 0

/-- Modelled from the spec: the enumeration of curve types, which the class declaration in
`maneuver_planner.h` (not among the sources) defines; the spec lists `NONE`, `LEFT_TURN`
and `RIGHT_TURN`, here under the names the source file uses for them. -/
inductive CurveType where
  | NONE
  | LEFT_CENTER_POINT
  | RIGHT_CENTER_POINT
  deriving DecidableEq, Repr

/-- The planar content of a `tf::Stamped<tf::Pose>`: the origin `(x, y)` and the angle of
the rotation about the vertical axis (any representative of it). -/
structure Pose (α : Type) where
  x : α
  y : α
  yaw : α
  deriving Repr

/-- The yaw that `getBasis().getEulerYPR` reports for a pose. -/
def getYaw {α : Type} (M : MathLib α) (p : Pose α) : α := M.normalize_angle p.yaw

/-- The value of `computeCurveParameters`: the returned curve type and the three output
arguments. -/
structure CurveParameters (α : Type) where
  curve_type : CurveType
  dist_before_steering : α
  dist_after_steering : α
  signed_turning_radius : α
  deriving Repr

/-- `ManeuverPlanner::computeCurveParameters`.  The three early `return NONE` statements
leave the output arguments at their initial values `-1`, `-1`, `0`; the last one is reached
after the output arguments have been assigned.  The local `maximum_turning_radius`, which
the source computes and never reads, is left out.  The two quotients are those of the
field: for a reported heading that is no multiple of `pi` they are the quotients that the
source computes, up to rounding; for a heading `0` or `pi` or `-pi` a divisor is zero, the
source gets an infinity or a NaN, and the value here (the quotient read as zero) is not the
value of the source. -/
def computeCurveParameters {α : Type} [LinearOrderedField α] (M : MathLib α)
    (pose_target : Pose α) (turning_radius : α) : CurveParameters α :=
  let x_target := pose_target.x
  let y_target := pose_target.y
  let yaw_target := getYaw M pose_target
  let x_intersection := x_target - y_target / M.tan yaw_target
  if x_intersection < 0 then
    ⟨CurveType.NONE, -1, -1, 0⟩
  else
    let dist_target_to_intersection :=
      M.sqrt ((x_target - x_intersection) * (x_target - x_intersection) + y_target * y_target)
    let side : Option (CurveType × α) :=
      if y_target > 0 then
        if bitOr (decide (yaw_target < 0)) (decide (yaw_target > M.pi)) then none
        else some (CurveType.LEFT_CENTER_POINT, |turning_radius|)
      else
        if bitOr (decide (yaw_target > 0)) (decide (yaw_target < -M.pi)) then none
        else some (CurveType.RIGHT_CENTER_POINT, -|turning_radius|)
    match side with
    | none => ⟨CurveType.NONE, -1, -1, 0⟩
    | some (curve_type, signed_turning_radius) =>
      let dist_x_intersection_steering :=
        signed_turning_radius / M.tan ((M.pi - yaw_target) / 2)
      let dist_before_steering := x_intersection - dist_x_intersection_steering
      let dist_after_steering := dist_target_to_intersection - dist_x_intersection_steering
      if bitOr (bitOr (decide (dist_before_steering < 0)) (decide (dist_after_steering < 0)))
          (decide (dist_before_steering > x_intersection)) then
        ⟨CurveType.NONE, dist_before_steering, dist_after_steering, signed_turning_radius⟩
      else
        ⟨curve_type, dist_before_steering, dist_after_steering, signed_turning_radius⟩

/-- `ManeuverPlanner::rotate2D`: the origin is rotated about the vertical axis by `theta`,
the new rotation is `setRPY(0, 0, theta + ty)` with `ty` the yaw read from the input. -/
def rotate2D {α : Type} [LinearOrderedField α] (M : MathLib α) (pose_tf_in : Pose α)
    (theta : α) : Pose α :=
  let ty := getYaw M pose_tf_in
  { x := pose_tf_in.x * M.cos theta - pose_tf_in.y * M.sin theta
    y := pose_tf_in.x * M.sin theta + pose_tf_in.y * M.cos theta
    yaw := theta + ty }

/-- `ManeuverPlanner::translate2D`: the translation (its planar components `tx`, `ty`) is
added to the origin, the rotation is kept. -/
def translate2D {α : Type} [LinearOrderedField α] (pose_tf_in : Pose α) (tx ty : α) : Pose α :=
  { x := pose_tf_in.x + tx
    y := pose_tf_in.y + ty
    yaw := pose_tf_in.yaw }

/-- The planar content of a `geometry_msgs::PoseStamped`: the frame of the header, the
position and the rotation about the vertical axis that the orientation encodes. -/
structure PoseStamped (α : Type) where
  frame_id : String
  x : α
  y : α
  yaw : α
  deriving Repr

/-- `poseStampedMsgToTF`. -/
def poseStampedMsgToTF {α : Type} (msg : PoseStamped α) : Pose α :=
  { x := msg.x, y := msg.y, yaw := msg.yaw }

/-- The planar content of a `geometry_msgs::Point`. -/
structure Point (α : Type) where
  x : α
  y : α
  deriving Repr

/-- Modelled from the spec: the planner state, whose class declaration in
`maneuver_planner.h` is not among the sources.  The fields are the member variables that
`initialize` and `makePlan` read or write, with the types their use in the source file
gives them, together with what the planner reads through `costmap_ros_` (the global frame,
the robot footprint) and through `world_model_` (the footprint cost of a pose). -/
structure Planner (α : Type) where
  initialized_ : Bool
  /-- The value of `costmap_ros_->getGlobalFrameID()`. -/
  global_frame : String
  /-- The value of `costmap_ros_->getRobotFootprint()`. -/
  footprint : List (Point α)
  /-- The function `world_model_->footprintCost(x, y, theta, footprint)`. -/
  world_model_ : α → α → α → List (Point α) → α
  step_size_ : α
  min_dist_from_robot_ : α
  turning_radius_ : α
  last_goal_as_start_ : Bool
  valid_last_goal_ : Bool
  last_goal_ : PoseStamped α
  start_ : PoseStamped α
  topRightCorner_ : Point α
  topLeftCorner_ : Point α
  bottomRightCorner_ : Point α
  bottomLeftCorner_ : Point α
  left_side_ref_point_ : Point α
  right_side_ref_point_ : Point α

/-- `ManeuverPlanner::footprintCost`. -/
def footprintCost {α : Type} [LinearOrderedField α] (P : Planner α) (x_i y_i theta_i : α) : α :=
  if !P.initialized_ then -1
  else
    let footprint := P.footprint
    if footprint.length < 3 then -1
    else P.world_model_ x_i y_i theta_i footprint

/-- A two by two matrix (`arma::mat` in the source), row by row. -/
structure Mat2 (α : Type) where
  m00 : α
  m01 : α
  m10 : α
  m11 : α

/-- The inverse of a two by two matrix, as `arma::inv` computes it for a matrix with
non-zero determinant. -/
def Mat2.inv {α : Type} [LinearOrderedField α] (A : Mat2 α) : Mat2 α :=
  let det := A.m00 * A.m11 - A.m01 * A.m10
  { m00 := A.m11 / det, m01 := -A.m01 / det, m10 := -A.m10 / det, m11 := A.m00 / det }

/-- The product of a two by two matrix and a column vector. -/
def Mat2.mulVec {α : Type} [LinearOrderedField α] (A : Mat2 α) (v : α × α) : α × α :=
  (A.m00 * v.1 + A.m01 * v.2, A.m10 * v.1 + A.m11 * v.2)

/-- What `makePlan` has fixed when trajectory generation starts (lines 320-435 and
455-495): the poses derived from start and goal, the curve type, and the reference point
with the curve parameters that go with it. -/
structure Maneuver (α : Type) where
  curve_type : CurveType
  start_tf : Pose α
  start_yaw : α
  goal_yaw : α
  refpoint_tf_robot_coord : Pose α
  refpoint_goal_tf_refstart_coord : Pose α
  dist_before_steering_refp : α
  dist_after_steering_refp : α
  signed_turning_radius_refp : α

/-- The reference point selection of `makePlan` (lines 320-435): the goal is expressed in
the frame of the start, the solver runs for the center of rotation, and, when it finds a
curve, runs again for the goal re-framed about the candidate reference point. -/
def selectManeuver {α : Type} [LinearOrderedField α] (M : MathLib α) (P : Planner α)
    (start_ goal : PoseStamped α) : Maneuver α :=
  let goal_tf := poseStampedMsgToTF goal
  let start_tf := poseStampedMsgToTF start_
  let start_yaw := getYaw M start_tf
  let goal_yaw := getYaw M goal_tf
  let goal_tf_start_coord :=
    rotate2D M (translate2D goal_tf (-start_tf.x) (-start_tf.y)) (-start_yaw)
  let center := computeCurveParameters M goal_tf_start_coord P.turning_radius_
  if center.curve_type ≠ CurveType.NONE then
    let refpoint_tf_robot_coord : Pose α :=
      match center.curve_type with
      | CurveType.LEFT_CENTER_POINT => ⟨P.topRightCorner_.x, P.topRightCorner_.y, 0⟩
      | CurveType.RIGHT_CENTER_POINT =>
          ⟨P.right_side_ref_point_.x, P.right_side_ref_point_.y, 0⟩
      | CurveType.NONE => ⟨0, 0, 0⟩
    let refpoint_start_tf :=
      translate2D (rotate2D M refpoint_tf_robot_coord start_yaw) start_tf.x start_tf.y
    let refpoint_goal_tf :=
      translate2D (rotate2D M refpoint_tf_robot_coord goal_yaw) goal_tf.x goal_tf.y
    let temp_yaw := getYaw M refpoint_start_tf
    let refpoint_goal_tf_refstart_coord :=
      rotate2D M (translate2D refpoint_goal_tf (-refpoint_start_tf.x) (-refpoint_start_tf.y))
        (-temp_yaw)
    let refp := computeCurveParameters M refpoint_goal_tf_refstart_coord P.turning_radius_
    if refp.curve_type = CurveType.NONE then
      { curve_type := center.curve_type
        start_tf := start_tf
        start_yaw := start_yaw
        goal_yaw := goal_yaw
        refpoint_tf_robot_coord := ⟨0, 0, 0⟩
        refpoint_goal_tf_refstart_coord := goal_tf_start_coord
        dist_before_steering_refp := center.dist_before_steering
        dist_after_steering_refp := center.dist_after_steering
        signed_turning_radius_refp := center.signed_turning_radius }
    else
      { curve_type := refp.curve_type
        start_tf := start_tf
        start_yaw := start_yaw
        goal_yaw := goal_yaw
        refpoint_tf_robot_coord := refpoint_tf_robot_coord
        refpoint_goal_tf_refstart_coord := refpoint_goal_tf_refstart_coord
        dist_before_steering_refp := refp.dist_before_steering
        dist_after_steering_refp := refp.dist_after_steering
        signed_turning_radius_refp := refp.signed_turning_radius }
  else
    { curve_type := center.curve_type
      start_tf := start_tf
      start_yaw := start_yaw
      goal_yaw := goal_yaw
      refpoint_tf_robot_coord := ⟨0, 0, 0⟩
      refpoint_goal_tf_refstart_coord := goal_tf_start_coord
      dist_before_steering_refp := center.dist_before_steering
      dist_after_steering_refp := center.dist_after_steering
      signed_turning_radius_refp := center.signed_turning_radius }

/-- The center pose of the local trajectory frame expressed in the global frame (lines
468-470 and 597-599): translate by the reference point, rotate by the start yaw, translate
by the start position. -/
def centerToGlobal {α : Type} [LinearOrderedField α] (M : MathLib α) (mv : Maneuver α)
    (center_traj_point_tf_refstart_coord : Pose α) : Pose α :=
  translate2D
    (rotate2D M
      (translate2D center_traj_point_tf_refstart_coord
        mv.refpoint_tf_robot_coord.x mv.refpoint_tf_robot_coord.y)
      mv.start_yaw)
    mv.start_tf.x mv.start_tf.y

/-- The variables that the sampling loop of `makePlan` (lines 504-610) updates. -/
structure SamplerState (α : Type) where
  plan : List (PoseStamped α)
  center_traj_point_tf : Pose α
  traj_ready : Bool
  traj_free : Bool
  theta_refp_traj : α
  dist_bef_steer : α
  dist_af_steer : α
  motion_refpoint_localtraj_ : α × α
  prev_motion_refpoint_localtraj_ : α × α
  center_pose_loctrajframe_ : α × α × α

/-- The state in which the sampling loop is entered (lines 455-499). -/
def samplerInit {α : Type} [LinearOrderedField α] (M : MathLib α) (mv : Maneuver α)
    (plan : List (PoseStamped α)) : SamplerState α :=
  let temp_vector3 : α × α := (-mv.refpoint_tf_robot_coord.x, -mv.refpoint_tf_robot_coord.y)
  let center_traj_point_tf_refstart_coord : Pose α := ⟨temp_vector3.1, temp_vector3.2, 0⟩
  { plan := plan
    center_traj_point_tf := centerToGlobal M mv center_traj_point_tf_refstart_coord
    traj_ready := false
    traj_free := true
    theta_refp_traj := 0
    dist_bef_steer := 0
    dist_af_steer := 0
    motion_refpoint_localtraj_ := (0, 0)
    prev_motion_refpoint_localtraj_ := (0, 0)
    center_pose_loctrajframe_ := (temp_vector3.1, temp_vector3.2, 0) }

/-- The obstacle check of the last computed center pose (lines 507-533): a negative cost
ends the loop and marks the trajectory as not free, otherwise the pose is appended to the
plan as a copy of `goal` with the position and the yaw replaced. -/
def samplerCheck {α : Type} [LinearOrderedField α] (M : MathLib α) (P : Planner α)
    (goal : PoseStamped α) (st : SamplerState α) : SamplerState α :=
  let temp_yaw := getYaw M st.center_traj_point_tf
  let temp_vector3 : α × α := (st.center_traj_point_tf.x, st.center_traj_point_tf.y)
  let footprint_cost := footprintCost P temp_vector3.1 temp_vector3.2 temp_yaw
  if footprint_cost < 0 then
    { st with traj_ready := true, traj_free := false }
  else
    let traj_point : PoseStamped α :=
      { goal with x := temp_vector3.1, y := temp_vector3.2, yaw := temp_yaw }
    { st with plan := st.plan ++ [traj_point] }

/-- The next point of the reference trajectory (lines 535-559): straight before steering,
the turn, straight after steering; `none` stands for the final `else` branch, which sets
`traj_ready` and leaves the loop. -/
def samplerAdvance {α : Type} [LinearOrderedField α] (M : MathLib α) (P : Planner α)
    (mv : Maneuver α) (st : SamplerState α) : Option (SamplerState α) :=
  let theta_refp_goal := getYaw M mv.refpoint_goal_tf_refstart_coord
  let theta_refp_traj_gridsz := P.step_size_ / mv.signed_turning_radius_refp
  if st.dist_bef_steer < mv.dist_before_steering_refp then
    some { st with
      theta_refp_traj := 0
      motion_refpoint_localtraj_ :=
        (st.prev_motion_refpoint_localtraj_.1 + P.step_size_,
         st.prev_motion_refpoint_localtraj_.2)
      dist_bef_steer := st.dist_bef_steer + P.step_size_ }
  else if |theta_refp_goal - st.theta_refp_traj| > |theta_refp_traj_gridsz / 2| then
    let theta_refp_traj := st.theta_refp_traj + theta_refp_traj_gridsz
    some { st with
      theta_refp_traj := theta_refp_traj
      motion_refpoint_localtraj_ :=
        (mv.dist_before_steering_refp + mv.signed_turning_radius_refp * M.sin theta_refp_traj,
         mv.signed_turning_radius_refp * (1 - M.cos theta_refp_traj)) }
  else if st.dist_af_steer < mv.dist_after_steering_refp then
    let theta_refp_traj := theta_refp_goal
    some { st with
      theta_refp_traj := theta_refp_traj
      motion_refpoint_localtraj_ :=
        (st.prev_motion_refpoint_localtraj_.1 + P.step_size_ * M.cos theta_refp_traj,
         st.prev_motion_refpoint_localtraj_.2 + P.step_size_ * M.sin theta_refp_traj)
      dist_af_steer := st.dist_af_steer + P.step_size_ }
  else
    none

/-- The center of rotation that goes with the new reference point (lines 562-599): the
virtual velocity of the reference point over a unit time step, mapped through the inverse
Jacobian when the reference point is off the rotation axis and copied otherwise, and the
resulting center pose expressed in the global frame. -/
def samplerCenter {α : Type} [LinearOrderedField α] (M : MathLib α) (mv : Maneuver α)
    (st : SamplerState α) : SamplerState α :=
  let jacobian_motrefPoint_ : Mat2 α :=
    ⟨1, -mv.refpoint_tf_robot_coord.y, 0, mv.refpoint_tf_robot_coord.x⟩
  let invjacobian_motrefPoint : Mat2 α :=
    if mv.refpoint_tf_robot_coord.x ≠ 0 then jacobian_motrefPoint_.inv else ⟨0, 0, 0, 0⟩
  let motion_refpoint_virvel_loctrajframe_ : α × α :=
    ((st.motion_refpoint_localtraj_.1 - st.prev_motion_refpoint_localtraj_.1) / 1,
     (st.motion_refpoint_localtraj_.2 - st.prev_motion_refpoint_localtraj_.2) / 1)
  let prev_motion_refpoint_localtraj_ := st.motion_refpoint_localtraj_
  let center_pose_loctrajframe_ : α × α × α :=
    if mv.refpoint_tf_robot_coord.x ≠ 0 then
      let c := st.center_pose_loctrajframe_
      let RotM : Mat2 α := ⟨M.cos c.2.2, M.sin c.2.2, -M.sin c.2.2, M.cos c.2.2⟩
      let motion_refpoint_virvel_robotframe_ := RotM.mulVec motion_refpoint_virvel_loctrajframe_
      let center_vel_robotframe_ := invjacobian_motrefPoint.mulVec motion_refpoint_virvel_robotframe_
      let c2 := c.2.2 + 1 * center_vel_robotframe_.2
      let c0 := c.1 + 1 * center_vel_robotframe_.1 * M.cos c2
      let c1 := c.2.1 + 1 * center_vel_robotframe_.1 * M.sin c2
      (c0, c1, c2)
    else
      (st.motion_refpoint_localtraj_.1, st.motion_refpoint_localtraj_.2, st.theta_refp_traj)
  let center_traj_point_tf_refstart_coord : Pose α :=
    ⟨center_pose_loctrajframe_.1, center_pose_loctrajframe_.2.1, center_pose_loctrajframe_.2.2⟩
  { st with
    prev_motion_refpoint_localtraj_ := prev_motion_refpoint_localtraj_
    center_pose_loctrajframe_ := center_pose_loctrajframe_
    center_traj_point_tf := centerToGlobal M mv center_traj_point_tf_refstart_coord }

/-- The loop `while (!traj_ready)` of the trajectory sampler (lines 504-610), entered with
`traj_ready = false`; `fuel` bounds the number of iterations and `none` means that the
bound was reached before the loop ended. -/
def samplerLoop {α : Type} [LinearOrderedField α] (M : MathLib α) (P : Planner α)
    (goal : PoseStamped α) (mv : Maneuver α) : ℕ → SamplerState α → Option (SamplerState α)
  | 0, _ => none
  | fuel + 1, st =>
    let st1 := samplerCheck M P goal st
    match samplerAdvance M P mv st1 with
    | none => some { st1 with traj_ready := true }
    | some st2 =>
      let st3 := samplerCenter M mv st2
      if st3.traj_ready then some st3 else samplerLoop M P goal mv fuel st3

/-- The exponent `e` with `2 ^ 52 ≤ q / 2 ^ e < 2 ^ 53` for a positive rational `q`: the
number is doubled or halved, at most `fuel` times, until it lies in that range. -/
def binadeExp : ℕ → ℚ → ℤ → ℤ
  | 0, _, e => e
  | fuel + 1, q, e =>
    if q < 2 ^ 52 then binadeExp fuel (2 * q) (e - 1)
    else if 2 ^ 53 ≤ q then binadeExp fuel (q / 2) (e + 1)
    else e

/-- The binary64 number (a `double`) nearest to the rational `q`, a tie going to the even
significand of 53 bits: the value that the machine holds for the literal `q`, and the result
of an operation on `double` operands whose exact result is `q`.  Overflow and subnormal
numbers are left out. -/
def roundBinary64 (q : ℚ) : ℚ :=
  if q = 0 then 0
  else
    let e := binadeExp 2200 |q| 0
    let m := |q| / 2 ^ e
    let f := ⌊m⌋
    let n : ℤ :=
      if m - f < 1 / 2 then f
      else if 1 / 2 < m - f then f + 1
      else if f % 2 = 0 then f
      else f + 1
    (if q < 0 then -1 else 1) * n * 2 ^ e

/-- The statement `scale += dScale` of the carrot loop (line 659) on the `double` variable
`scale`, with `dScale` the `double` of the literal `0.05` (line 637). -/
def carrotScaleNext (scale_binary64 : ℚ) : ℚ :=
  roundBinary64 (scale_binary64 + roundBinary64 0.05)

/-- The loop `while (!done)` of the carrot planner (lines 639-675); `fuel` bounds the
number of iterations and `none` means that the bound was reached before the loop ended.
The variable `scale` is carried twice: `scale` is its value in the arithmetic of the scalar
field, from which the samples are computed, and `scale_binary64` is the binary64 number
that the `double` variable holds, on which the loop test `scale > 1.0` is evaluated.  The
two differ by the rounding of `0.05` and of the additions, and after twenty additions that
difference decides the test. -/
def carrotLoop {α : Type} [LinearOrderedField α] (M : MathLib α) (P : Planner α)
    (goal : PoseStamped α) (start_x start_y start_yaw diff_x diff_y diff_yaw : α) :
    ℕ → α → ℚ → List (PoseStamped α) → Option (List (PoseStamped α))
  | 0, _, _, _ => none
  | fuel + 1, scale, scale_binary64, plan =>
    let dScale : α := 0.05
    if scale_binary64 > 1 then some plan
    else
      let target_x := start_x + scale * diff_x
      let target_y := start_y + scale * diff_y
      let target_yaw := M.normalize_angle (start_yaw + scale * diff_yaw)
      let footprint_cost := footprintCost P target_x target_y target_yaw
      if footprint_cost < 0 then some plan
      else
        let new_goal : PoseStamped α := { goal with x := target_x, y := target_y, yaw := target_yaw }
        carrotLoop M P goal start_x start_y start_yaw diff_x diff_y diff_yaw fuel
          (scale + dScale) (carrotScaleNext scale_binary64) (plan ++ [new_goal])

/-- The planner after the assignment to `start_` (lines 313 and 317). -/
def Planner.withStart {α : Type} (P : Planner α) (s : PoseStamped α) : Planner α :=
  { P with start_ := s }

/-- The start pose that `makePlan` plans from (lines 311-318): the remembered last goal
when `last_goal_as_start_` and `valid_last_goal_` are both set, the `start` argument
otherwise. -/
def chooseStart {α : Type} (P : Planner α) (start : PoseStamped α) : PoseStamped α :=
  if bitAnd P.last_goal_as_start_ P.valid_last_goal_ then P.last_goal_ else start

/-- What a call of `makePlan` leaves behind: the returned flag, the plan argument, and the
planner. -/
structure PlanResult (α : Type) where
  success : Bool
  plan : List (PoseStamped α)
  planner : Planner α

/-- `ManeuverPlanner::makePlan`.  `fuel` bounds the number of iterations of the sampling
loop and of the carrot loop; the value is `none` when that bound is reached, and otherwise
the returned flag with the plan and the planner as the call leaves them. -/
def makePlan {α : Type} [LinearOrderedField α] (M : MathLib α) (fuel : ℕ) (P : Planner α)
    (start goal : PoseStamped α) (plan : List (PoseStamped α)) : Option (PlanResult α) :=
  if !P.initialized_ then some ⟨false, plan, P⟩
  else
    let plan : List (PoseStamped α) := []
    if goal.frame_id ≠ P.global_frame then some ⟨false, plan, P⟩
    else
      let start_ := chooseStart P start
      let P := P.withStart start_
      let mv := selectManeuver M P start_ goal
      if mv.curve_type ≠ CurveType.NONE then
        (samplerLoop M P goal mv fuel (samplerInit M mv plan)).map
          fun st => ⟨true, st.plan, P⟩
      else
        let goal_x := goal.x
        let goal_y := goal.y
        let start_x := start.x
        let start_y := start.y
        let diff_x := goal_x - start_x
        let diff_y := goal_y - start_y
        let diff_yaw := M.normalize_angle (mv.goal_yaw - mv.start_yaw)
        (carrotLoop M P goal start_x start_y mv.start_yaw diff_x diff_y diff_yaw fuel 0 0 plan).map
          fun plan => ⟨true, plan, P⟩

/-- What `initialize` and the planner read through the `costmap_ros` argument: the global
frame, the robot footprint, the resolution of the costmap, and the footprint cost of the
world model built on the costmap. -/
structure Costmap2DROS (α : Type) where
  global_frame : String
  footprint : List (Point α)
  resolution : α
  footprintCost : α → α → α → List (Point α) → α

/-- The parameters that `initialize` reads from the private node handle: for each the
value on the parameter server, when there is one. -/
structure Parameters (α : Type) where
  step_size : Option α
  min_dist_from_robot : Option α
  turning_radius : Option α
  use_last_goal_as_start : Option Bool

/-- The flags and the corners that the loop over the footprint in `initialize` (lines
81-111) updates. -/
structure Corners (α : Type) where
  topRightCorner_b : Bool
  topLeftCorner_b : Bool
  bottomRightCorner_b : Bool
  bottomLeftCorner_b : Bool
  topRightCorner_ : Point α
  topLeftCorner_ : Point α
  bottomRightCorner_ : Point α
  bottomLeftCorner_ : Point α

/-- The body of the loop over the footprint in `initialize` (lines 91-110). -/
def classifyCorner {α : Type} [LinearOrderedField α] (c : Corners α) (pt : Point α) :
    Corners α :=
  if pt.x > 0 ∧ pt.y > 0 then
    { c with topLeftCorner_b := true, topLeftCorner_ := pt }
  else if pt.x > 0 ∧ pt.y < 0 then
    { c with topRightCorner_b := true, topRightCorner_ := pt }
  else if pt.x < 0 ∧ pt.y < 0 then
    { c with bottomRightCorner_b := true, bottomRightCorner_ := pt }
  else if pt.x < 0 ∧ pt.y > 0 then
    { c with bottomLeftCorner_b := true, bottomLeftCorner_ := pt }
  else c

/-- `ManeuverPlanner::initialize`, on the planner `P` with the costmap and the parameters
it reads.  The Jacobians of the four corners (lines 120-130), which nothing reads, are left
out. -/
def initializePlanner {α : Type} [LinearOrderedField α] (P : Planner α)
    (costmap_ros : Costmap2DROS α) (params : Parameters α) : Planner α :=
  if !P.initialized_ then
    let P1 : Planner α :=
      { P with
        global_frame := costmap_ros.global_frame
        footprint := costmap_ros.footprint
        world_model_ := costmap_ros.footprintCost
        step_size_ := params.step_size.getD costmap_ros.resolution
        min_dist_from_robot_ := params.min_dist_from_robot.getD 0.10
        turning_radius_ := params.turning_radius.getD 0.8
        last_goal_as_start_ := params.use_last_goal_as_start.getD false
        valid_last_goal_ := false }
    let footprint := costmap_ros.footprint
    if footprint.length ≠ 4 then P1
    else
      let c := footprint.foldl classifyCorner
        { topRightCorner_b := false, topLeftCorner_b := false, bottomRightCorner_b := false,
          bottomLeftCorner_b := false, topRightCorner_ := P.topRightCorner_,
          topLeftCorner_ := P.topLeftCorner_, bottomRightCorner_ := P.bottomRightCorner_,
          bottomLeftCorner_ := P.bottomLeftCorner_ }
      let P2 : Planner α :=
        { P1 with
          topRightCorner_ := c.topRightCorner_
          topLeftCorner_ := c.topLeftCorner_
          bottomRightCorner_ := c.bottomRightCorner_
          bottomLeftCorner_ := c.bottomLeftCorner_ }
      if !(bitAnd (bitAnd (bitAnd c.topRightCorner_b c.topLeftCorner_b) c.bottomRightCorner_b)
          c.bottomLeftCorner_b) then P2
      else
        { P2 with
          left_side_ref_point_ := ⟨0.1, c.bottomLeftCorner_.y⟩
          right_side_ref_point_ := ⟨0.1, c.bottomRightCorner_.y⟩
          initialized_ := true }
  else P

/-- The tangent-line intersection `x_i = x - y / tan yaw` of a goal pose. -/
def xIntersection {α : Type} [LinearOrderedField α] (M : MathLib α) (p : Pose α) : α :=
  p.x - p.y / M.tan (getYaw M p)

/-- The distance `D = sqrt ((x - x_i)^2 + y^2)` from the goal to the intersection. -/
def distToIntersection {α : Type} [LinearOrderedField α] (M : MathLib α) (p : Pose α) : α :=
  M.sqrt ((p.x - xIntersection M p) ^ 2 + p.y ^ 2)

/-- The signed radius `R`: `+|r|` for a goal on the left (`y > 0`), `-|r|` otherwise. -/
def signedRadius {α : Type} [LinearOrderedField α] (p : Pose α) (r : α) : α :=
  if 0 < p.y then |r| else -|r|

/-- The distance `offset = R / tan ((pi - yaw) / 2)` from the intersection to the arc. -/
def steeringOffset {α : Type} [LinearOrderedField α] (M : MathLib α) (p : Pose α) (r : α) : α :=
  signedRadius p r / M.tan ((M.pi - getYaw M p) / 2)

/-- The curve type with `LEFT` and `RIGHT` exchanged. -/
def CurveType.mirror : CurveType → CurveType
  | CurveType.NONE => CurveType.NONE
  | CurveType.LEFT_CENTER_POINT => CurveType.RIGHT_CENTER_POINT
  | CurveType.RIGHT_CENTER_POINT => CurveType.LEFT_CENTER_POINT

/-- A planner as `initialize` leaves it for a rectangular footprint of 1.0 by 0.6 around
the center of rotation, with step size 0.05, turning radius 0.8, global frame `map`, and a
world model whose footprint cost is negative exactly for the poses with `x > 1`. -/
def scenarioPlanner (α : Type) [LinearOrderedField α] : Planner α where
  initialized_ := true
  global_frame := "map"
  footprint := [⟨0.5, 0.3⟩, ⟨0.5, -0.3⟩, ⟨-0.5, -0.3⟩, ⟨-0.5, 0.3⟩]
  world_model_ := fun x _ _ _ => if x > 1 then -1 else 0
  step_size_ := 0.05
  min_dist_from_robot_ := 0.10
  turning_radius_ := 0.8
  last_goal_as_start_ := false
  valid_last_goal_ := false
  last_goal_ := ⟨"map", 0, 0, 0⟩
  start_ := ⟨"map", 0, 0, 0⟩
  topRightCorner_ := ⟨0.5, -0.3⟩
  topLeftCorner_ := ⟨0.5, 0.3⟩
  bottomRightCorner_ := ⟨-0.5, -0.3⟩
  bottomLeftCorner_ := ⟨-0.5, 0.3⟩
  left_side_ref_point_ := ⟨0.1, 0.3⟩
  right_side_ref_point_ := ⟨0.1, -0.3⟩

/-- The goal expressed in the frame of the start (lines 338-339): `translate2D` by minus the
start position, then `rotate2D` by minus the start yaw. -/
def goalInStartFrame {α : Type} [LinearOrderedField α] (M : MathLib α)
    (start_ goal : PoseStamped α) : Pose α :=
  rotate2D M
    (translate2D (poseStampedMsgToTF goal) (-(poseStampedMsgToTF start_).x)
      (-(poseStampedMsgToTF start_).y))
    (-getYaw M (poseStampedMsgToTF start_))

/-- The goal re-framed about a reference point (lines 395-412): the reference point at the
goal, expressed in the frame of the reference point at the start. -/
def refpointGoalInRefstartFrame {α : Type} [LinearOrderedField α] (M : MathLib α)
    (start_ goal : PoseStamped α) (refpoint_tf_robot_coord : Pose α) : Pose α :=
  let start_tf := poseStampedMsgToTF start_
  let goal_tf := poseStampedMsgToTF goal
  let refpoint_start_tf :=
    translate2D (rotate2D M refpoint_tf_robot_coord (getYaw M start_tf)) start_tf.x start_tf.y
  let refpoint_goal_tf :=
    translate2D (rotate2D M refpoint_tf_robot_coord (getYaw M goal_tf)) goal_tf.x goal_tf.y
  rotate2D M (translate2D refpoint_goal_tf (-refpoint_start_tf.x) (-refpoint_start_tf.y))
    (-getYaw M refpoint_start_tf)

/-- The three branches of the sampling loop that compute a next point of the reference
trajectory (lines 535-554), under the names that the specification gives to the phases: the
source has no variable for the phase, the branch taken is decided anew in every iteration
from `dist_bef_steer`, `theta_refp_traj` and `dist_af_steer`. -/
inductive Phase where
  | STRAIGHT_BEFORE
  | TURNING
  | STRAIGHT_AFTER
  deriving DecidableEq, Repr

/-- The branch of lines 535-559 that an iteration takes in the state `st`; `none` stands
for the final `else` branch. -/
def samplerPhase {α : Type} [LinearOrderedField α] (M : MathLib α) (P : Planner α)
    (mv : Maneuver α) (st : SamplerState α) : Option Phase :=
  let theta_refp_goal := getYaw M mv.refpoint_goal_tf_refstart_coord
  let theta_refp_traj_gridsz := P.step_size_ / mv.signed_turning_radius_refp
  if st.dist_bef_steer < mv.dist_before_steering_refp then some Phase.STRAIGHT_BEFORE
  else if |theta_refp_goal - st.theta_refp_traj| > |theta_refp_traj_gridsz / 2| then
    some Phase.TURNING
  else if st.dist_af_steer < mv.dist_after_steering_refp then some Phase.STRAIGHT_AFTER
  else none

/-- The steps that the sampling loop takes from the state `st` in at most `fuel`
iterations: for every iteration that computes a next point, the branch it takes and the
state at the end of the iteration.  The recursion is that of `samplerLoop`. -/
def samplerSteps {α : Type} [LinearOrderedField α] (M : MathLib α) (P : Planner α)
    (goal : PoseStamped α) (mv : Maneuver α) :
    ℕ → SamplerState α → List (Phase × SamplerState α)
  | 0, _ => []
  | fuel + 1, st =>
    let st1 := samplerCheck M P goal st
    match samplerPhase M P mv st1, samplerAdvance M P mv st1 with
    | some phase, some st2 =>
      let st3 := samplerCenter M mv st2
      (phase, st3) :: (if st3.traj_ready then [] else samplerSteps M P goal mv fuel st3)
    | _, _ => []

/-- The open quadrant of a footprint point, in the order of the tests of `initialize`
(lines 91-110): `0` for `x > 0, y > 0`, `1` for `x > 0, y < 0`, `2` for `x < 0, y < 0`,
`3` for `x < 0, y > 0`, and `4` for a point on a coordinate axis. -/
def quadrant {α : Type} [LinearOrderedField α] (pt : Point α) : ℕ :=
  if pt.x > 0 ∧ pt.y > 0 then 0
  else if pt.x > 0 ∧ pt.y < 0 then 1
  else if pt.x < 0 ∧ pt.y < 0 then 2
  else if pt.x < 0 ∧ pt.y > 0 then 3
  else 4

/-- A costmap with the global frame `map`, a rectangular footprint of 1.0 by 0.6 around the
center of rotation, resolution 0.05, and a world model whose footprint cost is negative
exactly for the poses with `x > 1`. -/
def scenarioCostmap (α : Type) [LinearOrderedField α] : Costmap2DROS α where
  global_frame := "map"
  footprint := [⟨0.5, 0.3⟩, ⟨0.5, -0.3⟩, ⟨-0.5, -0.3⟩, ⟨-0.5, 0.3⟩]
  resolution := 0.05
  footprintCost := fun x _ _ _ => if x > 1 then -1 else 0

/-- A planner on which `initialize` has not run. -/
def uninitializedPlanner (α : Type) [LinearOrderedField α] : Planner α where
  initialized_ := false
  global_frame := ""
  footprint := []
  world_model_ := fun _ _ _ _ => 0
  step_size_ := 0
  min_dist_from_robot_ := 0
  turning_radius_ := 0
  last_goal_as_start_ := false
  valid_last_goal_ := false
  last_goal_ := ⟨"", 0, 0, 0⟩
  start_ := ⟨"", 0, 0, 0⟩
  topRightCorner_ := ⟨0, 0⟩
  topLeftCorner_ := ⟨0, 0⟩
  bottomRightCorner_ := ⟨0, 0⟩
  bottomLeftCorner_ := ⟨0, 0⟩
  left_side_ref_point_ := ⟨0, 0⟩
  right_side_ref_point_ := ⟨0, 0⟩

/-- The scenario planner in a world without obstacles: every footprint cost is `0`. -/
def freePlanner (α : Type) [LinearOrderedField α] : Planner α :=
  { scenarioPlanner α with world_model_ := fun _ _ _ _ => 0 }

/-- The candidate reference point of `makePlan` (lines 358-389) for the curve type that the
solver returns for the center of rotation: the top right corner for a left turn, the
reference point on the right side for a right turn. -/
def candidateRefpoint {α : Type} [LinearOrderedField α] (P : Planner α) : CurveType → Pose α
  | CurveType.LEFT_CENTER_POINT => ⟨P.topRightCorner_.x, P.topRightCorner_.y, 0⟩
  | CurveType.RIGHT_CENTER_POINT => ⟨P.right_side_ref_point_.x, P.right_side_ref_point_.y, 0⟩
  | CurveType.NONE => ⟨0, 0, 0⟩

/-- The maneuver of the goal `(1, 1, pi / 2)` seen from the start `(0, 0, 0)` for the
center of rotation and the turning radius `1`: a left turn that starts at once. -/
def quarterTurn {α : Type} [LinearOrderedField α] (M : MathLib α) : Maneuver α where
  curve_type := CurveType.LEFT_CENTER_POINT
  start_tf := ⟨0, 0, 0⟩
  start_yaw := 0
  goal_yaw := M.pi / 2
  refpoint_tf_robot_coord := ⟨0, 0, 0⟩
  refpoint_goal_tf_refstart_coord := ⟨1, 1, M.pi / 2⟩
  dist_before_steering_refp := 0
  dist_after_steering_refp := 0
  signed_turning_radius_refp := 1

/-- The pose that the obstacle check appends to the plan for the center pose of the state
(lines 519-531): a copy of `goal` with the position and the yaw of the center pose. -/
def trajPoint {α : Type} (M : MathLib α) (goal : PoseStamped α) (st : SamplerState α) :
    PoseStamped α :=
  { goal with x := st.center_traj_point_tf.x, y := st.center_traj_point_tf.y,
              yaw := getYaw M st.center_traj_point_tf }

/-- The solver with the condition `dist_before_steering > x_intersection` removed from the
final check, and otherwise as `computeCurveParameters`: the variant with which the
redundancy of that condition is stated. -/
def computeCurveParametersTwoChecks {α : Type} [LinearOrderedField α] (M : MathLib α)
    (pose_target : Pose α) (turning_radius : α) : CurveParameters α :=
  let x_target := pose_target.x
  let y_target := pose_target.y
  let yaw_target := getYaw M pose_target
  let x_intersection := x_target - y_target / M.tan yaw_target
  if x_intersection < 0 then
    ⟨CurveType.NONE, -1, -1, 0⟩
  else
    let dist_target_to_intersection :=
      M.sqrt ((x_target - x_intersection) * (x_target - x_intersection) + y_target * y_target)
    let side : Option (CurveType × α) :=
      if y_target > 0 then
        if bitOr (decide (yaw_target < 0)) (decide (yaw_target > M.pi)) then none
        else some (CurveType.LEFT_CENTER_POINT, |turning_radius|)
      else
        if bitOr (decide (yaw_target > 0)) (decide (yaw_target < -M.pi)) then none
        else some (CurveType.RIGHT_CENTER_POINT, -|turning_radius|)
    match side with
    | none => ⟨CurveType.NONE, -1, -1, 0⟩
    | some (curve_type, signed_turning_radius) =>
      let dist_x_intersection_steering :=
        signed_turning_radius / M.tan ((M.pi - yaw_target) / 2)
      let dist_before_steering := x_intersection - dist_x_intersection_steering
      let dist_after_steering := dist_target_to_intersection - dist_x_intersection_steering
      if bitOr (decide (dist_before_steering < 0)) (decide (dist_after_steering < 0)) then
        ⟨CurveType.NONE, dist_before_steering, dist_after_steering, signed_turning_radius⟩
      else
        ⟨curve_type, dist_before_steering, dist_after_steering, signed_turning_radius⟩

/-- The determinant of a two by two matrix. -/
def Mat2.det {α : Type} [LinearOrderedField α] (A : Mat2 α) : α :=
  A.m00 * A.m11 - A.m01 * A.m10

/-- The Jacobian `jacobian_motrefPoint_` of the reference point (lines 483-484). -/
def jacobianMotRefPoint {α : Type} [LinearOrderedField α] (mv : Maneuver α) : Mat2 α :=
  ⟨1, -mv.refpoint_tf_robot_coord.y, 0, mv.refpoint_tf_robot_coord.x⟩

/-- The matrix `invjacobian_motrefPoint` (lines 485-495): the inverse of the Jacobian when
the reference point has `x ≠ 0`, the zero matrix otherwise. -/
def invJacobianMotRefPoint {α : Type} [LinearOrderedField α] (mv : Maneuver α) : Mat2 α :=
  if mv.refpoint_tf_robot_coord.x ≠ 0 then (jacobianMotRefPoint mv).inv else ⟨0, 0, 0, 0⟩

/-- The planner with the world model replaced by `W`: the same planner under another
oracle. -/
def Planner.withWorldModel {α : Type} (P : Planner α)
    (W : α → α → α → List (Point α) → α) : Planner α :=
  { P with world_model_ := W }

/-- The numeric library in real arithmetic with the constant `M_PI` as the C header gives
it: the binary64 number nearest to pi, `884279719003555 / 2 ^ 48`, which is smaller than pi
by about `1.2e-16`. -/
noncomputable def headerPiMath : MathLib ℝ :=
  { realMath with pi := 884279719003555 / 281474976710656 }

/-- The value of a `double` expression as far as the special values of IEEE arithmetic go:
a number of the scalar field, an infinity, or a NaN.  Rounding is left out, and so is the
sign of a zero. -/
inductive DoubleValue (α : Type) where
  | fin (x : α)
  | posInf
  | negInf
  | nan

/-- The sign of a value: `1`, `0` or `-1`, and `0` for a NaN. -/
def DoubleValue.sign {α : Type} [LinearOrderedField α] : DoubleValue α → ℤ
  | DoubleValue.fin x => if 0 < x then 1 else if x < 0 then -1 else 0
  | DoubleValue.posInf => 1
  | DoubleValue.negInf => -1
  | DoubleValue.nan => 0

/-- The negation of IEEE arithmetic. -/
def DoubleValue.neg {α : Type} [LinearOrderedField α] : DoubleValue α → DoubleValue α
  | DoubleValue.fin x => DoubleValue.fin (-x)
  | DoubleValue.posInf => DoubleValue.negInf
  | DoubleValue.negInf => DoubleValue.posInf
  | DoubleValue.nan => DoubleValue.nan

/-- The sum of IEEE arithmetic: the sum of the two infinities is a NaN. -/
def DoubleValue.add {α : Type} [LinearOrderedField α] :
    DoubleValue α → DoubleValue α → DoubleValue α
  | DoubleValue.fin x, DoubleValue.fin y => DoubleValue.fin (x + y)
  | DoubleValue.nan, _ => DoubleValue.nan
  | _, DoubleValue.nan => DoubleValue.nan
  | DoubleValue.posInf, DoubleValue.negInf => DoubleValue.nan
  | DoubleValue.negInf, DoubleValue.posInf => DoubleValue.nan
  | DoubleValue.posInf, _ => DoubleValue.posInf
  | _, DoubleValue.posInf => DoubleValue.posInf
  | DoubleValue.negInf, _ => DoubleValue.negInf
  | _, DoubleValue.negInf => DoubleValue.negInf

/-- The difference of IEEE arithmetic. -/
def DoubleValue.sub {α : Type} [LinearOrderedField α] (a b : DoubleValue α) : DoubleValue α :=
  a.add b.neg

/-- The product of IEEE arithmetic: zero times an infinity is a NaN. -/
def DoubleValue.mul {α : Type} [LinearOrderedField α] :
    DoubleValue α → DoubleValue α → DoubleValue α
  | DoubleValue.fin x, DoubleValue.fin y => DoubleValue.fin (x * y)
  | DoubleValue.nan, _ => DoubleValue.nan
  | _, DoubleValue.nan => DoubleValue.nan
  | a, b =>
    if a.sign * b.sign = 0 then DoubleValue.nan
    else if 0 < a.sign * b.sign then DoubleValue.posInf
    else DoubleValue.negInf

/-- The quotient of IEEE arithmetic: a number other than zero over zero is the infinity
with the sign of the dividend (the zero divisor is read as `+0`), zero over zero and an
infinity over an infinity are a NaN, and a number over an infinity is zero. -/
def DoubleValue.div {α : Type} [LinearOrderedField α] :
    DoubleValue α → DoubleValue α → DoubleValue α
  | DoubleValue.nan, _ => DoubleValue.nan
  | _, DoubleValue.nan => DoubleValue.nan
  | DoubleValue.fin x, DoubleValue.fin y =>
    if y = 0 then
      if 0 < x then DoubleValue.posInf
      else if x < 0 then DoubleValue.negInf
      else DoubleValue.nan
    else DoubleValue.fin (x / y)
  | DoubleValue.fin _, _ => DoubleValue.fin 0
  | a, DoubleValue.fin y => if 0 ≤ y then a else a.neg
  | _, _ => DoubleValue.nan

/-- The square root of IEEE arithmetic. -/
def DoubleValue.sqrt {α : Type} [LinearOrderedField α] (M : MathLib α) :
    DoubleValue α → DoubleValue α
  | DoubleValue.fin x => if x < 0 then DoubleValue.nan else DoubleValue.fin (M.sqrt x)
  | DoubleValue.posInf => DoubleValue.posInf
  | DoubleValue.negInf => DoubleValue.nan
  | DoubleValue.nan => DoubleValue.nan

/-- The comparison `a < b` of IEEE arithmetic: false whenever an operand is a NaN. -/
def DoubleValue.lt {α : Type} [LinearOrderedField α] : DoubleValue α → DoubleValue α → Bool
  | DoubleValue.fin x, DoubleValue.fin y => decide (x < y)
  | DoubleValue.nan, _ => false
  | _, DoubleValue.nan => false
  | DoubleValue.negInf, DoubleValue.negInf => false
  | DoubleValue.negInf, _ => true
  | _, DoubleValue.negInf => false
  | DoubleValue.posInf, _ => false
  | _, DoubleValue.posInf => true

/-- The tangent of an angle of the scalar field as a `DoubleValue`: the value of the
library, and the infinity with the sign of the sine at an angle whose cosine is zero (a
pole of the tangent, which no `double` is, so that the source never divides by zero
there). -/
def DoubleValue.tan {α : Type} [LinearOrderedField α] (M : MathLib α) (x : α) :
    DoubleValue α :=
  if M.cos x = 0 then
    if 0 < M.sin x then DoubleValue.posInf else DoubleValue.negInf
  else DoubleValue.fin (M.tan x)

/-- The value of `computeCurveParameters` with the special values of IEEE arithmetic. -/
structure CurveParametersIEEE (α : Type) where
  curve_type : CurveType
  dist_before_steering : DoubleValue α
  dist_after_steering : DoubleValue α
  signed_turning_radius : α

/-- `ManeuverPlanner::computeCurveParameters` with the special values of IEEE arithmetic:
the statements of the source as in `computeCurveParameters`, with the quotients, sums,
products and comparisons of `DoubleValue`, so that a division by zero gives an infinity or a
NaN as it does in the source, and a comparison with a NaN is false.  The signed radius is
plus or minus `|turning_radius|`, a number.  Rounding is left out. -/
def computeCurveParametersIEEE {α : Type} [LinearOrderedField α] (M : MathLib α)
    (pose_target : Pose α) (turning_radius : α) : CurveParametersIEEE α :=
  let x_target := pose_target.x
  let y_target := pose_target.y
  let yaw_target := getYaw M pose_target
  let x_intersection :=
    (DoubleValue.fin x_target).sub
      ((DoubleValue.fin y_target).div (DoubleValue.tan M yaw_target))
  if x_intersection.lt (DoubleValue.fin 0) then
    ⟨CurveType.NONE, DoubleValue.fin (-1), DoubleValue.fin (-1), 0⟩
  else
    let dist_target_to_intersection :=
      DoubleValue.sqrt M
        ((((DoubleValue.fin x_target).sub x_intersection).mul
            ((DoubleValue.fin x_target).sub x_intersection)).add
          (DoubleValue.fin (y_target * y_target)))
    let side : Option (CurveType × α) :=
      if y_target > 0 then
        if bitOr (decide (yaw_target < 0)) (decide (yaw_target > M.pi)) then none
        else some (CurveType.LEFT_CENTER_POINT, |turning_radius|)
      else
        if bitOr (decide (yaw_target > 0)) (decide (yaw_target < -M.pi)) then none
        else some (CurveType.RIGHT_CENTER_POINT, -|turning_radius|)
    match side with
    | none => ⟨CurveType.NONE, DoubleValue.fin (-1), DoubleValue.fin (-1), 0⟩
    | some (curve_type, signed_turning_radius) =>
      let dist_x_intersection_steering :=
        (DoubleValue.fin signed_turning_radius).div
          (DoubleValue.tan M ((M.pi - yaw_target) / 2))
      let dist_before_steering := x_intersection.sub dist_x_intersection_steering
      let dist_after_steering := dist_target_to_intersection.sub dist_x_intersection_steering
      if bitOr (bitOr (dist_before_steering.lt (DoubleValue.fin 0))
            (dist_after_steering.lt (DoubleValue.fin 0)))
          (x_intersection.lt dist_before_steering) then
        ⟨CurveType.NONE, dist_before_steering, dist_after_steering, signed_turning_radius⟩
      else
        ⟨curve_type, dist_before_steering, dist_after_steering, signed_turning_radius⟩

/-- The value of `computeCurveParameters` read as a value with special values. -/
def CurveParameters.toIEEE {α : Type} (c : CurveParameters α) : CurveParametersIEEE α :=
  ⟨c.curve_type, DoubleValue.fin c.dist_before_steering,
    DoubleValue.fin c.dist_after_steering, c.signed_turning_radius⟩

/-! ## Lemmas -/

theorem bitOr_eq_or (a b : Bool) : bitOr a b = (a || b) := by
  cases a <;> cases b <;> rfl

theorem bitAnd_eq_and (a b : Bool) : bitAnd a b = (a && b) := by
  cases a <;> cases b <;> rfl

/-- The solver written with the logical connectives and without the intermediate option:
the three early returns give the initial output values, the last check returns `NONE`
with the computed outputs. -/
theorem computeCurveParameters_eq {α : Type} [LinearOrderedField α] (M : MathLib α)
    (p : Pose α) (r : α) :
    computeCurveParameters M p r =
      if p.x - p.y / M.tan (getYaw M p) < 0 then ⟨CurveType.NONE, -1, -1, 0⟩
      else if 0 < p.y then
        if getYaw M p < 0 ∨ M.pi < getYaw M p then ⟨CurveType.NONE, -1, -1, 0⟩
        else if (p.x - p.y / M.tan (getYaw M p) - |r| / M.tan ((M.pi - getYaw M p) / 2) < 0 ∨
            M.sqrt ((p.x - (p.x - p.y / M.tan (getYaw M p)))
                * (p.x - (p.x - p.y / M.tan (getYaw M p))) + p.y * p.y)
              - |r| / M.tan ((M.pi - getYaw M p) / 2) < 0) ∨
            p.x - p.y / M.tan (getYaw M p)
              < p.x - p.y / M.tan (getYaw M p) - |r| / M.tan ((M.pi - getYaw M p) / 2) then
          ⟨CurveType.NONE,
            p.x - p.y / M.tan (getYaw M p) - |r| / M.tan ((M.pi - getYaw M p) / 2),
            M.sqrt ((p.x - (p.x - p.y / M.tan (getYaw M p)))
                * (p.x - (p.x - p.y / M.tan (getYaw M p))) + p.y * p.y)
              - |r| / M.tan ((M.pi - getYaw M p) / 2), |r|⟩
        else
          ⟨CurveType.LEFT_CENTER_POINT,
            p.x - p.y / M.tan (getYaw M p) - |r| / M.tan ((M.pi - getYaw M p) / 2),
            M.sqrt ((p.x - (p.x - p.y / M.tan (getYaw M p)))
                * (p.x - (p.x - p.y / M.tan (getYaw M p))) + p.y * p.y)
              - |r| / M.tan ((M.pi - getYaw M p) / 2), |r|⟩
      else
        if 0 < getYaw M p ∨ getYaw M p < -M.pi then ⟨CurveType.NONE, -1, -1, 0⟩
        else if (p.x - p.y / M.tan (getYaw M p) - -|r| / M.tan ((M.pi - getYaw M p) / 2) < 0 ∨
            M.sqrt ((p.x - (p.x - p.y / M.tan (getYaw M p)))
                * (p.x - (p.x - p.y / M.tan (getYaw M p))) + p.y * p.y)
              - -|r| / M.tan ((M.pi - getYaw M p) / 2) < 0) ∨
            p.x - p.y / M.tan (getYaw M p)
              < p.x - p.y / M.tan (getYaw M p) - -|r| / M.tan ((M.pi - getYaw M p) / 2) then
          ⟨CurveType.NONE,
            p.x - p.y / M.tan (getYaw M p) - -|r| / M.tan ((M.pi - getYaw M p) / 2),
            M.sqrt ((p.x - (p.x - p.y / M.tan (getYaw M p)))
                * (p.x - (p.x - p.y / M.tan (getYaw M p))) + p.y * p.y)
              - -|r| / M.tan ((M.pi - getYaw M p) / 2), -|r|⟩
        else
          ⟨CurveType.RIGHT_CENTER_POINT,
            p.x - p.y / M.tan (getYaw M p) - -|r| / M.tan ((M.pi - getYaw M p) / 2),
            M.sqrt ((p.x - (p.x - p.y / M.tan (getYaw M p)))
                * (p.x - (p.x - p.y / M.tan (getYaw M p))) + p.y * p.y)
              - -|r| / M.tan ((M.pi - getYaw M p) / 2), -|r|⟩ := by
  unfold computeCurveParameters
  simp only [bitOr_eq_or, gt_iff_lt, Bool.or_eq_true, decide_eq_true_eq]
  split_ifs <;> simp only [*, if_true, if_false]

/-- The wrapped angle lies in `(-pi, pi]`. -/
theorem wrapAngle_mem {α : Type} [LinearOrderedField α] [FloorRing α] {pi : α} (hpi : 0 < pi)
    (a : α) : -pi < wrapAngle pi a ∧ wrapAngle pi a ≤ pi := by
  have h2 : (0 : α) < 2 * pi := by linarith
  have hc := Int.ceil_lt_add_one ((a - pi) / (2 * pi))
  have hc2 := Int.le_ceil ((a - pi) / (2 * pi))
  rw [← sub_lt_iff_lt_add, lt_div_iff₀ h2] at hc
  rw [div_le_iff₀ h2] at hc2
  unfold wrapAngle
  constructor <;> linarith

/-- An angle of `(-pi, pi]` is its own wrapped representative. -/
theorem wrapAngle_of_mem {α : Type} [LinearOrderedField α] [FloorRing α] {pi a : α}
    (h1 : -pi < a) (h2 : a ≤ pi) : wrapAngle pi a = a := by
  have hpi : (0 : α) < 2 * pi := by linarith
  have hc : Int.ceil ((a - pi) / (2 * pi)) = 0 := by
    rw [Int.ceil_eq_iff]
    constructor
    · rw [lt_div_iff₀ hpi]; push_cast; linarith
    · rw [div_le_iff₀ hpi]; push_cast; linarith
  simp [wrapAngle, hc]

theorem wrapAngle_idem {α : Type} [LinearOrderedField α] [FloorRing α] {pi : α} (hpi : 0 < pi)
    (a : α) : wrapAngle pi (wrapAngle pi a) = wrapAngle pi a :=
  wrapAngle_of_mem (wrapAngle_mem hpi a).1 (wrapAngle_mem hpi a).2

theorem getYaw_realMath_of_mem {p : Pose ℝ} (h1 : -Real.pi < p.yaw) (h2 : p.yaw ≤ Real.pi) :
    getYaw realMath p = p.yaw :=
  wrapAngle_of_mem h1 h2

/-- For a heading strictly between `0` and `pi` the tangent of `(pi - yaw) / 2` is positive. -/
theorem tan_half_pos {yaw : ℝ} (h0 : 0 < yaw) (h1 : yaw < Real.pi) :
    0 < Real.tan ((Real.pi - yaw) / 2) :=
  Real.tan_pos_of_pos_of_lt_pi_div_two (by linarith) (by linarith)

/-- For a heading strictly between `-pi` and `0` the tangent of `(pi - yaw) / 2` is
negative. -/
theorem tan_half_neg {yaw : ℝ} (h0 : yaw < 0) (h1 : -Real.pi < yaw) :
    Real.tan ((Real.pi - yaw) / 2) < 0 := by
  have h := Real.tan_neg_of_neg_of_pi_div_two_lt (x := (Real.pi - yaw) / 2 - Real.pi)
    (by linarith) (by linarith)
  rwa [Real.tan_sub_pi] at h

/-- A heading of `[-pi, pi]` that is no multiple of `pi` is neither `0` nor `pi` nor `-pi`. -/
theorem not_multiple_pi {yaw : ℝ} (h : ∀ k : ℤ, yaw ≠ k * Real.pi) :
    yaw ≠ 0 ∧ yaw ≠ Real.pi ∧ yaw ≠ -Real.pi := by
  refine ⟨?_, ?_, ?_⟩
  · simpa using h 0
  · simpa using h 1
  · simpa using h (-1)

/-- The decision of `computeCurveParameters` in terms of `x_i`, `D`, `R` and `offset`. -/
theorem computeCurveParameters_spec {α : Type} [LinearOrderedField α]
    (M : MathLib α) (p : Pose α) (r : α) :
    ((computeCurveParameters M p r).curve_type ≠ CurveType.NONE ↔
      (0 ≤ xIntersection M p ∧
       ((0 < p.y ∧ 0 ≤ getYaw M p ∧ getYaw M p ≤ M.pi) ∨
        (p.y ≤ 0 ∧ -M.pi ≤ getYaw M p ∧ getYaw M p ≤ 0)) ∧
       (0 ≤ xIntersection M p - steeringOffset M p r ∧
        0 ≤ distToIntersection M p - steeringOffset M p r ∧
        xIntersection M p - steeringOffset M p r ≤ xIntersection M p))) ∧
    ((computeCurveParameters M p r).curve_type ≠ CurveType.NONE →
      ((computeCurveParameters M p r).curve_type = CurveType.LEFT_CENTER_POINT ↔ 0 < p.y) ∧
      ((computeCurveParameters M p r).curve_type = CurveType.RIGHT_CENTER_POINT ↔ ¬ 0 < p.y) ∧
      (computeCurveParameters M p r).dist_before_steering
        = xIntersection M p - steeringOffset M p r ∧
      (computeCurveParameters M p r).dist_after_steering
        = distToIntersection M p - steeringOffset M p r ∧
      (computeCurveParameters M p r).signed_turning_radius = signedRadius p r) := by
  unfold computeCurveParameters steeringOffset distToIntersection signedRadius xIntersection
  simp only [bitOr_eq_or, gt_iff_lt, pow_two]
  generalize getYaw M p = yaw
  generalize p.x - p.y / M.tan yaw = xi
  generalize M.sqrt ((p.x - xi) * (p.x - xi) + p.y * p.y) = D
  generalize M.tan ((M.pi - yaw) / 2) = t
  by_cases hx : xi < 0
  · simp [hx, not_le.mpr hx]
  · by_cases hy : 0 < p.y
    · by_cases h1 : yaw < 0
      · simp [hx, hy, h1, not_le.mpr h1]
      by_cases h2 : M.pi < yaw
      · simp [hx, hy, h1, h2, not_le.mpr h2]
      by_cases hb : xi - |r| / t < 0
      · simp [hx, hy, h1, h2, hb, not_le.mpr hb]
      by_cases ha : D - |r| / t < 0
      · simp [hx, hy, h1, h2, hb, ha, not_le.mpr ha]
      by_cases hc : xi < xi - |r| / t
      · simp [hx, hy, h1, h2, hb, ha, hc, not_le.mpr hc]
      · simp [hx, hy, h1, h2, hb, ha, hc, not_lt.mp hx, not_lt.mp h1, not_lt.mp h2, not_lt.mp hb,
          not_lt.mp ha, not_lt.mp hc]
    · by_cases h1 : 0 < yaw
      · simp [hx, hy, h1, not_le.mpr h1]
      by_cases h2 : yaw < -M.pi
      · simp [hx, hy, h1, h2, not_le.mpr h2]
      by_cases hb : xi - -|r| / t < 0
      · simp [hx, hy, h1, h2, hb, not_le.mpr hb]
      by_cases ha : D - -|r| / t < 0
      · simp [hx, hy, h1, h2, hb, ha, not_le.mpr ha]
      by_cases hc : xi < xi - -|r| / t
      · simp [hx, hy, h1, h2, hb, ha, hc, not_le.mpr hc]
      · simp [hx, hy, h1, h2, hb, ha, hc, not_lt.mp hx, not_lt.mp h1, not_lt.mp h2, not_lt.mp hb,
          not_lt.mp ha, not_lt.mp hc, not_lt.mp hy]

/-- In exact arithmetic, for a feasible goal whose heading is no multiple of `pi`, the
quantities of the solver are `x_i = x - y cos yaw / sin yaw`, `D = y / sin yaw` and
`offset = R tan (yaw / 2)`, with `sin yaw` and `cos (yaw / 2)` non-zero. -/
theorem solver_quantities_real (p : Pose ℝ) (r : ℝ)
    (hyaw : ∀ k : ℤ, getYaw realMath p ≠ k * Real.pi)
    (hne : (computeCurveParameters realMath p r).curve_type ≠ CurveType.NONE) :
    Real.sin (getYaw realMath p) ≠ 0 ∧ Real.cos (getYaw realMath p / 2) ≠ 0 ∧
    xIntersection realMath p
      = p.x - p.y * Real.cos (getYaw realMath p) / Real.sin (getYaw realMath p) ∧
    distToIntersection realMath p = p.y / Real.sin (getYaw realMath p) ∧
    steeringOffset realMath p r
      = signedRadius p r * (Real.sin (getYaw realMath p / 2) / Real.cos (getYaw realMath p / 2)) := by
  obtain ⟨hiff, -⟩ := computeCurveParameters_spec realMath p r
  obtain ⟨-, hside, -⟩ := hiff.mp hne
  obtain ⟨h0, hpi, hnpi⟩ := not_multiple_pi hyaw
  unfold steeringOffset distToIntersection xIntersection
  have hfields : realMath.tan = Real.tan ∧ realMath.sqrt = Real.sqrt ∧ realMath.pi = Real.pi :=
    ⟨rfl, rfl, rfl⟩
  obtain ⟨ht, hq, hp⟩ := hfields
  rw [ht, hq, hp] at *
  generalize getYaw realMath p = yaw at *
  have hrange : -Real.pi < yaw ∧ yaw < Real.pi := by
    rcases hside with ⟨-, h1, h2⟩ | ⟨-, h1, h2⟩
    · exact ⟨by linarith [Real.pi_pos], lt_of_le_of_ne h2 hpi⟩
    · exact ⟨lt_of_le_of_ne h1 (Ne.symm hnpi), by linarith [Real.pi_pos]⟩
  have hs : Real.sin yaw ≠ 0 := by
    intro h
    obtain ⟨n, hn⟩ := Real.sin_eq_zero_iff.mp h
    exact hyaw n hn.symm
  have hc : Real.cos (yaw / 2) ≠ 0 :=
    (Real.cos_pos_of_mem_Ioo ⟨by linarith, by linarith⟩).ne'
  have hdiv : p.y / Real.tan yaw = p.y * Real.cos yaw / Real.sin yaw := by
    rw [Real.tan_eq_sin_div_cos, div_div_eq_mul_div]
  have hsign : 0 ≤ p.y / Real.sin yaw := by
    rcases hside with ⟨hy, h1, -⟩ | ⟨hy, -, h2⟩
    · exact div_nonneg hy.le
        (Real.sin_pos_of_pos_of_lt_pi (lt_of_le_of_ne h1 (Ne.symm h0)) hrange.2).le
    · exact div_nonneg_of_nonpos hy
        (Real.sin_neg_of_neg_of_neg_pi_lt (lt_of_le_of_ne h2 h0) hrange.1).le
  refine ⟨hs, hc, by rw [hdiv], ?_, ?_⟩
  · rw [hdiv, Real.sqrt_eq_iff_eq_sq (by positivity) hsign]
    field_simp
    have := Real.sin_sq_add_cos_sq yaw
    nlinarith [this]
  · have hhalf : (Real.pi - yaw) / 2 = Real.pi / 2 - yaw / 2 := by ring
    rw [hhalf, Real.tan_pi_div_two_sub, div_inv_eq_mul, Real.tan_eq_sin_div_cos]

theorem half_pi_not_multiple (k : ℤ) : Real.pi / 2 ≠ k * Real.pi := by
  intro h
  have hpi := Real.pi_pos
  have h1 : (2 : ℝ) * k = 1 := by
    have : Real.pi * (2 * k) = Real.pi * 1 := by linarith
    exact mul_left_cancel₀ hpi.ne' this
  have h2 : (2 : ℤ) * k = 1 := by exact_mod_cast h1
  omega

theorem getYaw_half_pi (x y : ℝ) : getYaw realMath ⟨x, y, Real.pi / 2⟩ = Real.pi / 2 :=
  getYaw_realMath_of_mem (by linarith [Real.pi_pos]) (by linarith [Real.pi_pos])

/-- The solver on the goal `(2, 1, pi / 2)` with radius `0.8`. -/
theorem solver_scenario1 :
    computeCurveParameters realMath ⟨2, 1, Real.pi / 2⟩ (4 / 5)
      = ⟨CurveType.LEFT_CENTER_POINT, 6 / 5, 1 / 5, 4 / 5⟩ := by
  have hq : (Real.pi - Real.pi / 2) / 2 = Real.pi / 4 := by ring
  have hpi := Real.pi_pos
  have h1 : ¬ Real.pi / 2 < 0 := by linarith
  have h2 : ¬ Real.pi < Real.pi / 2 := by linarith
  simp only [computeCurveParameters, getYaw_half_pi, bitOr_eq_or]
  simp only [realMath, Real.tan_pi_div_two, hq, Real.tan_pi_div_four]
  have h3 : |(4 / 5 : ℝ)| = 4 / 5 := abs_of_pos (by norm_num)
  norm_num [h1, h2, h3]

theorem getYaw_neg_half_pi (x y : ℝ) : getYaw realMath ⟨x, y, -(Real.pi / 2)⟩ = -(Real.pi / 2) :=
  getYaw_realMath_of_mem (by linarith [Real.pi_pos]) (by linarith [Real.pi_pos])

theorem getYaw_quarter_pi (x y : ℝ) : getYaw realMath ⟨x, y, Real.pi / 4⟩ = Real.pi / 4 :=
  getYaw_realMath_of_mem (by linarith [Real.pi_pos]) (by linarith [Real.pi_pos])

theorem getYaw_neg_quarter_pi (x y : ℝ) :
    getYaw realMath ⟨x, y, -(Real.pi / 4)⟩ = -(Real.pi / 4) :=
  getYaw_realMath_of_mem (by linarith [Real.pi_pos]) (by linarith [Real.pi_pos])

theorem quarter_pi_not_multiple (k : ℤ) : Real.pi / 4 ≠ k * Real.pi := by
  intro h
  have hpi := Real.pi_pos
  have h1 : (4 : ℝ) * k = 1 := by
    have : Real.pi * (4 * k) = Real.pi * 1 := by linarith
    exact mul_left_cancel₀ hpi.ne' this
  have h2 : (4 : ℤ) * k = 1 := by exact_mod_cast h1
  omega

/-- The tangent of `(pi - yaw) / 2` changes sign when the heading is negated. -/
theorem tan_half_mirror (yaw : ℝ) :
    Real.tan ((Real.pi - -yaw) / 2) = -Real.tan ((Real.pi - yaw) / 2) := by
  have h : (Real.pi - -yaw) / 2 = Real.pi - (Real.pi - yaw) / 2 := by ring
  rw [h, Real.tan_pi_sub]

/-- Mirror symmetry of the solver for a goal off the start axis. -/
theorem solver_mirror (p q : Pose ℝ) (r : ℝ) (hx : q.x = p.x) (hy : q.y = -p.y)
    (hyaw : getYaw realMath q = -getYaw realMath p) (hy0 : p.y ≠ 0) :
    computeCurveParameters realMath q r
      = ⟨(computeCurveParameters realMath p r).curve_type.mirror,
         (computeCurveParameters realMath p r).dist_before_steering,
         (computeCurveParameters realMath p r).dist_after_steering,
         -(computeCurveParameters realMath p r).signed_turning_radius⟩ := by
  rw [computeCurveParameters_eq realMath q r, computeCurveParameters_eq realMath p r]
  simp only [hx, hy, hyaw]
  have hfields : realMath.tan = Real.tan ∧ realMath.sqrt = Real.sqrt ∧ realMath.pi = Real.pi :=
    ⟨rfl, rfl, rfl⟩
  obtain ⟨ht, hq, hp⟩ := hfields
  rw [ht, hq, hp]
  rw [Real.tan_neg, tan_half_mirror, neg_div_neg_eq, neg_mul_neg]
  generalize getYaw realMath p = yaw
  generalize p.x - p.y / Real.tan yaw = xi
  generalize Real.sqrt ((p.x - xi) * (p.x - xi) + p.y * p.y) = D
  generalize Real.tan ((Real.pi - yaw) / 2) = t
  have e1 : (-yaw < 0) = (0 < yaw) := propext neg_lt_zero
  have e2 : (Real.pi < -yaw) = (yaw < -Real.pi) := propext lt_neg
  have e3 : (0 < -yaw) = (yaw < 0) := propext neg_pos
  have e4 : (-yaw < -Real.pi) = (Real.pi < yaw) := propext neg_lt_neg_iff
  have e5 : |r| / -t = -|r| / t := by rw [div_neg, neg_div]
  have e6 : -|r| / -t = |r| / t := neg_div_neg_eq _ _
  simp only [e1, e2, e3, e4, e5, e6]
  generalize -|r| / t = o1
  generalize |r| / t = o2
  by_cases hxi : xi < 0
  · simp only [hxi, if_true, CurveType.mirror, neg_zero]
  · rcases lt_or_gt_of_ne hy0 with hneg | hpos
    · have h1 : ¬ 0 < p.y := not_lt.mpr hneg.le
      have h2 : 0 < -p.y := by linarith
      simp only [hxi, h1, h2, if_true, if_false]
      split_ifs <;> simp only [CurveType.mirror, neg_zero, neg_neg]
    · have h2 : ¬ 0 < -p.y := by linarith
      simp only [hxi, hpos, h2, if_true, if_false]
      split_ifs <;> simp only [CurveType.mirror, neg_zero, neg_neg]

/-- The solver on the goal `(1, 0, -pi / 2)` with radius `0.8`: the last feasibility check
fails (`dist_after < 0`) after the outputs have been assigned. -/
theorem solver_late_none :
    computeCurveParameters realMath ⟨1, 0, -(Real.pi / 2)⟩ (4 / 5)
      = ⟨CurveType.NONE, 1 / 5, -(4 / 5), -(4 / 5)⟩ := by
  have hq : (Real.pi - -(Real.pi / 2)) / 2 = Real.pi - Real.pi / 4 := by ring
  have hpi := Real.pi_pos
  have h1 : ¬ 0 < -(Real.pi / 2) := by linarith
  have h2 : ¬ -(Real.pi / 2) < -Real.pi := by linarith
  have h3 : |(4 / 5 : ℝ)| = 4 / 5 := abs_of_pos (by norm_num)
  rw [computeCurveParameters_eq]
  simp only [getYaw_neg_half_pi]
  simp only [realMath, hq, Real.tan_pi_sub, Real.tan_pi_div_four]
  norm_num [h1, h2, h3]

/-- The solver with radius `0` on the goal `(1, 0, -pi / 4)` and on its mirror image. -/
theorem solver_axis_goal :
    (computeCurveParameters realMath ⟨1, 0, -(Real.pi / 4)⟩ 0).curve_type
      = CurveType.RIGHT_CENTER_POINT ∧
    (computeCurveParameters realMath ⟨1, -0, -(-(Real.pi / 4))⟩ 0).curve_type
      = CurveType.NONE := by
  have hpi := Real.pi_pos
  have h1 : ¬ 0 < -(Real.pi / 4) := by linarith
  have h2 : ¬ -(Real.pi / 4) < -Real.pi := by linarith
  have h3 : 0 < Real.pi / 4 := by linarith
  constructor
  · rw [computeCurveParameters_eq]
    simp only [getYaw_neg_quarter_pi]
    norm_num [realMath, h1, h2]
  · rw [computeCurveParameters_eq]
    simp only [neg_neg, neg_zero, getYaw_quarter_pi]
    norm_num [realMath, h3]

/-- A goal whose tangent-line intersection is `0` is infeasible for a positive radius. -/
theorem solver_boundary (p : Pose ℝ) (r : ℝ) (hr : 0 < r)
    (hyaw : ∀ k : ℤ, getYaw realMath p ≠ k * Real.pi) (hxi : xIntersection realMath p = 0) :
    (computeCurveParameters realMath p r).curve_type = CurveType.NONE := by
  by_contra hne
  obtain ⟨hiff, -⟩ := computeCurveParameters_spec realMath p r
  obtain ⟨-, hside, hb, -, -⟩ := hiff.mp hne
  obtain ⟨h0, hpi, hnpi⟩ := not_multiple_pi hyaw
  rw [hxi] at hb
  have habs : 0 < |r| := abs_pos.mpr hr.ne'
  have hoff : 0 < steeringOffset realMath p r := by
    unfold steeringOffset signedRadius
    have ht : realMath.tan = Real.tan := rfl
    have hp : realMath.pi = Real.pi := rfl
    rw [ht, hp]
    rw [hp] at hside
    rcases hside with ⟨hy, h1, h2⟩ | ⟨hy, h1, h2⟩
    · rw [if_pos hy]
      exact div_pos habs
        (tan_half_pos (lt_of_le_of_ne h1 (Ne.symm h0)) (lt_of_le_of_ne h2 hpi))
    · rw [if_neg (not_lt.mpr hy)]
      exact div_pos_of_neg_of_neg (by linarith)
        (tan_half_neg (lt_of_le_of_ne h2 h0) (lt_of_le_of_ne h1 (Ne.symm hnpi)))
  linarith

/-! ### The two loops of `makePlan` -/

section Loops

variable {α : Type} [LinearOrderedField α]

/-- The footprint cost does not depend on the start pose the planner remembers. -/
theorem footprintCost_withStart (P : Planner α) (s : PoseStamped α) (x y th : α) :
    footprintCost (P.withStart s) x y th = footprintCost P x y th := rfl

theorem samplerCenter_plan (M : MathLib α) (mv : Maneuver α) (st : SamplerState α) :
    (samplerCenter M mv st).plan = st.plan := rfl

theorem samplerCenter_traj_ready (M : MathLib α) (mv : Maneuver α) (st : SamplerState α) :
    (samplerCenter M mv st).traj_ready = st.traj_ready := rfl

theorem samplerCenter_dist_bef (M : MathLib α) (mv : Maneuver α) (st : SamplerState α) :
    (samplerCenter M mv st).dist_bef_steer = st.dist_bef_steer := rfl

theorem samplerCenter_dist_af (M : MathLib α) (mv : Maneuver α) (st : SamplerState α) :
    (samplerCenter M mv st).dist_af_steer = st.dist_af_steer := rfl

theorem samplerCenter_theta (M : MathLib α) (mv : Maneuver α) (st : SamplerState α) :
    (samplerCenter M mv st).theta_refp_traj = st.theta_refp_traj := rfl

theorem samplerCheck_dist_bef (M : MathLib α) (P : Planner α) (goal : PoseStamped α)
    (st : SamplerState α) : (samplerCheck M P goal st).dist_bef_steer = st.dist_bef_steer := by
  unfold samplerCheck; dsimp only; split_ifs <;> rfl

theorem samplerCheck_dist_af (M : MathLib α) (P : Planner α) (goal : PoseStamped α)
    (st : SamplerState α) : (samplerCheck M P goal st).dist_af_steer = st.dist_af_steer := by
  unfold samplerCheck; dsimp only; split_ifs <;> rfl

theorem samplerCheck_theta (M : MathLib α) (P : Planner α) (goal : PoseStamped α)
    (st : SamplerState α) : (samplerCheck M P goal st).theta_refp_traj = st.theta_refp_traj := by
  unfold samplerCheck; dsimp only; split_ifs <;> rfl

/-- The obstacle check either leaves the plan as it is or appends one pose whose cost is
not negative. -/
theorem samplerCheck_plan (M : MathLib α) (P : Planner α) (goal : PoseStamped α)
    (st : SamplerState α) :
    ((samplerCheck M P goal st).plan = st.plan ∧ (samplerCheck M P goal st).traj_ready = true ∧
        footprintCost P st.center_traj_point_tf.x st.center_traj_point_tf.y
          (getYaw M st.center_traj_point_tf) < 0) ∨
    ((samplerCheck M P goal st).plan
        = st.plan ++ [{ goal with x := st.center_traj_point_tf.x, y := st.center_traj_point_tf.y,
                                  yaw := getYaw M st.center_traj_point_tf }] ∧
      (samplerCheck M P goal st).traj_ready = st.traj_ready ∧
      0 ≤ footprintCost P st.center_traj_point_tf.x st.center_traj_point_tf.y
          (getYaw M st.center_traj_point_tf)) := by
  unfold samplerCheck
  dsimp only
  split_ifs with h
  · exact Or.inl ⟨rfl, rfl, h⟩
  · exact Or.inr ⟨rfl, rfl, not_lt.mp h⟩

theorem samplerAdvance_plan (M : MathLib α) (P : Planner α) (mv : Maneuver α)
    (st st2 : SamplerState α) (h : samplerAdvance M P mv st = some st2) :
    st2.plan = st.plan ∧ st2.traj_ready = st.traj_ready := by
  unfold samplerAdvance at h
  dsimp only at h
  split_ifs at h <;> (cases h; exact ⟨rfl, rfl⟩)

/-- One iteration of the sampling loop, in terms of its three parts. -/
theorem samplerLoop_succ (M : MathLib α) (P : Planner α) (goal : PoseStamped α)
    (mv : Maneuver α) (fuel : ℕ) (st : SamplerState α) :
    samplerLoop M P goal mv (fuel + 1) st =
      match samplerAdvance M P mv (samplerCheck M P goal st) with
      | none => some { samplerCheck M P goal st with traj_ready := true }
      | some st2 =>
        if (samplerCenter M mv st2).traj_ready then some (samplerCenter M mv st2)
        else samplerLoop M P goal mv fuel (samplerCenter M mv st2) := rfl

/-- An iteration of the sampling loop that returns either ends the loop with the plan of
the obstacle check, or continues from a state with that plan whose `traj_ready` is unset. -/
theorem samplerLoop_succ_cases (M : MathLib α) (P : Planner α) (goal : PoseStamped α)
    (mv : Maneuver α) (fuel : ℕ) (st r : SamplerState α)
    (h : samplerLoop M P goal mv (fuel + 1) st = some r) :
    r.plan = (samplerCheck M P goal st).plan ∨
    ∃ st3 : SamplerState α, st3.plan = (samplerCheck M P goal st).plan ∧
      (samplerCheck M P goal st).traj_ready = false ∧
      samplerLoop M P goal mv fuel st3 = some r := by
  rw [samplerLoop_succ] at h
  cases hadv : samplerAdvance M P mv (samplerCheck M P goal st) with
  | none =>
    rw [hadv] at h
    cases h
    exact Or.inl rfl
  | some st2 =>
    rw [hadv] at h
    obtain ⟨hp, hr⟩ := samplerAdvance_plan M P mv _ _ hadv
    dsimp only at h
    by_cases hready : (samplerCenter M mv st2).traj_ready = true
    · rw [if_pos hready] at h
      cases h
      exact Or.inl (by rw [samplerCenter_plan, hp])
    · rw [if_neg hready] at h
      refine Or.inr ⟨samplerCenter M mv st2, by rw [samplerCenter_plan, hp], ?_, h⟩
      rw [samplerCenter_traj_ready, hr] at hready
      simpa using hready

/-- The sampling loop only appends to the plan, and every pose it appends has been given a
non-negative footprint cost. -/
theorem samplerLoop_plan (M : MathLib α) (P : Planner α) (goal : PoseStamped α)
    (mv : Maneuver α) (fuel : ℕ) (st r : SamplerState α)
    (h : samplerLoop M P goal mv fuel st = some r) :
    ∃ l : List (PoseStamped α), r.plan = st.plan ++ l ∧
      ∀ q ∈ l, 0 ≤ footprintCost P q.x q.y q.yaw := by
  induction fuel generalizing st with
  | zero => simp [samplerLoop] at h
  | succ fuel ih =>
    have hcheck : ∃ l : List (PoseStamped α), (samplerCheck M P goal st).plan = st.plan ++ l ∧
        ∀ q ∈ l, 0 ≤ footprintCost P q.x q.y q.yaw := by
      rcases samplerCheck_plan M P goal st with ⟨hp, -, -⟩ | ⟨hp, -, hc⟩
      · exact ⟨[], by simpa using hp, by simp⟩
      · refine ⟨_, hp, ?_⟩
        intro q hq
        rw [List.mem_singleton] at hq
        subst hq
        exact hc
    obtain ⟨l1, hl1, hsafe1⟩ := hcheck
    rcases samplerLoop_succ_cases M P goal mv fuel st r h with hr | ⟨st3, hp3, -, h3⟩
    · exact ⟨l1, by rw [hr, hl1], hsafe1⟩
    · obtain ⟨l2, hl2, hsafe2⟩ := ih st3 h3
      refine ⟨l1 ++ l2, by rw [hl2, hp3, hl1, List.append_assoc], ?_⟩
      intro q hq
      rcases List.mem_append.mp hq with hq | hq
      · exact hsafe1 q hq
      · exact hsafe2 q hq

/-- When the start of the sampling loop has a negative footprint cost the loop leaves the
plan as it is; otherwise the plan continues with that pose. -/
theorem samplerLoop_first (M : MathLib α) (P : Planner α) (goal : PoseStamped α)
    (mv : Maneuver α) (fuel : ℕ) (st r : SamplerState α)
    (h : samplerLoop M P goal mv fuel st = some r) :
    (footprintCost P st.center_traj_point_tf.x st.center_traj_point_tf.y
        (getYaw M st.center_traj_point_tf) < 0 → r.plan = st.plan) ∧
    (0 ≤ footprintCost P st.center_traj_point_tf.x st.center_traj_point_tf.y
        (getYaw M st.center_traj_point_tf) →
      ∃ l : List (PoseStamped α), r.plan = st.plan ++
        { goal with x := st.center_traj_point_tf.x, y := st.center_traj_point_tf.y,
                    yaw := getYaw M st.center_traj_point_tf } :: l) := by
  cases fuel with
  | zero => simp [samplerLoop] at h
  | succ fuel =>
    rcases samplerLoop_succ_cases M P goal mv fuel st r h with hr | ⟨st3, hp3, hnr, h3⟩
    · rcases samplerCheck_plan M P goal st with ⟨hp, -, hc⟩ | ⟨hp, -, hc⟩
      · exact ⟨fun _ => by rw [hr, hp], fun h0 => absurd hc (not_lt.mpr h0)⟩
      · exact ⟨fun h0 => absurd h0 (not_lt.mpr hc), fun _ => ⟨[], by rw [hr, hp]⟩⟩
    · rcases samplerCheck_plan M P goal st with ⟨-, hready, -⟩ | ⟨hp, -, hc⟩
      · rw [hready] at hnr
        cases hnr
      · obtain ⟨l, hl, -⟩ := samplerLoop_plan M P goal mv fuel st3 r h3
        refine ⟨fun h0 => absurd h0 (not_lt.mpr hc), fun _ => ⟨l, ?_⟩⟩
        rw [hl, hp3, hp, List.append_assoc, List.singleton_append]

/-- One iteration of the carrot loop. -/
theorem carrotLoop_succ (M : MathLib α) (P : Planner α) (goal : PoseStamped α)
    (start_x start_y start_yaw diff_x diff_y diff_yaw : α) (fuel : ℕ) (scale : α) (sb : ℚ)
    (plan : List (PoseStamped α)) :
    carrotLoop M P goal start_x start_y start_yaw diff_x diff_y diff_yaw (fuel + 1) scale sb
        plan =
      if 1 < sb then some plan
      else if footprintCost P (start_x + scale * diff_x) (start_y + scale * diff_y)
          (M.normalize_angle (start_yaw + scale * diff_yaw)) < 0 then some plan
      else carrotLoop M P goal start_x start_y start_yaw diff_x diff_y diff_yaw fuel
        (scale + 0.05) (carrotScaleNext sb)
        (plan ++ [{ goal with x := start_x + scale * diff_x, y := start_y + scale * diff_y,
                              yaw := M.normalize_angle (start_yaw + scale * diff_yaw) }]) := rfl

/-- The carrot loop only appends to the plan, and every pose it appends has been given a
non-negative footprint cost. -/
theorem carrotLoop_plan (M : MathLib α) (P : Planner α) (goal : PoseStamped α)
    (start_x start_y start_yaw diff_x diff_y diff_yaw : α) (fuel : ℕ) (scale : α) (sb : ℚ)
    (plan r : List (PoseStamped α))
    (h : carrotLoop M P goal start_x start_y start_yaw diff_x diff_y diff_yaw fuel scale sb plan
      = some r) :
    ∃ l : List (PoseStamped α), r = plan ++ l ∧
      ∀ q ∈ l, 0 ≤ footprintCost P q.x q.y q.yaw := by
  induction fuel generalizing scale sb plan with
  | zero => simp [carrotLoop] at h
  | succ fuel ih =>
    rw [carrotLoop_succ] at h
    split_ifs at h with h1 h2
    · cases h
      exact ⟨[], by simp, by simp⟩
    · cases h
      exact ⟨[], by simp, by simp⟩
    · obtain ⟨l, hl, hsafe⟩ := ih _ _ _ h
      refine ⟨_ :: l, by rw [hl, List.append_assoc, List.singleton_append], ?_⟩
      intro q hq
      rcases List.mem_cons.mp hq with hq | hq
      · subst hq
        exact not_lt.mp h2
      · exact hsafe q hq

/-- When the first sample of the carrot loop has a negative footprint cost the loop leaves
the plan as it is; otherwise the plan continues with that sample. -/
theorem carrotLoop_first (M : MathLib α) (P : Planner α) (goal : PoseStamped α)
    (start_x start_y start_yaw diff_x diff_y diff_yaw : α) (fuel : ℕ) (scale : α) (sb : ℚ)
    (plan r : List (PoseStamped α)) (hscale : sb ≤ 1)
    (h : carrotLoop M P goal start_x start_y start_yaw diff_x diff_y diff_yaw fuel scale sb plan
      = some r) :
    (footprintCost P (start_x + scale * diff_x) (start_y + scale * diff_y)
        (M.normalize_angle (start_yaw + scale * diff_yaw)) < 0 → r = plan) ∧
    (0 ≤ footprintCost P (start_x + scale * diff_x) (start_y + scale * diff_y)
        (M.normalize_angle (start_yaw + scale * diff_yaw)) →
      ∃ l : List (PoseStamped α), r = plan ++
        { goal with x := start_x + scale * diff_x, y := start_y + scale * diff_y,
                    yaw := M.normalize_angle (start_yaw + scale * diff_yaw) } :: l) := by
  cases fuel with
  | zero => simp [carrotLoop] at h
  | succ fuel =>
    rw [carrotLoop_succ, if_neg (not_lt.mpr hscale)] at h
    split_ifs at h with h2
    · cases h
      exact ⟨fun _ => rfl, fun h0 => absurd h2 (not_lt.mpr h0)⟩
    · obtain ⟨l, hl, -⟩ := carrotLoop_plan M P goal _ _ _ _ _ _ fuel _ _ _ r h
      refine ⟨fun h0 => absurd h0 h2, fun _ => ⟨l, ?_⟩⟩
      rw [hl, List.append_assoc, List.singleton_append]

/-- The carrot loop ends within `n + 1` iterations once `n` further additions take the
`double` variable `scale` above `1`. -/
theorem carrotLoop_terminates (M : MathLib α) (P : Planner α) (goal : PoseStamped α)
    (start_x start_y start_yaw diff_x diff_y diff_yaw : α) (n : ℕ) :
    ∀ (scale : α) (sb : ℚ) (plan : List (PoseStamped α)), 1 < carrotScaleNext^[n] sb →
      ∀ fuel : ℕ, n + 1 ≤ fuel →
        ∃ r, carrotLoop M P goal start_x start_y start_yaw diff_x diff_y diff_yaw fuel scale sb
          plan = some r := by
  induction n with
  | zero =>
    intro scale sb plan hs fuel hfuel
    obtain ⟨f, rfl⟩ : ∃ f, fuel = f + 1 := ⟨fuel - 1, by omega⟩
    rw [carrotLoop_succ, if_pos (by simpa using hs)]
    exact ⟨plan, rfl⟩
  | succ n ih =>
    intro scale sb plan hs fuel hfuel
    obtain ⟨f, rfl⟩ : ∃ f, fuel = f + 1 := ⟨fuel - 1, by omega⟩
    rw [carrotLoop_succ]
    split_ifs
    · exact ⟨plan, rfl⟩
    · exact ⟨plan, rfl⟩
    · apply ih
      · rw [Function.iterate_succ_apply] at hs
        exact hs
      · omega

/-- The `double` of the literal `0.05` is `3602879701896397 / 2 ^ 56`, a little above
`1 / 20`. -/
theorem roundBinary64_dScale : roundBinary64 0.05 = 3602879701896397 / 2 ^ 56 := by
  decide!

/-- Twenty additions of `0.05` take the `double` variable `scale` from `0` to
`1 + 2 ^ (-52)`, the binary64 number next above `1`. -/
theorem carrotScale_twenty : carrotScaleNext^[20] 0 = 1 + 1 / 2 ^ 52 := by
  decide!

/-- After fewer than twenty additions of `0.05` the `double` variable `scale` is at most
`1`. -/
theorem carrotScale_le_one : ∀ k : ℕ, k < 20 → carrotScaleNext^[k] 0 ≤ 1 := by
  decide!

/-- From scale `0` the carrot loop ends within 22 iterations. -/
theorem carrotLoop_terminates_zero (M : MathLib α) (P : Planner α) (goal : PoseStamped α)
    (start_x start_y start_yaw diff_x diff_y diff_yaw : α) (plan : List (PoseStamped α))
    (fuel : ℕ) (hfuel : 22 ≤ fuel) :
    ∃ r, carrotLoop M P goal start_x start_y start_yaw diff_x diff_y diff_yaw fuel 0 0 plan
      = some r :=
  carrotLoop_terminates M P goal start_x start_y start_yaw diff_x diff_y diff_yaw 20 0 0 plan
    (by rw [carrotScale_twenty]; norm_num) fuel (by omega)

/-- More fuel does not change what the sampling loop returns. -/
theorem samplerLoop_fuel_mono (M : MathLib α) (P : Planner α) (goal : PoseStamped α)
    (mv : Maneuver α) (fuel k : ℕ) (st r : SamplerState α)
    (h : samplerLoop M P goal mv fuel st = some r) :
    samplerLoop M P goal mv (fuel + k) st = some r := by
  induction fuel generalizing st with
  | zero => simp [samplerLoop] at h
  | succ fuel ih =>
    have e : fuel + 1 + k = (fuel + k) + 1 := by omega
    rw [e, samplerLoop_succ]
    rw [samplerLoop_succ] at h
    generalize samplerAdvance M P mv (samplerCheck M P goal st) = o at h ⊢
    cases o with
    | none => exact h
    | some st2 =>
      dsimp only at h ⊢
      split_ifs at h ⊢ with hready
      · exact h
      · exact ih _ h

/-- Whatever the sampling loop returns does not depend on the fuel. -/
theorem samplerLoop_fuel_unique (M : MathLib α) (P : Planner α) (goal : PoseStamped α)
    (mv : Maneuver α) (f1 f2 : ℕ) (st r1 r2 : SamplerState α)
    (h1 : samplerLoop M P goal mv f1 st = some r1)
    (h2 : samplerLoop M P goal mv f2 st = some r2) : r1 = r2 := by
  have e1 := samplerLoop_fuel_mono M P goal mv f1 f2 st r1 h1
  have e2 := samplerLoop_fuel_mono M P goal mv f2 f1 st r2 h2
  rw [Nat.add_comm] at e2
  rw [e1] at e2
  exact Option.some.inj e2

/-- More fuel does not change what the carrot loop returns. -/
theorem carrotLoop_fuel_mono (M : MathLib α) (P : Planner α) (goal : PoseStamped α)
    (start_x start_y start_yaw diff_x diff_y diff_yaw : α) (fuel k : ℕ) (scale : α) (sb : ℚ)
    (plan r : List (PoseStamped α))
    (h : carrotLoop M P goal start_x start_y start_yaw diff_x diff_y diff_yaw fuel scale sb plan
      = some r) :
    carrotLoop M P goal start_x start_y start_yaw diff_x diff_y diff_yaw (fuel + k) scale sb
      plan = some r := by
  induction fuel generalizing scale sb plan with
  | zero => simp [carrotLoop] at h
  | succ fuel ih =>
    have e : fuel + 1 + k = (fuel + k) + 1 := by omega
    rw [e, carrotLoop_succ]
    rw [carrotLoop_succ] at h
    split_ifs at h ⊢
    · exact h
    · exact h
    · exact ih _ _ _ h

/-- Whatever the carrot loop returns does not depend on the fuel. -/
theorem carrotLoop_fuel_unique (M : MathLib α) (P : Planner α) (goal : PoseStamped α)
    (start_x start_y start_yaw diff_x diff_y diff_yaw : α) (f1 f2 : ℕ) (scale : α) (sb : ℚ)
    (plan r1 r2 : List (PoseStamped α))
    (h1 : carrotLoop M P goal start_x start_y start_yaw diff_x diff_y diff_yaw f1 scale sb plan
      = some r1)
    (h2 : carrotLoop M P goal start_x start_y start_yaw diff_x diff_y diff_yaw f2 scale sb plan
      = some r2) : r1 = r2 := by
  have e1 := carrotLoop_fuel_mono M P goal start_x start_y start_yaw diff_x diff_y diff_yaw
    f1 f2 scale sb plan r1 h1
  have e2 := carrotLoop_fuel_mono M P goal start_x start_y start_yaw diff_x diff_y diff_yaw
    f2 f1 scale sb plan r2 h2
  rw [Nat.add_comm] at e2
  rw [e1] at e2
  exact Option.some.inj e2

/-- The straight-before step of `samplerAdvance`. -/
theorem samplerAdvance_before (M : MathLib α) (P : Planner α) (mv : Maneuver α)
    (st : SamplerState α) (h : st.dist_bef_steer < mv.dist_before_steering_refp) :
    ∃ st2, samplerAdvance M P mv st = some st2 ∧
      st2.dist_bef_steer = st.dist_bef_steer + P.step_size_ ∧ st2.theta_refp_traj = 0 ∧
      st2.dist_af_steer = st.dist_af_steer := by
  unfold samplerAdvance
  dsimp only
  rw [if_pos h]
  exact ⟨_, rfl, rfl, rfl, rfl⟩

/-- The turning step of `samplerAdvance`. -/
theorem samplerAdvance_turn (M : MathLib α) (P : Planner α) (mv : Maneuver α)
    (st : SamplerState α) (h1 : ¬ st.dist_bef_steer < mv.dist_before_steering_refp)
    (h2 : |getYaw M mv.refpoint_goal_tf_refstart_coord - st.theta_refp_traj|
      > |P.step_size_ / mv.signed_turning_radius_refp / 2|) :
    ∃ st2, samplerAdvance M P mv st = some st2 ∧
      st2.dist_bef_steer = st.dist_bef_steer ∧
      st2.theta_refp_traj = st.theta_refp_traj + P.step_size_ / mv.signed_turning_radius_refp ∧
      st2.dist_af_steer = st.dist_af_steer := by
  unfold samplerAdvance
  dsimp only
  rw [if_neg h1, if_pos h2]
  exact ⟨_, rfl, rfl, rfl, rfl⟩

/-- The straight-after step of `samplerAdvance`. -/
theorem samplerAdvance_after (M : MathLib α) (P : Planner α) (mv : Maneuver α)
    (st : SamplerState α) (h1 : ¬ st.dist_bef_steer < mv.dist_before_steering_refp)
    (h2 : ¬ |getYaw M mv.refpoint_goal_tf_refstart_coord - st.theta_refp_traj|
      > |P.step_size_ / mv.signed_turning_radius_refp / 2|)
    (h3 : st.dist_af_steer < mv.dist_after_steering_refp) :
    ∃ st2, samplerAdvance M P mv st = some st2 ∧
      st2.dist_bef_steer = st.dist_bef_steer ∧
      st2.theta_refp_traj = getYaw M mv.refpoint_goal_tf_refstart_coord ∧
      st2.dist_af_steer = st.dist_af_steer + P.step_size_ := by
  unfold samplerAdvance
  dsimp only
  rw [if_neg h1, if_neg h2, if_pos h3]
  exact ⟨_, rfl, rfl, rfl, rfl⟩

/-- The final branch of `samplerAdvance`. -/
theorem samplerAdvance_done (M : MathLib α) (P : Planner α) (mv : Maneuver α)
    (st : SamplerState α) (h1 : ¬ st.dist_bef_steer < mv.dist_before_steering_refp)
    (h2 : ¬ |getYaw M mv.refpoint_goal_tf_refstart_coord - st.theta_refp_traj|
      > |P.step_size_ / mv.signed_turning_radius_refp / 2|)
    (h3 : ¬ st.dist_af_steer < mv.dist_after_steering_refp) :
    samplerAdvance M P mv st = none := by
  unfold samplerAdvance
  dsimp only
  rw [if_neg h1, if_neg h2, if_neg h3]

/-- The loop returns when the reference trajectory is exhausted. -/
theorem samplerLoop_stop (M : MathLib α) (P : Planner α) (goal : PoseStamped α)
    (mv : Maneuver α) (fuel : ℕ) (st : SamplerState α)
    (h : samplerAdvance M P mv (samplerCheck M P goal st) = none) :
    ∃ r, samplerLoop M P goal mv (fuel + 1) st = some r := by
  rw [samplerLoop_succ, h]
  exact ⟨_, rfl⟩

/-- The loop returns when it returns from the state after one more step. -/
theorem samplerLoop_continue (M : MathLib α) (P : Planner α) (goal : PoseStamped α)
    (mv : Maneuver α) (fuel : ℕ) (st st2 : SamplerState α)
    (h : samplerAdvance M P mv (samplerCheck M P goal st) = some st2)
    (hrec : ∃ r, samplerLoop M P goal mv fuel (samplerCenter M mv st2) = some r) :
    ∃ r, samplerLoop M P goal mv (fuel + 1) st = some r := by
  rw [samplerLoop_succ, h]
  dsimp only
  split_ifs
  · exact ⟨_, rfl⟩
  · exact hrec

/-- Termination of the straight-after phase: once the first two phases are over, the loop
ends within `n3 + 1` iterations when `n3` steps cover the remaining distance. -/
theorem samplerLoop_terminates_after (M : MathLib α) (P : Planner α) (goal : PoseStamped α)
    (mv : Maneuver α) (n3 : ℕ) :
    ∀ st : SamplerState α, ¬ st.dist_bef_steer < mv.dist_before_steering_refp →
      ¬ |getYaw M mv.refpoint_goal_tf_refstart_coord - st.theta_refp_traj|
        > |P.step_size_ / mv.signed_turning_radius_refp / 2| →
      mv.dist_after_steering_refp ≤ st.dist_af_steer + n3 * P.step_size_ →
      ∀ fuel : ℕ, n3 + 1 ≤ fuel → ∃ r, samplerLoop M P goal mv fuel st = some r := by
  induction n3 with
  | zero =>
    intro st h1 h2 h3 fuel hfuel
    obtain ⟨f, rfl⟩ : ∃ f, fuel = f + 1 := ⟨fuel - 1, by omega⟩
    apply samplerLoop_stop
    apply samplerAdvance_done
    · rwa [samplerCheck_dist_bef]
    · rwa [samplerCheck_theta]
    · rw [samplerCheck_dist_af]
      simpa using h3
  | succ n3 ih =>
    intro st h1 h2 h3 fuel hfuel
    obtain ⟨f, rfl⟩ : ∃ f, fuel = f + 1 := ⟨fuel - 1, by omega⟩
    have h1c : ¬ (samplerCheck M P goal st).dist_bef_steer < mv.dist_before_steering_refp := by
      rwa [samplerCheck_dist_bef]
    have h2c : ¬ |getYaw M mv.refpoint_goal_tf_refstart_coord
        - (samplerCheck M P goal st).theta_refp_traj|
        > |P.step_size_ / mv.signed_turning_radius_refp / 2| := by
      rwa [samplerCheck_theta]
    by_cases h4 : (samplerCheck M P goal st).dist_af_steer < mv.dist_after_steering_refp
    · obtain ⟨st2, hadv, hb, ht, ha⟩ := samplerAdvance_after M P mv _ h1c h2c h4
      apply samplerLoop_continue M P goal mv f st st2 hadv
      apply ih
      · rw [samplerCenter_dist_bef, hb]; exact h1c
      · rw [samplerCenter_theta, ht, sub_self, abs_zero]
        exact not_lt.mpr (abs_nonneg _)
      · rw [samplerCenter_dist_af, ha, samplerCheck_dist_af]
        push_cast at h3
        linarith
      · omega
    · exact samplerLoop_stop M P goal mv f st (samplerAdvance_done M P mv _ h1c h2c h4)

/-- Termination of the turning phase: once the straight-before phase is over, the loop
ends within `m + n3 + 1` iterations when `m` grid steps bring the trajectory angle within
half a grid step of the goal angle. -/
theorem samplerLoop_terminates_turn (M : MathLib α) (P : Planner α) (goal : PoseStamped α)
    (mv : Maneuver α) (n3 m : ℕ) :
    ∀ st : SamplerState α, ¬ st.dist_bef_steer < mv.dist_before_steering_refp →
      |getYaw M mv.refpoint_goal_tf_refstart_coord
          - (st.theta_refp_traj + m * (P.step_size_ / mv.signed_turning_radius_refp))|
        ≤ |P.step_size_ / mv.signed_turning_radius_refp / 2| →
      mv.dist_after_steering_refp ≤ st.dist_af_steer + n3 * P.step_size_ →
      ∀ fuel : ℕ, m + n3 + 1 ≤ fuel → ∃ r, samplerLoop M P goal mv fuel st = some r := by
  induction m with
  | zero =>
    intro st h1 h2 h3 fuel hfuel
    apply samplerLoop_terminates_after M P goal mv n3 st h1 _ h3 fuel (by omega)
    simpa using h2
  | succ m ih =>
    intro st h1 h2 h3 fuel hfuel
    obtain ⟨f, rfl⟩ : ∃ f, fuel = f + 1 := ⟨fuel - 1, by omega⟩
    have h1c : ¬ (samplerCheck M P goal st).dist_bef_steer < mv.dist_before_steering_refp := by
      rwa [samplerCheck_dist_bef]
    by_cases h4 : |getYaw M mv.refpoint_goal_tf_refstart_coord
        - (samplerCheck M P goal st).theta_refp_traj|
        > |P.step_size_ / mv.signed_turning_radius_refp / 2|
    · obtain ⟨st2, hadv, hb, ht, ha⟩ := samplerAdvance_turn M P mv _ h1c h4
      apply samplerLoop_continue M P goal mv f st st2 hadv
      apply ih
      · rw [samplerCenter_dist_bef, hb]; exact h1c
      · rw [samplerCenter_theta, ht, samplerCheck_theta]
        push_cast at h2
        have e : st.theta_refp_traj + P.step_size_ / mv.signed_turning_radius_refp
            + m * (P.step_size_ / mv.signed_turning_radius_refp)
            = st.theta_refp_traj + (m + 1) * (P.step_size_ / mv.signed_turning_radius_refp) := by
          ring
        rw [e]
        exact h2
      · rw [samplerCenter_dist_af, ha, samplerCheck_dist_af]
        exact h3
      · omega
    · rw [samplerCheck_theta] at h4
      exact samplerLoop_terminates_after M P goal mv n3 st h1 h4 h3 (f + 1) (by omega)

/-- Termination of the whole loop from a state with trajectory angle `0`: it ends within
`n1 + m + n3 + 1` iterations when `n1` steps cover the distance before steering, `m` grid
steps reach the goal angle and `n3` steps cover the distance after steering. -/
theorem samplerLoop_terminates_before (M : MathLib α) (P : Planner α) (goal : PoseStamped α)
    (mv : Maneuver α) (n3 m n1 : ℕ) :
    ∀ st : SamplerState α, st.theta_refp_traj = 0 →
      mv.dist_before_steering_refp ≤ st.dist_bef_steer + n1 * P.step_size_ →
      |getYaw M mv.refpoint_goal_tf_refstart_coord
          - m * (P.step_size_ / mv.signed_turning_radius_refp)|
        ≤ |P.step_size_ / mv.signed_turning_radius_refp / 2| →
      mv.dist_after_steering_refp ≤ st.dist_af_steer + n3 * P.step_size_ →
      ∀ fuel : ℕ, n1 + m + n3 + 1 ≤ fuel → ∃ r, samplerLoop M P goal mv fuel st = some r := by
  induction n1 with
  | zero =>
    intro st h0 h1 h2 h3 fuel hfuel
    apply samplerLoop_terminates_turn M P goal mv n3 m st _ _ h3 fuel (by omega)
    · simpa using h1
    · rw [h0, zero_add]; exact h2
  | succ n1 ih =>
    intro st h0 h1 h2 h3 fuel hfuel
    obtain ⟨f, rfl⟩ : ∃ f, fuel = f + 1 := ⟨fuel - 1, by omega⟩
    by_cases h4 : (samplerCheck M P goal st).dist_bef_steer < mv.dist_before_steering_refp
    · obtain ⟨st2, hadv, hb, ht, ha⟩ := samplerAdvance_before M P mv _ h4
      apply samplerLoop_continue M P goal mv f st st2 hadv
      apply ih
      · rw [samplerCenter_theta, ht]
      · rw [samplerCenter_dist_bef, hb, samplerCheck_dist_bef]
        push_cast at h1
        linarith
      · exact h2
      · rw [samplerCenter_dist_af, ha, samplerCheck_dist_af]
        exact h3
      · omega
    · rw [samplerCheck_dist_bef] at h4
      apply samplerLoop_terminates_turn M P goal mv n3 m st h4 _ h3 (f + 1) (by omega)
      rw [h0, zero_add]; exact h2

/-- Whenever the selection ends with a curve type other than `NONE`, the curve type and the
curve parameters it hands to the sampler are what the solver returns on the goal pose it
hands to the sampler. -/
theorem selectManeuver_solver (M : MathLib α) (P : Planner α) (start_ goal : PoseStamped α)
    (h : (selectManeuver M P start_ goal).curve_type ≠ CurveType.NONE) :
    (computeCurveParameters M (selectManeuver M P start_ goal).refpoint_goal_tf_refstart_coord
        P.turning_radius_).curve_type = (selectManeuver M P start_ goal).curve_type ∧
    (computeCurveParameters M (selectManeuver M P start_ goal).refpoint_goal_tf_refstart_coord
        P.turning_radius_).dist_before_steering
      = (selectManeuver M P start_ goal).dist_before_steering_refp ∧
    (computeCurveParameters M (selectManeuver M P start_ goal).refpoint_goal_tf_refstart_coord
        P.turning_radius_).dist_after_steering
      = (selectManeuver M P start_ goal).dist_after_steering_refp ∧
    (computeCurveParameters M (selectManeuver M P start_ goal).refpoint_goal_tf_refstart_coord
        P.turning_radius_).signed_turning_radius
      = (selectManeuver M P start_ goal).signed_turning_radius_refp := by
  unfold selectManeuver at h ⊢
  dsimp only at h ⊢
  split_ifs at h ⊢ with h1 h2
  · exact ⟨rfl, rfl, rfl, rfl⟩
  · exact ⟨rfl, rfl, rfl, rfl⟩
  · exact absurd (not_not.mp h1) h

/-- For a curve type other than `NONE` the goal angle and the signed radius that the
selection hands to the sampler have the same sign, and the signed radius is `|r|` or
`-|r|`. -/
theorem selectManeuver_sign (M : MathLib α) (P : Planner α) (start_ goal : PoseStamped α)
    (h : (selectManeuver M P start_ goal).curve_type ≠ CurveType.NONE) :
    0 ≤ getYaw M (selectManeuver M P start_ goal).refpoint_goal_tf_refstart_coord
        * (selectManeuver M P start_ goal).signed_turning_radius_refp ∧
    |(selectManeuver M P start_ goal).signed_turning_radius_refp| = |P.turning_radius_| := by
  obtain ⟨ht, -, -, hR⟩ := selectManeuver_solver M P start_ goal h
  rw [← ht] at h
  obtain ⟨hiff, hout⟩ := computeCurveParameters_spec M
    (selectManeuver M P start_ goal).refpoint_goal_tf_refstart_coord P.turning_radius_
  obtain ⟨-, hside, -⟩ := hiff.mp h
  obtain ⟨-, -, -, -, hrad⟩ := hout h
  rw [← hR, hrad]
  unfold signedRadius
  rcases hside with ⟨hy, h1, -⟩ | ⟨hy, -, h2⟩
  · rw [if_pos hy]
    exact ⟨mul_nonneg h1 (abs_nonneg _), abs_abs _⟩
  · rw [if_neg (not_lt.mpr hy)]
    exact ⟨mul_nonneg_of_nonpos_of_nonpos h2 (neg_nonpos.mpr (abs_nonneg _)),
      by rw [abs_neg, abs_abs]⟩

/-- A non-negative multiple of the grid step lies within half a grid step of some natural
multiple of it. -/
theorem exists_grid_steps [FloorRing α] (theta g : α) (hg : g ≠ 0) (h : 0 ≤ theta * g) :
    ∃ m : ℕ, |theta - m * g| ≤ |g / 2| := by
  have hq : 0 ≤ theta / g := by
    rcases lt_or_gt_of_ne hg with hneg | hpos
    · exact div_nonneg_of_nonpos (nonpos_of_mul_nonneg_left h hneg) hneg.le
    · exact div_nonneg (nonneg_of_mul_nonneg_left h hpos) hpos.le
  refine ⟨Nat.floor (theta / g + 1 / 2), ?_⟩
  have h1 : (Nat.floor (theta / g + 1 / 2) : α) ≤ theta / g + 1 / 2 :=
    Nat.floor_le (by linarith)
  have h2 : theta / g + 1 / 2 < Nat.floor (theta / g + 1 / 2) + 1 := Nat.lt_floor_add_one _
  generalize (Nat.floor (theta / g + 1 / 2) : α) = k at h1 h2
  have e : theta - k * g = (theta / g - k) * g := by
    rw [sub_mul, div_mul_cancel₀ _ hg]
  have e2 : |g / 2| = 1 / 2 * |g| := by
    rw [abs_div, abs_two]; ring
  rw [e, abs_mul, e2]
  apply mul_le_mul_of_nonneg_right _ (abs_nonneg g)
  rw [abs_le]
  constructor <;> linarith

/-- Termination of the trajectory sampler: for a positive step size and a non-zero
turning radius the sampling loop, entered for a maneuver with a curve type other than
`NONE`, ends after finitely many iterations, whatever the footprint costs are. -/
theorem samplerLoop_terminates [FloorRing α] (M : MathLib α) (P : Planner α)
    (start_ goal : PoseStamped α) (plan : List (PoseStamped α)) (hs : 0 < P.step_size_)
    (hr : P.turning_radius_ ≠ 0)
    (hne : (selectManeuver M P start_ goal).curve_type ≠ CurveType.NONE) :
    ∃ fuel r, samplerLoop M P goal (selectManeuver M P start_ goal) fuel
      (samplerInit M (selectManeuver M P start_ goal) plan) = some r := by
  obtain ⟨hsign, habs⟩ := selectManeuver_sign M P start_ goal hne
  generalize selectManeuver M P start_ goal = mv at *
  have hR : mv.signed_turning_radius_refp ≠ 0 := by
    intro h0
    rw [h0, abs_zero] at habs
    exact hr (abs_eq_zero.mp habs.symm)
  have hg : P.step_size_ / mv.signed_turning_radius_refp ≠ 0 := div_ne_zero hs.ne' hR
  have hprod : 0 ≤ getYaw M mv.refpoint_goal_tf_refstart_coord
      * (P.step_size_ / mv.signed_turning_radius_refp) := by
    have e : getYaw M mv.refpoint_goal_tf_refstart_coord
        * (P.step_size_ / mv.signed_turning_radius_refp)
        = getYaw M mv.refpoint_goal_tf_refstart_coord * mv.signed_turning_radius_refp
          * (P.step_size_ / mv.signed_turning_radius_refp ^ 2) := by
      field_simp
      ring
    rw [e]
    exact mul_nonneg hsign (div_nonneg hs.le (sq_nonneg _))
  obtain ⟨m, hm⟩ := exists_grid_steps _ _ hg hprod
  obtain ⟨n1, hn1⟩ := exists_nat_ge (mv.dist_before_steering_refp / P.step_size_)
  obtain ⟨n3, hn3⟩ := exists_nat_ge (mv.dist_after_steering_refp / P.step_size_)
  rw [div_le_iff₀ hs] at hn1 hn3
  obtain ⟨r, hres⟩ := samplerLoop_terminates_before M P goal mv n3 m n1 (samplerInit M mv plan)
    rfl (by simpa [samplerInit] using hn1) hm (by simpa [samplerInit] using hn3)
    (n1 + m + n3 + 1) le_rfl
  exact ⟨_, r, hres⟩

/-- A call of `makePlan` on a planner that is not initialized returns `false` and leaves
the plan argument as it was. -/
theorem makePlan_not_initialized (M : MathLib α) (fuel : ℕ) (P : Planner α)
    (start goal : PoseStamped α) (plan : List (PoseStamped α))
    (h : P.initialized_ = false) :
    makePlan M fuel P start goal plan = some ⟨false, plan, P⟩ := by
  unfold makePlan
  simp [h]

/-- A call of `makePlan` on an initialized planner with a goal in another frame than the
global frame returns `false` with the plan cleared. -/
theorem makePlan_frame_mismatch (M : MathLib α) (fuel : ℕ) (P : Planner α)
    (start goal : PoseStamped α) (plan : List (PoseStamped α))
    (hinit : P.initialized_ = true) (h : goal.frame_id ≠ P.global_frame) :
    makePlan M fuel P start goal plan = some ⟨false, [], P⟩ := by
  unfold makePlan
  simp [hinit, h]

theorem selectManeuver_start_yaw (M : MathLib α) (P : Planner α) (start_ goal : PoseStamped α) :
    (selectManeuver M P start_ goal).start_yaw = getYaw M (poseStampedMsgToTF start_) ∧
    (selectManeuver M P start_ goal).goal_yaw = getYaw M (poseStampedMsgToTF goal) ∧
    (selectManeuver M P start_ goal).start_tf = poseStampedMsgToTF start_ := by
  unfold selectManeuver
  dsimp only
  split_ifs <;> exact ⟨rfl, rfl, rfl⟩

/-- An accepted call of `makePlan` (planner initialized, goal in the global frame): the plan
is that of the sampling loop when the selection finds a curve and that of the carrot loop
otherwise, and the returned flag is `true`. -/
theorem makePlan_accepted (M : MathLib α) (fuel : ℕ) (P : Planner α)
    (start goal : PoseStamped α) (plan : List (PoseStamped α))
    (hinit : P.initialized_ = true) (hframe : goal.frame_id = P.global_frame) :
    makePlan M fuel P start goal plan =
      if (selectManeuver M (P.withStart (chooseStart P start)) (chooseStart P start)
            goal).curve_type ≠ CurveType.NONE then
        (samplerLoop M (P.withStart (chooseStart P start)) goal
            (selectManeuver M (P.withStart (chooseStart P start)) (chooseStart P start) goal)
            fuel
            (samplerInit M
              (selectManeuver M (P.withStart (chooseStart P start)) (chooseStart P start)
                goal) [])).map
          (fun st => ⟨true, st.plan, (P.withStart (chooseStart P start))⟩)
      else
        (carrotLoop M (P.withStart (chooseStart P start)) goal start.x start.y
            (getYaw M (poseStampedMsgToTF (chooseStart P start)))
            (goal.x - start.x) (goal.y - start.y)
            (M.normalize_angle (getYaw M (poseStampedMsgToTF goal)
              - getYaw M (poseStampedMsgToTF (chooseStart P start))))
            fuel 0 0 []).map
          (fun pl => ⟨true, pl, (P.withStart (chooseStart P start))⟩) := by
  obtain ⟨h1, h2, -⟩ := selectManeuver_start_yaw M (P.withStart (chooseStart P start))
    (chooseStart P start) goal
  unfold makePlan
  rw [if_neg (by simp [hinit])]
  dsimp only
  rw [if_neg (not_not.mpr hframe), h1, h2]

/-- For a positive step size and a non-zero turning radius every call of `makePlan`
returns. -/
theorem makePlan_returns [FloorRing α] (M : MathLib α) (P : Planner α)
    (start goal : PoseStamped α) (plan : List (PoseStamped α)) (hs : 0 < P.step_size_)
    (hr : P.turning_radius_ ≠ 0) :
    ∃ fuel r, makePlan M fuel P start goal plan = some r := by
  by_cases hinit : P.initialized_ = true
  · by_cases hframe : goal.frame_id = P.global_frame
    · by_cases hc : (selectManeuver M (P.withStart (chooseStart P start))
          (chooseStart P start) goal).curve_type ≠ CurveType.NONE
      · obtain ⟨fuel, r, h⟩ := samplerLoop_terminates M (P.withStart (chooseStart P start))
          (chooseStart P start) goal [] hs hr hc
        refine ⟨fuel, ⟨true, r.plan, P.withStart (chooseStart P start)⟩, ?_⟩
        rw [makePlan_accepted M fuel P start goal plan hinit hframe, if_pos hc, h]
        rfl
      · obtain ⟨r, h⟩ := carrotLoop_terminates_zero M (P.withStart (chooseStart P start))
          goal start.x start.y (getYaw M (poseStampedMsgToTF (chooseStart P start)))
          (goal.x - start.x) (goal.y - start.y)
          (M.normalize_angle (getYaw M (poseStampedMsgToTF goal)
            - getYaw M (poseStampedMsgToTF (chooseStart P start)))) [] 22 le_rfl
        refine ⟨22, ⟨true, r, P.withStart (chooseStart P start)⟩, ?_⟩
        rw [makePlan_accepted M 22 P start goal plan hinit hframe, if_neg hc, h]
        rfl
    · exact ⟨0, _, makePlan_frame_mismatch M 0 P start goal plan hinit hframe⟩
  · exact ⟨0, _, makePlan_not_initialized M 0 P start goal plan (by simpa using hinit)⟩

/-- The flag that `makePlan` returns is `false` exactly for a planner that is not
initialized or a goal outside the global frame. -/
theorem makePlan_success (M : MathLib α) (fuel : ℕ) (P : Planner α)
    (start goal : PoseStamped α) (plan : List (PoseStamped α)) (r : PlanResult α)
    (h : makePlan M fuel P start goal plan = some r) :
    r.success = false ↔ (P.initialized_ = false ∨ goal.frame_id ≠ P.global_frame) := by
  by_cases hinit : P.initialized_ = true
  · by_cases hframe : goal.frame_id = P.global_frame
    · rw [makePlan_accepted M fuel P start goal plan hinit hframe] at h
      have hr : r.success = true := by
        split_ifs at h
        · obtain ⟨st, -, hst⟩ := Option.map_eq_some'.mp h
          rw [← hst]
        · obtain ⟨pl, -, hpl⟩ := Option.map_eq_some'.mp h
          rw [← hpl]
      simp [hr, hinit, hframe]
    · rw [makePlan_frame_mismatch M fuel P start goal plan hinit hframe] at h
      cases h
      simp [hframe]
  · have hinit' : P.initialized_ = false := by simpa using hinit
    rw [makePlan_not_initialized M fuel P start goal plan hinit'] at h
    cases h
    simp [hinit']

/-- A call of `makePlan` writes no member of the planner but `start_`. -/
theorem makePlan_planner (M : MathLib α) (fuel : ℕ) (P : Planner α)
    (start goal : PoseStamped α) (plan : List (PoseStamped α)) (r : PlanResult α)
    (h : makePlan M fuel P start goal plan = some r) :
    r.planner = P ∨ r.planner = P.withStart (chooseStart P start) := by
  by_cases hinit : P.initialized_ = true
  · by_cases hframe : goal.frame_id = P.global_frame
    · rw [makePlan_accepted M fuel P start goal plan hinit hframe] at h
      split_ifs at h
      · obtain ⟨st, -, hst⟩ := Option.map_eq_some'.mp h
        exact Or.inr (by rw [← hst])
      · obtain ⟨pl, -, hpl⟩ := Option.map_eq_some'.mp h
        exact Or.inr (by rw [← hpl])
    · rw [makePlan_frame_mismatch M fuel P start goal plan hinit hframe] at h
      cases h
      exact Or.inl rfl
  · rw [makePlan_not_initialized M fuel P start goal plan (by simpa using hinit)] at h
    cases h
    exact Or.inl rfl

/-- A call of `makePlan` leaves `valid_last_goal_` as it is. -/
theorem makePlan_valid_last_goal (M : MathLib α) (fuel : ℕ) (P : Planner α)
    (start goal : PoseStamped α) (plan : List (PoseStamped α)) (r : PlanResult α)
    (h : makePlan M fuel P start goal plan = some r) :
    r.planner.valid_last_goal_ = P.valid_last_goal_ := by
  rcases makePlan_planner M fuel P start goal plan r h with hp | hp
  · rw [hp]
  · rw [hp]
    rfl

/-- Whatever `makePlan` returns does not depend on the fuel. -/
theorem makePlan_fuel_unique (M : MathLib α) (f1 f2 : ℕ) (P : Planner α)
    (start goal : PoseStamped α) (plan : List (PoseStamped α)) (r1 r2 : PlanResult α)
    (h1 : makePlan M f1 P start goal plan = some r1)
    (h2 : makePlan M f2 P start goal plan = some r2) : r1 = r2 := by
  by_cases hinit : P.initialized_ = true
  · by_cases hframe : goal.frame_id = P.global_frame
    · rw [makePlan_accepted M f1 P start goal plan hinit hframe] at h1
      rw [makePlan_accepted M f2 P start goal plan hinit hframe] at h2
      split_ifs at h1 h2
      · obtain ⟨st1, hs1, e1⟩ := Option.map_eq_some'.mp h1
        obtain ⟨st2, hs2, e2⟩ := Option.map_eq_some'.mp h2
        rw [← e1, ← e2, samplerLoop_fuel_unique M _ goal _ f1 f2 _ st1 st2 hs1 hs2]
      · obtain ⟨p1, hp1, e1⟩ := Option.map_eq_some'.mp h1
        obtain ⟨p2, hp2, e2⟩ := Option.map_eq_some'.mp h2
        rw [← e1, ← e2, carrotLoop_fuel_unique M _ goal _ _ _ _ _ _ f1 f2 _ _ _ p1 p2 hp1 hp2]
    · rw [makePlan_frame_mismatch M f1 P start goal plan hinit hframe] at h1
      rw [makePlan_frame_mismatch M f2 P start goal plan hinit hframe] at h2
      rw [← Option.some.inj h1, ← Option.some.inj h2]
  · have hinit' : P.initialized_ = false := by simpa using hinit
    rw [makePlan_not_initialized M f1 P start goal plan hinit'] at h1
    rw [makePlan_not_initialized M f2 P start goal plan hinit'] at h2
    rw [← Option.some.inj h1, ← Option.some.inj h2]

/-- Every pose of the plan of a successful call of `makePlan` has a non-negative footprint
cost. -/
theorem makePlan_safe (M : MathLib α) (fuel : ℕ) (P : Planner α)
    (start goal : PoseStamped α) (plan : List (PoseStamped α)) (r : PlanResult α)
    (h : makePlan M fuel P start goal plan = some r) (hsucc : r.success = true) :
    ∀ q ∈ r.plan, 0 ≤ footprintCost P q.x q.y q.yaw := by
  have hacc := (not_congr (makePlan_success M fuel P start goal plan r h)).mp (by simp [hsucc])
  rw [not_or, not_not] at hacc
  obtain ⟨hinit, hframe⟩ := hacc
  have hinit' : P.initialized_ = true := by simpa using hinit
  rw [makePlan_accepted M fuel P start goal plan hinit' hframe] at h
  split_ifs at h
  · obtain ⟨st, hst, hr⟩ := Option.map_eq_some'.mp h
    obtain ⟨l, hl, hsafe⟩ := samplerLoop_plan M _ goal _ fuel _ st hst
    rw [← hr]
    intro q hq
    have hq' : q ∈ l := by
      have : q ∈ st.plan := hq
      rw [hl] at this
      simpa [samplerInit] using this
    exact hsafe q hq'
  · obtain ⟨pl, hpl, hr⟩ := Option.map_eq_some'.mp h
    obtain ⟨l, hl, hsafe⟩ := carrotLoop_plan M _ goal _ _ _ _ _ _ fuel _ _ _ pl hpl
    rw [← hr]
    intro q hq
    have hq' : q ∈ l := by
      have : q ∈ pl := hq
      rw [hl] at this
      simpa using this
    exact hsafe q hq'

end Loops

/-! ### The first pose of the plan, in exact arithmetic -/

theorem normalize_zero_realMath : realMath.normalize_angle 0 = 0 :=
  wrapAngle_of_mem (by linarith [Real.pi_pos]) Real.pi_pos.le

theorem normalize_idem_realMath (a : ℝ) :
    realMath.normalize_angle (realMath.normalize_angle a) = realMath.normalize_angle a :=
  wrapAngle_idem Real.pi_pos a

theorem chooseStart_of_invalid {α : Type} (P : Planner α) (start : PoseStamped α)
    (h : P.valid_last_goal_ = false) : chooseStart P start = start := by
  unfold chooseStart
  rw [bitAnd_eq_and, h, Bool.and_false]
  rfl

/-- The sampling loop is entered with the center of rotation at the start position and
with the start heading. -/
theorem samplerInit_center_realMath (P : Planner ℝ) (start_ goal : PoseStamped ℝ)
    (plan : List (PoseStamped ℝ)) :
    (samplerInit realMath (selectManeuver realMath P start_ goal) plan).center_traj_point_tf.x
      = start_.x ∧
    (samplerInit realMath (selectManeuver realMath P start_ goal) plan).center_traj_point_tf.y
      = start_.y ∧
    getYaw realMath
        (samplerInit realMath (selectManeuver realMath P start_ goal) plan).center_traj_point_tf
      = getYaw realMath (poseStampedMsgToTF start_) := by
  obtain ⟨h1, -, h3⟩ := selectManeuver_start_yaw realMath P start_ goal
  generalize selectManeuver realMath P start_ goal = mv at *
  simp only [samplerInit, centerToGlobal, translate2D, rotate2D, h1, h3]
  refine ⟨?_, ?_, ?_⟩
  · simp [poseStampedMsgToTF]
  · simp [poseStampedMsgToTF]
  · simp only [getYaw, normalize_zero_realMath, add_zero, normalize_idem_realMath]

/-- In exact arithmetic, an accepted call of `makePlan` on a planner without a valid last
goal returns a plan that is empty when the start pose has a negative footprint cost and
that begins with the start pose otherwise. -/
theorem makePlan_first_pose (fuel : ℕ) (P : Planner ℝ) (start goal : PoseStamped ℝ)
    (plan : List (PoseStamped ℝ)) (r : PlanResult ℝ)
    (hinit : P.initialized_ = true) (hframe : goal.frame_id = P.global_frame)
    (hvalid : P.valid_last_goal_ = false)
    (h : makePlan realMath fuel P start goal plan = some r) :
    (footprintCost P start.x start.y (getYaw realMath (poseStampedMsgToTF start)) < 0 →
      r.plan = []) ∧
    (0 ≤ footprintCost P start.x start.y (getYaw realMath (poseStampedMsgToTF start)) →
      ∃ rest, r.plan = ⟨goal.frame_id, start.x, start.y,
        getYaw realMath (poseStampedMsgToTF start)⟩ :: rest) := by
  rw [makePlan_accepted realMath fuel P start goal plan hinit hframe,
    chooseStart_of_invalid P start hvalid] at h
  split_ifs at h
  · obtain ⟨st, hst, hr⟩ := Option.map_eq_some'.mp h
    obtain ⟨hneg, hpos⟩ := samplerLoop_first realMath _ goal _ fuel _ st hst
    obtain ⟨hx, hy, hyaw⟩ := samplerInit_center_realMath (P.withStart start) start goal []
    rw [hx, hy, hyaw, footprintCost_withStart] at hneg hpos
    rw [← hr]
    refine ⟨fun h0 => hneg h0, fun h0 => ?_⟩
    obtain ⟨l, hl⟩ := hpos h0
    exact ⟨l, by rw [hl]; rfl⟩
  · obtain ⟨pl, hpl, hr⟩ := Option.map_eq_some'.mp h
    obtain ⟨hneg, hpos⟩ := carrotLoop_first realMath _ goal _ _ _ _ _ _ fuel 0 0 _ pl
      zero_le_one hpl
    have hyaw : realMath.normalize_angle (getYaw realMath (poseStampedMsgToTF start)
        + 0 * realMath.normalize_angle (getYaw realMath (poseStampedMsgToTF goal)
          - getYaw realMath (poseStampedMsgToTF start)))
        = getYaw realMath (poseStampedMsgToTF start) := by
      rw [zero_mul, add_zero]
      exact normalize_idem_realMath _
    rw [zero_mul, zero_mul, add_zero, add_zero, hyaw, footprintCost_withStart] at hneg hpos
    rw [← hr]
    refine ⟨fun h0 => hneg h0, fun h0 => ?_⟩
    obtain ⟨l, hl⟩ := hpos h0
    exact ⟨l, by rw [hl]; rfl⟩

/-! ### The goal straight ahead -/

theorem getYaw_zero_realMath (x y : ℝ) : getYaw realMath ⟨x, y, 0⟩ = 0 :=
  normalize_zero_realMath

/-- The solver on a goal straight ahead of the start with the heading of the start: it
takes the right-turn branch and passes the last check. -/
theorem solver_straight_ahead (r : ℝ) :
    computeCurveParameters realMath ⟨3, 0, 0⟩ r
      = ⟨CurveType.RIGHT_CENTER_POINT, 3, 0, -|r|⟩ := by
  have hq : (Real.pi - 0) / 2 = Real.pi / 2 := by ring
  rw [computeCurveParameters_eq]
  simp only [getYaw_zero_realMath]
  simp only [realMath, hq, Real.tan_pi_div_two, Real.tan_zero]
  have hpi := Real.pi_pos
  norm_num [hpi.le]

/-- For the start `(0, 0, 0)` and the goal `(3, 0, 0)` the selection ends with the curve
type `RIGHT`, both for the center of rotation and for the reference point on the right
side. -/
theorem selectManeuver_straight_ahead (P : Planner ℝ) (fs fg : String) :
    (selectManeuver realMath P ⟨fs, 0, 0, 0⟩ ⟨fg, 3, 0, 0⟩).curve_type
      = CurveType.RIGHT_CENTER_POINT := by
  have h0 : wrapAngle Real.pi 0 = 0 := normalize_zero_realMath
  have e1 : rotate2D realMath (translate2D (poseStampedMsgToTF (⟨fg, 3, 0, 0⟩ : PoseStamped ℝ))
      (-(poseStampedMsgToTF (⟨fs, 0, 0, 0⟩ : PoseStamped ℝ)).x)
      (-(poseStampedMsgToTF (⟨fs, 0, 0, 0⟩ : PoseStamped ℝ)).y))
      (-getYaw realMath (poseStampedMsgToTF (⟨fs, 0, 0, 0⟩ : PoseStamped ℝ)))
      = ⟨3, 0, 0⟩ := by
    simp [rotate2D, translate2D, poseStampedMsgToTF, getYaw, realMath, h0]
  unfold selectManeuver
  dsimp only
  rw [e1, solver_straight_ahead]
  dsimp only
  rw [if_pos (by decide)]
  have e2 : rotate2D realMath
      (translate2D
        (translate2D
          (rotate2D realMath ⟨P.right_side_ref_point_.x, P.right_side_ref_point_.y, 0⟩
            (getYaw realMath (poseStampedMsgToTF (⟨fg, 3, 0, 0⟩ : PoseStamped ℝ))))
          (poseStampedMsgToTF (⟨fg, 3, 0, 0⟩ : PoseStamped ℝ)).x
          (poseStampedMsgToTF (⟨fg, 3, 0, 0⟩ : PoseStamped ℝ)).y)
        (-(translate2D
            (rotate2D realMath ⟨P.right_side_ref_point_.x, P.right_side_ref_point_.y, 0⟩
              (getYaw realMath (poseStampedMsgToTF (⟨fs, 0, 0, 0⟩ : PoseStamped ℝ))))
            (poseStampedMsgToTF (⟨fs, 0, 0, 0⟩ : PoseStamped ℝ)).x
            (poseStampedMsgToTF (⟨fs, 0, 0, 0⟩ : PoseStamped ℝ)).y).x)
        (-(translate2D
            (rotate2D realMath ⟨P.right_side_ref_point_.x, P.right_side_ref_point_.y, 0⟩
              (getYaw realMath (poseStampedMsgToTF (⟨fs, 0, 0, 0⟩ : PoseStamped ℝ))))
            (poseStampedMsgToTF (⟨fs, 0, 0, 0⟩ : PoseStamped ℝ)).x
            (poseStampedMsgToTF (⟨fs, 0, 0, 0⟩ : PoseStamped ℝ)).y).y))
      (-getYaw realMath
        (translate2D
          (rotate2D realMath ⟨P.right_side_ref_point_.x, P.right_side_ref_point_.y, 0⟩
            (getYaw realMath (poseStampedMsgToTF (⟨fs, 0, 0, 0⟩ : PoseStamped ℝ))))
          (poseStampedMsgToTF (⟨fs, 0, 0, 0⟩ : PoseStamped ℝ)).x
          (poseStampedMsgToTF (⟨fs, 0, 0, 0⟩ : PoseStamped ℝ)).y))
      = ⟨3, 0, 0⟩ := by
    simp [rotate2D, translate2D, poseStampedMsgToTF, getYaw, realMath, h0]
  rw [e2, solver_straight_ahead]
  dsimp only
  rw [if_neg (by decide)]

/-! ### Radius monotonicity and the transform round trip -/

/-- The curve type of a result other than `NONE` is decided by the side of the goal alone,
so two radii give the same curve type unless one of them gives `NONE`. -/
theorem solver_side_independent_of_radius {α : Type} [LinearOrderedField α] (M : MathLib α)
    (p : Pose α) (r1 r2 : α)
    (h1 : (computeCurveParameters M p r1).curve_type ≠ CurveType.NONE) :
    (computeCurveParameters M p r2).curve_type = (computeCurveParameters M p r1).curve_type ∨
    (computeCurveParameters M p r2).curve_type = CurveType.NONE := by
  by_cases h2 : (computeCurveParameters M p r2).curve_type = CurveType.NONE
  · exact Or.inr h2
  · left
    obtain ⟨hl1, hr1, -⟩ := (computeCurveParameters_spec M p r1).2 h1
    obtain ⟨hl2, hr2, -⟩ := (computeCurveParameters_spec M p r2).2 h2
    by_cases hy : 0 < p.y
    · rw [hl1.mpr hy, hl2.mpr hy]
    · rw [hr1.mpr hy, hr2.mpr hy]

/-- The wrapped angle differs from the angle by a multiple of `2 pi`. -/
theorem wrapAngle_eq_add {α : Type} [LinearOrderedField α] [FloorRing α] (pi a : α) :
    ∃ k : ℤ, wrapAngle pi a = a + k * (2 * pi) :=
  ⟨-Int.ceil ((a - pi) / (2 * pi)), by unfold wrapAngle; push_cast; ring⟩

/-- Angles that differ by a multiple of `2 pi` have the same wrapped angle. -/
theorem wrapAngle_add_int_mul {α : Type} [LinearOrderedField α] [FloorRing α] {pi : α}
    (hpi : 0 < pi) (a : α) (k : ℤ) : wrapAngle pi (a + k * (2 * pi)) = wrapAngle pi a := by
  have h2 : (2 * pi) ≠ 0 := by positivity
  have e : (a + k * (2 * pi) - pi) / (2 * pi) = (a - pi) / (2 * pi) + k := by
    field_simp
    ring
  unfold wrapAngle
  rw [e, Int.ceil_add_int]
  push_cast
  ring

/-- The round trip `translate2D` by `v`, `rotate2D` by `-theta`, `rotate2D` by `theta`,
`translate2D` by `-v` in exact arithmetic. -/
theorem round_trip_real (p : Pose ℝ) (vx vy theta : ℝ) :
    (translate2D (rotate2D realMath (rotate2D realMath (translate2D p vx vy) (-theta)) theta)
        (-vx) (-vy)).x = p.x ∧
    (translate2D (rotate2D realMath (rotate2D realMath (translate2D p vx vy) (-theta)) theta)
        (-vx) (-vy)).y = p.y ∧
    (∃ k : ℤ,
      (translate2D (rotate2D realMath (rotate2D realMath (translate2D p vx vy) (-theta)) theta)
        (-vx) (-vy)).yaw = p.yaw + k * (2 * Real.pi)) ∧
    getYaw realMath
      (translate2D (rotate2D realMath (rotate2D realMath (translate2D p vx vy) (-theta)) theta)
        (-vx) (-vy)) = getYaw realMath p := by
  have hsq := Real.sin_sq_add_cos_sq theta
  have hyaw : ∃ k : ℤ, theta + wrapAngle Real.pi (-theta + wrapAngle Real.pi p.yaw)
      = p.yaw + k * (2 * Real.pi) := by
    obtain ⟨k1, hk1⟩ := wrapAngle_eq_add Real.pi p.yaw
    obtain ⟨k2, hk2⟩ := wrapAngle_eq_add Real.pi (-theta + wrapAngle Real.pi p.yaw)
    exact ⟨k1 + k2, by rw [hk2, hk1]; push_cast; ring⟩
  refine ⟨?_, ?_, ?_, ?_⟩
  · simp only [translate2D, rotate2D, realMath, Real.sin_neg, Real.cos_neg]
    linear_combination (p.x + vx) * hsq
  · simp only [translate2D, rotate2D, realMath, Real.sin_neg, Real.cos_neg]
    linear_combination (p.y + vy) * hsq
  · simpa only [translate2D, rotate2D, realMath, getYaw] using hyaw
  · obtain ⟨k, hk⟩ := hyaw
    simp only [translate2D, rotate2D, realMath, getYaw]
    rw [hk]
    exact wrapAngle_add_int_mul Real.pi_pos p.yaw k

/-! ### The samples of the carrot planner -/

/-- The poses that the carrot loop appends are, in order, the samples at the scales
`scale`, `scale + 0.05`, `scale + 2 * 0.05`, and so on. -/
theorem carrotLoop_samples {α : Type} [LinearOrderedField α] (M : MathLib α) (P : Planner α)
    (goal : PoseStamped α) (start_x start_y start_yaw diff_x diff_y diff_yaw : α) (fuel : ℕ) :
    ∀ (scale : α) (sb : ℚ) (plan r : List (PoseStamped α)),
      carrotLoop M P goal start_x start_y start_yaw diff_x diff_y diff_yaw fuel scale sb plan
        = some r →
      ∃ l : List (PoseStamped α), r = plan ++ l ∧
        ∀ (j : ℕ) (q : PoseStamped α), l[j]? = some q →
          q = ⟨goal.frame_id, start_x + (scale + j * 0.05) * diff_x,
            start_y + (scale + j * 0.05) * diff_y,
            M.normalize_angle (start_yaw + (scale + j * 0.05) * diff_yaw)⟩ := by
  induction fuel with
  | zero =>
    intro scale sb plan r h
    simp [carrotLoop] at h
  | succ fuel ih =>
    intro scale sb plan r h
    rw [carrotLoop_succ] at h
    split_ifs at h with h1 h2
    · cases h
      exact ⟨[], by simp, by simp⟩
    · cases h
      exact ⟨[], by simp, by simp⟩
    · obtain ⟨l, hl, hsamp⟩ := ih _ _ _ _ h
      refine ⟨_ :: l, by rw [hl, List.append_assoc, List.singleton_append], ?_⟩
      intro j q hq
      cases j with
      | zero =>
        simp only [List.getElem?_cons_zero, Option.some.injEq] at hq
        rw [← hq]
        simp
      | succ j =>
        simp only [List.getElem?_cons_succ] at hq
        rw [hsamp j q hq]
        push_cast
        have e : scale + 0.05 + (j : α) * 0.05 = scale + ((j : α) + 1) * 0.05 := by ring
        rw [e]

/-- When the selection finds no curve, the poses of the plan of an accepted call of
`makePlan` are the samples of the carrot planner at the scales `0.05 * k`. -/
theorem makePlan_carrot_samples {α : Type} [LinearOrderedField α] (M : MathLib α) (fuel : ℕ)
    (P : Planner α) (start goal : PoseStamped α) (plan : List (PoseStamped α))
    (r : PlanResult α) (hinit : P.initialized_ = true)
    (hframe : goal.frame_id = P.global_frame)
    (hnone : (selectManeuver M (P.withStart (chooseStart P start)) (chooseStart P start)
      goal).curve_type = CurveType.NONE)
    (h : makePlan M fuel P start goal plan = some r) :
    ∀ (k : ℕ) (q : PoseStamped α), r.plan[k]? = some q →
      q = ⟨goal.frame_id, start.x + 0.05 * k * (goal.x - start.x),
        start.y + 0.05 * k * (goal.y - start.y),
        M.normalize_angle (getYaw M (poseStampedMsgToTF (chooseStart P start))
          + 0.05 * k * M.normalize_angle (getYaw M (poseStampedMsgToTF goal)
              - getYaw M (poseStampedMsgToTF (chooseStart P start))))⟩ := by
  rw [makePlan_accepted M fuel P start goal plan hinit hframe,
    if_neg (not_not.mpr hnone)] at h
  obtain ⟨pl, hpl, hr⟩ := Option.map_eq_some'.mp h
  obtain ⟨l, hl, hsamp⟩ := carrotLoop_samples M _ goal _ _ _ _ _ _ fuel 0 0 [] pl hpl
  intro k q hq
  rw [← hr] at hq
  have hq' : l[k]? = some q := by
    have : pl[k]? = some q := hq
    rw [hl] at this
    simpa using this
  rw [hsamp k q hq']
  have e : (0 : α) + (k : α) * 0.05 = 0.05 * k := by ring
  rw [e]

/-! ### Initialization -/

section Init

variable {α : Type} [LinearOrderedField α]

/-- The flags after the loop over the footprint: a flag is set exactly when it was set
before or the footprint has a point in the open quadrant of the flag. -/
theorem foldl_classifyCorner_flags (l : List (Point α)) :
    ∀ c : Corners α,
      ((l.foldl classifyCorner c).topLeftCorner_b = true ↔
        c.topLeftCorner_b = true ∨ ∃ p ∈ l, 0 < p.x ∧ 0 < p.y) ∧
      ((l.foldl classifyCorner c).topRightCorner_b = true ↔
        c.topRightCorner_b = true ∨ ∃ p ∈ l, 0 < p.x ∧ p.y < 0) ∧
      ((l.foldl classifyCorner c).bottomRightCorner_b = true ↔
        c.bottomRightCorner_b = true ∨ ∃ p ∈ l, p.x < 0 ∧ p.y < 0) ∧
      ((l.foldl classifyCorner c).bottomLeftCorner_b = true ↔
        c.bottomLeftCorner_b = true ∨ ∃ p ∈ l, p.x < 0 ∧ 0 < p.y) := by
  induction l with
  | nil => intro c; simp
  | cons a l ih =>
    intro c
    rw [List.foldl_cons]
    obtain ⟨h1, h2, h3, h4⟩ := ih (classifyCorner c a)
    rw [h1, h2, h3, h4]
    simp only [List.mem_cons, exists_eq_or_imp]
    unfold classifyCorner
    by_cases hx : 0 < a.x <;> by_cases hy : 0 < a.y <;> by_cases hx' : a.x < 0 <;>
      by_cases hy' : a.y < 0 <;>
      simp [hx, hy, hx', hy'] <;>
      (exfalso; linarith)

/-- The corners after the loop over the footprint: a corner whose flag is set and was not
set before is the last point of the footprint in the open quadrant of the flag, so it is a
point of the footprint in that quadrant. -/
theorem foldl_classifyCorner_corners (L l : List (Point α)) (hl : ∀ p ∈ l, p ∈ L) :
    ∀ c : Corners α,
      ((c.topLeftCorner_b = true → c.topLeftCorner_ ∈ L ∧ 0 < c.topLeftCorner_.x ∧
          0 < c.topLeftCorner_.y) ∧
        (c.topRightCorner_b = true → c.topRightCorner_ ∈ L ∧ 0 < c.topRightCorner_.x ∧
          c.topRightCorner_.y < 0) ∧
        (c.bottomRightCorner_b = true → c.bottomRightCorner_ ∈ L ∧
          c.bottomRightCorner_.x < 0 ∧ c.bottomRightCorner_.y < 0) ∧
        (c.bottomLeftCorner_b = true → c.bottomLeftCorner_ ∈ L ∧ c.bottomLeftCorner_.x < 0 ∧
          0 < c.bottomLeftCorner_.y)) →
      (((l.foldl classifyCorner c).topLeftCorner_b = true →
          (l.foldl classifyCorner c).topLeftCorner_ ∈ L ∧
          0 < (l.foldl classifyCorner c).topLeftCorner_.x ∧
          0 < (l.foldl classifyCorner c).topLeftCorner_.y) ∧
        ((l.foldl classifyCorner c).topRightCorner_b = true →
          (l.foldl classifyCorner c).topRightCorner_ ∈ L ∧
          0 < (l.foldl classifyCorner c).topRightCorner_.x ∧
          (l.foldl classifyCorner c).topRightCorner_.y < 0) ∧
        ((l.foldl classifyCorner c).bottomRightCorner_b = true →
          (l.foldl classifyCorner c).bottomRightCorner_ ∈ L ∧
          (l.foldl classifyCorner c).bottomRightCorner_.x < 0 ∧
          (l.foldl classifyCorner c).bottomRightCorner_.y < 0) ∧
        ((l.foldl classifyCorner c).bottomLeftCorner_b = true →
          (l.foldl classifyCorner c).bottomLeftCorner_ ∈ L ∧
          (l.foldl classifyCorner c).bottomLeftCorner_.x < 0 ∧
          0 < (l.foldl classifyCorner c).bottomLeftCorner_.y)) := by
  induction l with
  | nil => intro c h; simpa using h
  | cons a l ih =>
    intro c h
    rw [List.foldl_cons]
    apply ih (fun p hp => hl p (List.mem_cons_of_mem a hp))
    have ha : a ∈ L := hl a (List.mem_cons_self a l)
    obtain ⟨h1, h2, h3, h4⟩ := h
    unfold classifyCorner
    split_ifs with c1 c2 c3 c4
    · exact ⟨fun _ => ⟨ha, c1.1, c1.2⟩, h2, h3, h4⟩
    · exact ⟨h1, fun _ => ⟨ha, c2.1, c2.2⟩, h3, h4⟩
    · exact ⟨h1, h2, fun _ => ⟨ha, c3.1, c3.2⟩, h4⟩
    · exact ⟨h1, h2, h3, fun _ => ⟨ha, c4.1, c4.2⟩⟩
    · exact ⟨h1, h2, h3, h4⟩

/-- Starting from an uninitialized planner, `initialize` leaves the planner initialized
exactly when the footprint has four points and each open quadrant holds one of them. -/
theorem initializePlanner_initialized_iff (P : Planner α) (cm : Costmap2DROS α)
    (params : Parameters α) (h0 : P.initialized_ = false) :
    (initializePlanner P cm params).initialized_ = true ↔
      (cm.footprint.length = 4 ∧
        (∃ p ∈ cm.footprint, 0 < p.x ∧ 0 < p.y) ∧
        (∃ p ∈ cm.footprint, 0 < p.x ∧ p.y < 0) ∧
        (∃ p ∈ cm.footprint, p.x < 0 ∧ p.y < 0) ∧
        (∃ p ∈ cm.footprint, p.x < 0 ∧ 0 < p.y)) := by
  obtain ⟨f1, f2, f3, f4⟩ := foldl_classifyCorner_flags cm.footprint
    { topRightCorner_b := false, topLeftCorner_b := false, bottomRightCorner_b := false,
      bottomLeftCorner_b := false, topRightCorner_ := P.topRightCorner_,
      topLeftCorner_ := P.topLeftCorner_, bottomRightCorner_ := P.bottomRightCorner_,
      bottomLeftCorner_ := P.bottomLeftCorner_ }
  simp only [Bool.false_eq_true, false_or] at f1 f2 f3 f4
  unfold initializePlanner
  simp only [h0, Bool.not_false, if_true, bitAnd_eq_and]
  by_cases hlen : cm.footprint.length = 4
  · rw [if_neg (not_not.mpr hlen)]
    split_ifs with hflags
    · simp only [h0, Bool.false_eq_true, false_iff, not_and]
      intro _ e1 e2 e3 e4
      rw [f2.mpr e2, f1.mpr e1, f3.mpr e3, f4.mpr e4] at hflags
      simp at hflags
    · simp only [Bool.not_eq_true', Bool.not_eq_false, Bool.and_eq_true] at hflags
      obtain ⟨⟨⟨g2, g1⟩, g3⟩, g4⟩ := hflags
      simp only [true_iff]
      exact ⟨hlen, f1.mp g1, f2.mp g2, f3.mp g3, f4.mp g4⟩
  · rw [if_pos hlen]
    simp [h0, hlen]

/-- After `initialize` the planner holds no valid last goal. -/
theorem initializePlanner_valid_last_goal (P : Planner α) (cm : Costmap2DROS α)
    (params : Parameters α) (h0 : P.initialized_ = false) :
    (initializePlanner P cm params).valid_last_goal_ = false := by
  unfold initializePlanner
  simp only [h0, Bool.not_false, if_true]
  split_ifs <;> rfl

/-- After `initialize` the switch `last_goal_as_start_` is the parameter
`use_last_goal_as_start`, or `false` when the parameter is not set. -/
theorem initializePlanner_last_goal_as_start (P : Planner α) (cm : Costmap2DROS α)
    (params : Parameters α) (h0 : P.initialized_ = false) :
    (initializePlanner P cm params).last_goal_as_start_
      = params.use_last_goal_as_start.getD false := by
  unfold initializePlanner
  simp only [h0, Bool.not_false, if_true]
  split_ifs <;> rfl

/-- What a successful `initialize` leaves in the planner: the global frame, the footprint
and the world model of the costmap, the parameters, and the reference points: the top
right corner is a point of the footprint with `x > 0` and `y < 0`, the bottom right corner
a point of the footprint with `x < 0` and `y < 0`, and the reference point on the right
side is `(0.1, y)` with the `y` of the bottom right corner. -/
theorem initializePlanner_fields (P : Planner α) (cm : Costmap2DROS α)
    (params : Parameters α) (h0 : P.initialized_ = false)
    (hinit : (initializePlanner P cm params).initialized_ = true) :
    (initializePlanner P cm params).global_frame = cm.global_frame ∧
    (initializePlanner P cm params).footprint = cm.footprint ∧
    (initializePlanner P cm params).world_model_ = cm.footprintCost ∧
    (initializePlanner P cm params).step_size_ = params.step_size.getD cm.resolution ∧
    (initializePlanner P cm params).turning_radius_ = params.turning_radius.getD 0.8 ∧
    ((initializePlanner P cm params).topRightCorner_ ∈ cm.footprint ∧
      0 < (initializePlanner P cm params).topRightCorner_.x ∧
      (initializePlanner P cm params).topRightCorner_.y < 0) ∧
    ((initializePlanner P cm params).bottomRightCorner_ ∈ cm.footprint ∧
      (initializePlanner P cm params).bottomRightCorner_.x < 0 ∧
      (initializePlanner P cm params).bottomRightCorner_.y < 0) ∧
    (initializePlanner P cm params).right_side_ref_point_
      = ⟨0.1, (initializePlanner P cm params).bottomRightCorner_.y⟩ ∧
    (initializePlanner P cm params).left_side_ref_point_
      = ⟨0.1, (initializePlanner P cm params).bottomLeftCorner_.y⟩ := by
  have hcorners := foldl_classifyCorner_corners cm.footprint cm.footprint (fun p hp => hp)
    { topRightCorner_b := false, topLeftCorner_b := false, bottomRightCorner_b := false,
      bottomLeftCorner_b := false, topRightCorner_ := P.topRightCorner_,
      topLeftCorner_ := P.topLeftCorner_, bottomRightCorner_ := P.bottomRightCorner_,
      bottomLeftCorner_ := P.bottomLeftCorner_ }
    (by simp)
  obtain ⟨-, k2, k3, -⟩ := hcorners
  unfold initializePlanner at hinit ⊢
  simp only [h0, Bool.not_false, if_true, bitAnd_eq_and] at hinit ⊢
  split_ifs at hinit ⊢ with hlen hflags
  simp only [Bool.not_eq_true', Bool.not_eq_false, Bool.and_eq_true] at hflags
  obtain ⟨⟨⟨g2, g1⟩, g3⟩, g4⟩ := hflags
  exact ⟨rfl, rfl, rfl, rfl, rfl, k2 g2, k3 g3, rfl, rfl⟩

/-- A planner that `initialize` has left uninitialized rejects every call of `makePlan`. -/
theorem makePlan_after_failed_initializePlanner (M : MathLib α) (fuel : ℕ) (P : Planner α)
    (cm : Costmap2DROS α) (params : Parameters α) (start goal : PoseStamped α)
    (plan : List (PoseStamped α))
    (hno : (initializePlanner P cm params).initialized_ ≠ true) :
    makePlan M fuel (initializePlanner P cm params) start goal plan
      = some ⟨false, plan, initializePlanner P cm params⟩ :=
  makePlan_not_initialized M fuel _ start goal plan (by simpa using hno)

end Init


/-! ### The reference point selection -/

section Selection

variable {α : Type} [LinearOrderedField α]

/-- The selection does not read the start pose that the planner remembers. -/
theorem selectManeuver_withStart (M : MathLib α) (P : Planner α) (s start_ goal : PoseStamped α) :
    selectManeuver M (P.withStart s) start_ goal = selectManeuver M P start_ goal := rfl

/-- The selection in terms of the goal in the start frame, the candidate reference point
and the goal re-framed about it. -/
theorem selectManeuver_eq (M : MathLib α) (P : Planner α) (start_ goal : PoseStamped α) :
    selectManeuver M P start_ goal =
      if (computeCurveParameters M (goalInStartFrame M start_ goal)
          P.turning_radius_).curve_type ≠ CurveType.NONE then
        if (computeCurveParameters M
            (refpointGoalInRefstartFrame M start_ goal
              (candidateRefpoint P (computeCurveParameters M (goalInStartFrame M start_ goal)
                P.turning_radius_).curve_type))
            P.turning_radius_).curve_type = CurveType.NONE then
          { curve_type := (computeCurveParameters M (goalInStartFrame M start_ goal)
              P.turning_radius_).curve_type
            start_tf := poseStampedMsgToTF start_
            start_yaw := getYaw M (poseStampedMsgToTF start_)
            goal_yaw := getYaw M (poseStampedMsgToTF goal)
            refpoint_tf_robot_coord := ⟨0, 0, 0⟩
            refpoint_goal_tf_refstart_coord := goalInStartFrame M start_ goal
            dist_before_steering_refp := (computeCurveParameters M
              (goalInStartFrame M start_ goal) P.turning_radius_).dist_before_steering
            dist_after_steering_refp := (computeCurveParameters M
              (goalInStartFrame M start_ goal) P.turning_radius_).dist_after_steering
            signed_turning_radius_refp := (computeCurveParameters M
              (goalInStartFrame M start_ goal) P.turning_radius_).signed_turning_radius }
        else
          { curve_type := (computeCurveParameters M
              (refpointGoalInRefstartFrame M start_ goal
                (candidateRefpoint P (computeCurveParameters M (goalInStartFrame M start_ goal)
                  P.turning_radius_).curve_type))
              P.turning_radius_).curve_type
            start_tf := poseStampedMsgToTF start_
            start_yaw := getYaw M (poseStampedMsgToTF start_)
            goal_yaw := getYaw M (poseStampedMsgToTF goal)
            refpoint_tf_robot_coord :=
              candidateRefpoint P (computeCurveParameters M (goalInStartFrame M start_ goal)
                P.turning_radius_).curve_type
            refpoint_goal_tf_refstart_coord :=
              refpointGoalInRefstartFrame M start_ goal
                (candidateRefpoint P (computeCurveParameters M (goalInStartFrame M start_ goal)
                  P.turning_radius_).curve_type)
            dist_before_steering_refp := (computeCurveParameters M
              (refpointGoalInRefstartFrame M start_ goal
                (candidateRefpoint P (computeCurveParameters M (goalInStartFrame M start_ goal)
                  P.turning_radius_).curve_type))
              P.turning_radius_).dist_before_steering
            dist_after_steering_refp := (computeCurveParameters M
              (refpointGoalInRefstartFrame M start_ goal
                (candidateRefpoint P (computeCurveParameters M (goalInStartFrame M start_ goal)
                  P.turning_radius_).curve_type))
              P.turning_radius_).dist_after_steering
            signed_turning_radius_refp := (computeCurveParameters M
              (refpointGoalInRefstartFrame M start_ goal
                (candidateRefpoint P (computeCurveParameters M (goalInStartFrame M start_ goal)
                  P.turning_radius_).curve_type))
              P.turning_radius_).signed_turning_radius }
      else
        { curve_type := (computeCurveParameters M (goalInStartFrame M start_ goal)
            P.turning_radius_).curve_type
          start_tf := poseStampedMsgToTF start_
          start_yaw := getYaw M (poseStampedMsgToTF start_)
          goal_yaw := getYaw M (poseStampedMsgToTF goal)
          refpoint_tf_robot_coord := ⟨0, 0, 0⟩
          refpoint_goal_tf_refstart_coord := goalInStartFrame M start_ goal
          dist_before_steering_refp := (computeCurveParameters M
            (goalInStartFrame M start_ goal) P.turning_radius_).dist_before_steering
          dist_after_steering_refp := (computeCurveParameters M
            (goalInStartFrame M start_ goal) P.turning_radius_).dist_after_steering
          signed_turning_radius_refp := (computeCurveParameters M
            (goalInStartFrame M start_ goal) P.turning_radius_).signed_turning_radius } := by
  unfold selectManeuver goalInStartFrame refpointGoalInRefstartFrame candidateRefpoint
  rfl

/-- The selection ends with `NONE` exactly when the solver returns `NONE` for the center of
rotation. -/
theorem selectManeuver_none_iff (M : MathLib α) (P : Planner α) (start_ goal : PoseStamped α) :
    (selectManeuver M P start_ goal).curve_type = CurveType.NONE ↔
      (computeCurveParameters M (goalInStartFrame M start_ goal) P.turning_radius_).curve_type
        = CurveType.NONE := by
  rw [selectManeuver_eq]
  split_ifs with h1 h2
  · exact ⟨fun h => absurd h h1, fun h => absurd h h1⟩
  · exact ⟨fun h => absurd h h2, fun h => absurd h h1⟩
  · exact Iff.rfl

end Selection

section Quadrants

variable {α : Type} [LinearOrderedField α]

/-- The quadrant number of a point in terms of the signs of its coordinates. -/
theorem quadrant_iff (p : Point α) :
    (quadrant p = 0 ↔ 0 < p.x ∧ 0 < p.y) ∧ (quadrant p = 1 ↔ 0 < p.x ∧ p.y < 0) ∧
    (quadrant p = 2 ↔ p.x < 0 ∧ p.y < 0) ∧ (quadrant p = 3 ↔ p.x < 0 ∧ 0 < p.y) ∧
    (p.x = 0 ∨ p.y = 0 → quadrant p = 4) := by
  unfold quadrant
  by_cases hx : 0 < p.x <;> by_cases hy : 0 < p.y <;> by_cases hx' : p.x < 0 <;>
    by_cases hy' : p.y < 0 <;>
    simp [hx, hy, hx', hy'] <;>
    first
      | (exfalso; linarith)
      | exact ⟨ne_of_gt (by assumption), ne_of_gt (by assumption)⟩
      | exact ⟨ne_of_gt (by assumption), ne_of_lt (by assumption)⟩
      | exact ⟨ne_of_lt (by assumption), ne_of_gt (by assumption)⟩
      | exact ⟨ne_of_lt (by assumption), ne_of_lt (by assumption)⟩

/-- Four numbers among which each of `0`, `1`, `2`, `3` occurs are pairwise different and
none of them is `4`. -/
theorem four_codes (a b c d : ℕ)
    (h0 : a = 0 ∨ b = 0 ∨ c = 0 ∨ d = 0) (h1 : a = 1 ∨ b = 1 ∨ c = 1 ∨ d = 1)
    (h2 : a = 2 ∨ b = 2 ∨ c = 2 ∨ d = 2) (h3 : a = 3 ∨ b = 3 ∨ c = 3 ∨ d = 3) :
    (a ≠ b ∧ a ≠ c ∧ a ≠ d ∧ b ≠ c ∧ b ≠ d ∧ c ≠ d) ∧ a ≠ 4 ∧ b ≠ 4 ∧ c ≠ 4 ∧ d ≠ 4 := by
  omega

/-- In a footprint of four points that has a point in each open quadrant, no point lies on
a coordinate axis and two points in the same quadrant are the same point. -/
theorem footprint_quadrants (l : List (Point α)) (hlen : l.length = 4)
    (h0 : ∃ p ∈ l, 0 < p.x ∧ 0 < p.y) (h1 : ∃ p ∈ l, 0 < p.x ∧ p.y < 0)
    (h2 : ∃ p ∈ l, p.x < 0 ∧ p.y < 0) (h3 : ∃ p ∈ l, p.x < 0 ∧ 0 < p.y) :
    (∀ p ∈ l, quadrant p ≠ 4) ∧ ∀ p ∈ l, ∀ q ∈ l, quadrant p = quadrant q → p = q := by
  match l, hlen with
  | [a, b, c, d], _ =>
    have k0 : quadrant a = 0 ∨ quadrant b = 0 ∨ quadrant c = 0 ∨ quadrant d = 0 := by
      obtain ⟨p, hp, hq⟩ := h0
      have := (quadrant_iff p).1.mpr hq
      simp only [List.mem_cons, List.mem_singleton, List.not_mem_nil, or_false] at hp
      rcases hp with rfl | rfl | rfl | rfl <;> simp [this]
    have k1 : quadrant a = 1 ∨ quadrant b = 1 ∨ quadrant c = 1 ∨ quadrant d = 1 := by
      obtain ⟨p, hp, hq⟩ := h1
      have := (quadrant_iff p).2.1.mpr hq
      simp only [List.mem_cons, List.mem_singleton, List.not_mem_nil, or_false] at hp
      rcases hp with rfl | rfl | rfl | rfl <;> simp [this]
    have k2 : quadrant a = 2 ∨ quadrant b = 2 ∨ quadrant c = 2 ∨ quadrant d = 2 := by
      obtain ⟨p, hp, hq⟩ := h2
      have := (quadrant_iff p).2.2.1.mpr hq
      simp only [List.mem_cons, List.mem_singleton, List.not_mem_nil, or_false] at hp
      rcases hp with rfl | rfl | rfl | rfl <;> simp [this]
    have k3 : quadrant a = 3 ∨ quadrant b = 3 ∨ quadrant c = 3 ∨ quadrant d = 3 := by
      obtain ⟨p, hp, hq⟩ := h3
      have := (quadrant_iff p).2.2.2.1.mpr hq
      simp only [List.mem_cons, List.mem_singleton, List.not_mem_nil, or_false] at hp
      rcases hp with rfl | rfl | rfl | rfl <;> simp [this]
    obtain ⟨⟨d1, d2, d3, d4, d5, d6⟩, n1, n2, n3, n4⟩ := four_codes _ _ _ _ k0 k1 k2 k3
    constructor
    · intro p hp
      simp only [List.mem_cons, List.mem_singleton, List.not_mem_nil, or_false] at hp
      rcases hp with rfl | rfl | rfl | rfl <;> assumption
    · intro p hp q hq hpq
      simp only [List.mem_cons, List.mem_singleton, List.not_mem_nil, or_false] at hp hq
      rcases hp with rfl | rfl | rfl | rfl <;> rcases hq with rfl | rfl | rfl | rfl <;>
        first
          | rfl
          | exact absurd hpq ‹_›
          | exact absurd hpq.symm ‹_›

end Quadrants

/-! ### The scenario costmap -/

section Scenario

variable {α : Type} [LinearOrderedField α]

/-- The footprint of the scenario costmap has four points, one in each open quadrant. -/
theorem scenarioCostmap_quadrants :
    (scenarioCostmap α).footprint.length = 4 ∧
    (∃ p ∈ (scenarioCostmap α).footprint, 0 < p.x ∧ 0 < p.y) ∧
    (∃ p ∈ (scenarioCostmap α).footprint, 0 < p.x ∧ p.y < 0) ∧
    (∃ p ∈ (scenarioCostmap α).footprint, p.x < 0 ∧ p.y < 0) ∧
    (∃ p ∈ (scenarioCostmap α).footprint, p.x < 0 ∧ 0 < p.y) := by
  refine ⟨rfl, ⟨⟨0.5, 0.3⟩, ?_, ?_, ?_⟩, ⟨⟨0.5, -0.3⟩, ?_, ?_, ?_⟩, ⟨⟨-0.5, -0.3⟩, ?_, ?_, ?_⟩,
    ⟨⟨-0.5, 0.3⟩, ?_, ?_, ?_⟩⟩
  all_goals first
    | (show (_ : α) < _; norm_num)
    | simp [scenarioCostmap]

/-- On the scenario costmap `initialize` succeeds, whatever the parameters are. -/
theorem initializePlanner_scenario (params : Parameters α) :
    (initializePlanner (uninitializedPlanner α) (scenarioCostmap α) params).initialized_
      = true :=
  (initializePlanner_initialized_iff _ _ params rfl).mpr scenarioCostmap_quadrants

end Scenario

/-- The goal `(-1, 1, pi / 4)` seen from the start `(0, 0, 0)` has its tangent-line
intersection behind the start, so the selection ends with `NONE`. -/
theorem selectManeuver_behind (P : Planner ℝ) (fs fg : String) :
    (selectManeuver realMath P ⟨fs, 0, 0, 0⟩ ⟨fg, -1, 1, Real.pi / 4⟩).curve_type
      = CurveType.NONE := by
  have h0 : wrapAngle Real.pi 0 = 0 := normalize_zero_realMath
  have h4 : wrapAngle Real.pi (Real.pi / 4) = Real.pi / 4 := getYaw_quarter_pi 0 0
  have e1 : goalInStartFrame realMath ⟨fs, 0, 0, 0⟩ ⟨fg, -1, 1, Real.pi / 4⟩
      = ⟨-1, 1, Real.pi / 4⟩ := by
    simp [goalInStartFrame, rotate2D, translate2D, poseStampedMsgToTF, getYaw, realMath, h0, h4]
  rw [selectManeuver_none_iff, e1, computeCurveParameters_eq, getYaw_quarter_pi]
  simp only [realMath, Real.tan_pi_div_four]
  rw [if_pos (by norm_num)]

/-! ### The last goal -/

section LastGoal

variable {α : Type} [LinearOrderedField α]

/-- A call of `initialize` leaves `last_goal_` as it is. -/
theorem initializePlanner_last_goal (P : Planner α) (cm : Costmap2DROS α)
    (params : Parameters α) : (initializePlanner P cm params).last_goal_ = P.last_goal_ := by
  unfold initializePlanner
  dsimp only
  split_ifs <;> rfl

/-- A call of `makePlan` leaves `last_goal_`, `last_goal_as_start_`, `initialized_` and the
global frame as they are. -/
theorem makePlan_keeps_members (M : MathLib α) (fuel : ℕ) (P : Planner α)
    (start goal : PoseStamped α) (plan : List (PoseStamped α)) (r : PlanResult α)
    (h : makePlan M fuel P start goal plan = some r) :
    r.planner.last_goal_ = P.last_goal_ ∧
    r.planner.last_goal_as_start_ = P.last_goal_as_start_ ∧
    r.planner.initialized_ = P.initialized_ ∧
    r.planner.global_frame = P.global_frame ∧
    ∀ x y th : α, footprintCost r.planner x y th = footprintCost P x y th := by
  rcases makePlan_planner M fuel P start goal plan r h with hp | hp
  · rw [hp]
    exact ⟨rfl, rfl, rfl, rfl, fun _ _ _ => rfl⟩
  · rw [hp]
    exact ⟨rfl, rfl, rfl, rfl, fun _ _ _ => rfl⟩

/-- After `initialize` and a call of `makePlan`, the planner holds no valid last goal and
the last goal is what it was before `initialize`, so the next call plans from the start
pose it is given. -/
theorem makePlan_never_caches_goal (M : MathLib α) (fuel : ℕ) (P0 : Planner α)
    (cm : Costmap2DROS α) (params : Parameters α) (start goal : PoseStamped α)
    (plan : List (PoseStamped α)) (r : PlanResult α) (h0 : P0.initialized_ = false)
    (h : makePlan M fuel (initializePlanner P0 cm params) start goal plan = some r) :
    r.planner.valid_last_goal_ = false ∧ r.planner.last_goal_ = P0.last_goal_ ∧
    r.planner.last_goal_as_start_ = params.use_last_goal_as_start.getD false ∧
    ∀ start2 : PoseStamped α, chooseStart r.planner start2 = start2 := by
  have hv : r.planner.valid_last_goal_ = false := by
    rw [makePlan_valid_last_goal M fuel _ start goal plan r h]
    exact initializePlanner_valid_last_goal P0 cm params h0
  obtain ⟨h1, h2, -, -, -⟩ := makePlan_keeps_members M fuel _ start goal plan r h
  refine ⟨hv, ?_, ?_, fun start2 => chooseStart_of_invalid _ start2 hv⟩
  · rw [h1, initializePlanner_last_goal]
  · rw [h2, initializePlanner_last_goal_as_start P0 cm params h0]

end LastGoal

/-- The goal `(2, 1, pi / 2)` seen from the start `(0, 0, 0)`. -/
theorem goalInStartFrame_scenario1 (fs fg : String) :
    goalInStartFrame realMath ⟨fs, 0, 0, 0⟩ ⟨fg, 2, 1, Real.pi / 2⟩ = ⟨2, 1, Real.pi / 2⟩ := by
  have h0 : wrapAngle Real.pi 0 = 0 := normalize_zero_realMath
  have h2 : wrapAngle Real.pi (Real.pi / 2) = Real.pi / 2 := getYaw_half_pi 0 0
  simp [goalInStartFrame, rotate2D, translate2D, poseStampedMsgToTF, getYaw, realMath, h0, h2]

/-! ### The number of poses of the trajectory sampler -/

section Bound

variable {α : Type} [LinearOrderedField α]

/-- The sampling loop appends at most one pose in each iteration. -/
theorem samplerLoop_plan_length (M : MathLib α) (P : Planner α) (goal : PoseStamped α)
    (mv : Maneuver α) (fuel : ℕ) :
    ∀ st r : SamplerState α, samplerLoop M P goal mv fuel st = some r →
      ∃ l : List (PoseStamped α), r.plan = st.plan ++ l ∧ l.length ≤ fuel := by
  induction fuel with
  | zero =>
    intro st r h
    simp [samplerLoop] at h
  | succ fuel ih =>
    intro st r h
    have hcheck : ∃ l : List (PoseStamped α), (samplerCheck M P goal st).plan = st.plan ++ l ∧
        l.length ≤ 1 := by
      rcases samplerCheck_plan M P goal st with ⟨hp, -, -⟩ | ⟨hp, -, -⟩
      · exact ⟨[], by simpa using hp, by simp⟩
      · exact ⟨_, hp, by simp⟩
    obtain ⟨l1, hl1, hlen1⟩ := hcheck
    rcases samplerLoop_succ_cases M P goal mv fuel st r h with hr | ⟨st3, hp3, -, h3⟩
    · exact ⟨l1, by rw [hr, hl1], by omega⟩
    · obtain ⟨l2, hl2, hlen2⟩ := ih st3 r h3
      refine ⟨l1 ++ l2, by rw [hl2, hp3, hl1, List.append_assoc], ?_⟩
      rw [List.length_append]
      omega

theorem samplerCheck_traj (M : MathLib α) (P : Planner α) (goal : PoseStamped α)
    (st : SamplerState α) :
    (samplerCheck M P goal st).traj_free = false ∨
    (samplerCheck M P goal st).traj_ready = st.traj_ready := by
  unfold samplerCheck
  dsimp only
  split_ifs
  · exact Or.inl rfl
  · exact Or.inr rfl

theorem samplerAdvance_traj_free (M : MathLib α) (P : Planner α) (mv : Maneuver α)
    (st st2 : SamplerState α) (h : samplerAdvance M P mv st = some st2) :
    st2.traj_free = st.traj_free := by
  unfold samplerAdvance at h
  dsimp only at h
  split_ifs at h <;> (cases h; rfl)

/-- The final branch of `samplerAdvance` is taken exactly when none of the three conditions
holds. -/
theorem samplerAdvance_eq_none_iff (M : MathLib α) (P : Planner α) (mv : Maneuver α)
    (st : SamplerState α) :
    samplerAdvance M P mv st = none ↔
      (¬ st.dist_bef_steer < mv.dist_before_steering_refp ∧
       ¬ |getYaw M mv.refpoint_goal_tf_refstart_coord - st.theta_refp_traj|
          > |P.step_size_ / mv.signed_turning_radius_refp / 2| ∧
       ¬ st.dist_af_steer < mv.dist_after_steering_refp) := by
  unfold samplerAdvance
  dsimp only
  split_ifs with h1 h2 h3
  · simp [h1]
  · simp [h1, h2]
  · simp [h1, h2, h3]
  · simp [h1, h2, h3]

/-- When the sampling loop, entered with `traj_ready` unset, returns with `traj_free` set,
it has left through the final branch: the distance before steering is covered, the
trajectory angle is within half a grid step of the goal angle, and the distance after
steering is covered. -/
theorem samplerLoop_final (M : MathLib α) (P : Planner α) (goal : PoseStamped α)
    (mv : Maneuver α) (fuel : ℕ) :
    ∀ st r : SamplerState α, st.traj_ready = false →
      samplerLoop M P goal mv fuel st = some r → r.traj_free = true →
      ¬ r.dist_bef_steer < mv.dist_before_steering_refp ∧
      |getYaw M mv.refpoint_goal_tf_refstart_coord - r.theta_refp_traj|
        ≤ |P.step_size_ / mv.signed_turning_radius_refp / 2| ∧
      ¬ r.dist_af_steer < mv.dist_after_steering_refp := by
  induction fuel with
  | zero =>
    intro st r _ h
    simp [samplerLoop] at h
  | succ fuel ih =>
    intro st r hready h hfree
    rw [samplerLoop_succ] at h
    cases hadv : samplerAdvance M P mv (samplerCheck M P goal st) with
    | none =>
      rw [hadv] at h
      cases h
      obtain ⟨c1, c2, c3⟩ := (samplerAdvance_eq_none_iff M P mv _).mp hadv
      exact ⟨c1, not_lt.mp c2, c3⟩
    | some st2 =>
      rw [hadv] at h
      dsimp only at h
      obtain ⟨-, hr2⟩ := samplerAdvance_plan M P mv _ _ hadv
      have hf2 := samplerAdvance_traj_free M P mv _ _ hadv
      by_cases hready3 : (samplerCenter M mv st2).traj_ready = true
      · rw [if_pos hready3] at h
        cases h
        rw [samplerCenter_traj_ready, hr2] at hready3
        have hfree' : (samplerCheck M P goal st).traj_free = true := by
          rw [← hf2]
          exact hfree
        rcases samplerCheck_traj M P goal st with hc | hc
        · rw [hc] at hfree'
          cases hfree'
        · rw [hc, hready] at hready3
          cases hready3
      · rw [if_neg hready3] at h
        exact ih _ r (by simpa using hready3) h hfree

/-- A non-negative multiple of the grid step lies within half a grid step of a natural
multiple `m` of it with `m ≤ |theta| / |g| + 1 / 2`. -/
theorem exists_grid_steps_le [FloorRing α] (theta g : α) (hg : g ≠ 0) (h : 0 ≤ theta * g) :
    ∃ m : ℕ, |theta - m * g| ≤ |g / 2| ∧ (m : α) ≤ |theta| / |g| + 1 / 2 := by
  have hq : 0 ≤ theta / g := by
    rcases lt_or_gt_of_ne hg with hneg | hpos
    · exact div_nonneg_of_nonpos (nonpos_of_mul_nonneg_left h hneg) hneg.le
    · exact div_nonneg (nonneg_of_mul_nonneg_left h hpos) hpos.le
  have habs : |theta| / |g| = theta / g := by
    rw [← abs_div, abs_of_nonneg hq]
  refine ⟨Nat.floor (theta / g + 1 / 2), ?_, ?_⟩
  · have h1 : (Nat.floor (theta / g + 1 / 2) : α) ≤ theta / g + 1 / 2 :=
      Nat.floor_le (by linarith)
    have h2 : theta / g + 1 / 2 < Nat.floor (theta / g + 1 / 2) + 1 := Nat.lt_floor_add_one _
    generalize (Nat.floor (theta / g + 1 / 2) : α) = k at h1 h2
    have e : theta - k * g = (theta / g - k) * g := by
      rw [sub_mul, div_mul_cancel₀ _ hg]
    have e2 : |g / 2| = 1 / 2 * |g| := by
      rw [abs_div, abs_two]; ring
    rw [e, abs_mul, e2]
    apply mul_le_mul_of_nonneg_right _ (abs_nonneg g)
    rw [abs_le]
    constructor <;> linarith
  · rw [habs]
    exact Nat.floor_le (by linarith)

/-- The distances that the selection hands to the sampler are not negative when the curve
type is not `NONE`. -/
theorem selectManeuver_dist_nonneg (M : MathLib α) (P : Planner α) (start_ goal : PoseStamped α)
    (h : (selectManeuver M P start_ goal).curve_type ≠ CurveType.NONE) :
    0 ≤ (selectManeuver M P start_ goal).dist_before_steering_refp ∧
    0 ≤ (selectManeuver M P start_ goal).dist_after_steering_refp := by
  obtain ⟨ht, hb, ha, -⟩ := selectManeuver_solver M P start_ goal h
  rw [← ht] at h
  obtain ⟨hiff, hout⟩ := computeCurveParameters_spec M
    (selectManeuver M P start_ goal).refpoint_goal_tf_refstart_coord P.turning_radius_
  obtain ⟨-, -, k1, k2, -⟩ := hiff.mp h
  obtain ⟨-, -, e1, e2, -⟩ := hout h
  rw [← hb, ← ha, e1, e2]
  exact ⟨k1, k2⟩

/-- Termination of the trajectory sampler with a bound on the number of poses. -/
theorem samplerLoop_terminates_bound [FloorRing α] (M : MathLib α) (P : Planner α)
    (start_ goal : PoseStamped α) (plan : List (PoseStamped α)) (hs : 0 < P.step_size_)
    (hr : P.turning_radius_ ≠ 0)
    (hne : (selectManeuver M P start_ goal).curve_type ≠ CurveType.NONE) :
    ∃ (fuel : ℕ) (r : SamplerState α) (l : List (PoseStamped α)),
      samplerLoop M P goal (selectManeuver M P start_ goal) fuel
        (samplerInit M (selectManeuver M P start_ goal) plan) = some r ∧
      r.plan = plan ++ l ∧
      (l.length : α) ≤
        ((selectManeuver M P start_ goal).dist_before_steering_refp
            + (selectManeuver M P start_ goal).dist_after_steering_refp) / P.step_size_
          + |getYaw M (selectManeuver M P start_ goal).refpoint_goal_tf_refstart_coord|
            / |P.step_size_ / (selectManeuver M P start_ goal).signed_turning_radius_refp|
          + 4 ∧
      (r.traj_free = true →
        |getYaw M (selectManeuver M P start_ goal).refpoint_goal_tf_refstart_coord
            - r.theta_refp_traj|
          ≤ |P.step_size_ / (selectManeuver M P start_ goal).signed_turning_radius_refp| / 2) := by
  obtain ⟨hsign, habs⟩ := selectManeuver_sign M P start_ goal hne
  obtain ⟨hdb, hda⟩ := selectManeuver_dist_nonneg M P start_ goal hne
  generalize selectManeuver M P start_ goal = mv at *
  have hR : mv.signed_turning_radius_refp ≠ 0 := by
    intro h0
    rw [h0, abs_zero] at habs
    exact hr (abs_eq_zero.mp habs.symm)
  have hg : P.step_size_ / mv.signed_turning_radius_refp ≠ 0 := div_ne_zero hs.ne' hR
  have hprod : 0 ≤ getYaw M mv.refpoint_goal_tf_refstart_coord
      * (P.step_size_ / mv.signed_turning_radius_refp) := by
    have e : getYaw M mv.refpoint_goal_tf_refstart_coord
        * (P.step_size_ / mv.signed_turning_radius_refp)
        = getYaw M mv.refpoint_goal_tf_refstart_coord * mv.signed_turning_radius_refp
          * (P.step_size_ / mv.signed_turning_radius_refp ^ 2) := by
      field_simp
      ring
    rw [e]
    exact mul_nonneg hsign (div_nonneg hs.le (sq_nonneg _))
  obtain ⟨m, hm, hmle⟩ := exists_grid_steps_le _ _ hg hprod
  have hn1 : mv.dist_before_steering_refp ≤
      (Nat.ceil (mv.dist_before_steering_refp / P.step_size_) : ℕ) * P.step_size_ :=
    (div_le_iff₀ hs).mp (Nat.le_ceil _)
  have hn3 : mv.dist_after_steering_refp ≤
      (Nat.ceil (mv.dist_after_steering_refp / P.step_size_) : ℕ) * P.step_size_ :=
    (div_le_iff₀ hs).mp (Nat.le_ceil _)
  have hn1' := Nat.ceil_lt_add_one (div_nonneg hdb hs.le)
  have hn3' := Nat.ceil_lt_add_one (div_nonneg hda hs.le)
  obtain ⟨r, hres⟩ := samplerLoop_terminates_before M P goal mv
    (Nat.ceil (mv.dist_after_steering_refp / P.step_size_)) m
    (Nat.ceil (mv.dist_before_steering_refp / P.step_size_)) (samplerInit M mv plan)
    rfl (by simpa [samplerInit] using hn1) hm (by simpa [samplerInit] using hn3) _ le_rfl
  obtain ⟨l, hl, hlen⟩ := samplerLoop_plan_length M P goal mv _ _ r hres
  refine ⟨_, r, l, hres, hl, ?_, ?_⟩
  · have hcast : (l.length : α) ≤
        ((Nat.ceil (mv.dist_before_steering_refp / P.step_size_) + m
          + Nat.ceil (mv.dist_after_steering_refp / P.step_size_) + 1 : ℕ) : α) :=
      Nat.cast_le.mpr hlen
    push_cast at hcast
    rw [add_div]
    linarith
  · intro hfree
    have e2 : |P.step_size_ / mv.signed_turning_radius_refp / 2|
        = |P.step_size_ / mv.signed_turning_radius_refp| / 2 := by
      rw [abs_div, abs_two]
    rw [← e2]
    exact (samplerLoop_final M P goal mv _ _ r rfl hres hfree).2.1

end Bound

/-! ### The steps of the trajectory sampler -/

section Steps

variable {α : Type} [LinearOrderedField α]

/-- An iteration of the sampling loop that computes a next point contributes one step. -/
theorem samplerSteps_step (M : MathLib α) (P : Planner α) (goal : PoseStamped α)
    (mv : Maneuver α) (fuel : ℕ) (st st2 : SamplerState α) (phase : Phase)
    (h1 : samplerPhase M P mv (samplerCheck M P goal st) = some phase)
    (h2 : samplerAdvance M P mv (samplerCheck M P goal st) = some st2) :
    samplerSteps M P goal mv (fuel + 1) st =
      (phase, samplerCenter M mv st2) ::
        (if (samplerCenter M mv st2).traj_ready then []
         else samplerSteps M P goal mv fuel (samplerCenter M mv st2)) := by
  rw [samplerSteps]
  dsimp only
  rw [h1, h2]

/-- An iteration of the sampling loop that takes the final branch contributes no step. -/
theorem samplerSteps_stop (M : MathLib α) (P : Planner α) (goal : PoseStamped α)
    (mv : Maneuver α) (fuel : ℕ) (st : SamplerState α)
    (h1 : samplerPhase M P mv (samplerCheck M P goal st) = none) :
    samplerSteps M P goal mv (fuel + 1) st = [] := by
  rw [samplerSteps]
  dsimp only
  rw [h1]

/-- The branch taken is the branch whose step `samplerAdvance` computes: both take the
final branch in the same states. -/
theorem samplerPhase_eq_none_iff (M : MathLib α) (P : Planner α) (mv : Maneuver α)
    (st : SamplerState α) :
    samplerPhase M P mv st = none ↔ samplerAdvance M P mv st = none := by
  unfold samplerPhase samplerAdvance
  dsimp only
  split_ifs <;> simp

theorem samplerPhase_before (M : MathLib α) (P : Planner α) (mv : Maneuver α)
    (st : SamplerState α) (h : st.dist_bef_steer < mv.dist_before_steering_refp) :
    samplerPhase M P mv st = some Phase.STRAIGHT_BEFORE := by
  unfold samplerPhase
  dsimp only
  rw [if_pos h]

theorem samplerPhase_turn (M : MathLib α) (P : Planner α) (mv : Maneuver α)
    (st : SamplerState α) (h1 : ¬ st.dist_bef_steer < mv.dist_before_steering_refp)
    (h2 : |getYaw M mv.refpoint_goal_tf_refstart_coord - st.theta_refp_traj|
      > |P.step_size_ / mv.signed_turning_radius_refp / 2|) :
    samplerPhase M P mv st = some Phase.TURNING := by
  unfold samplerPhase
  dsimp only
  rw [if_neg h1, if_pos h2]

theorem samplerPhase_after (M : MathLib α) (P : Planner α) (mv : Maneuver α)
    (st : SamplerState α) (h1 : ¬ st.dist_bef_steer < mv.dist_before_steering_refp)
    (h2 : ¬ |getYaw M mv.refpoint_goal_tf_refstart_coord - st.theta_refp_traj|
      > |P.step_size_ / mv.signed_turning_radius_refp / 2|)
    (h3 : st.dist_af_steer < mv.dist_after_steering_refp) :
    samplerPhase M P mv st = some Phase.STRAIGHT_AFTER := by
  unfold samplerPhase
  dsimp only
  rw [if_neg h1, if_neg h2, if_pos h3]

theorem samplerPhase_done (M : MathLib α) (P : Planner α) (mv : Maneuver α)
    (st : SamplerState α) (h1 : ¬ st.dist_bef_steer < mv.dist_before_steering_refp)
    (h2 : ¬ |getYaw M mv.refpoint_goal_tf_refstart_coord - st.theta_refp_traj|
      > |P.step_size_ / mv.signed_turning_radius_refp / 2|)
    (h3 : ¬ st.dist_af_steer < mv.dist_after_steering_refp) :
    samplerPhase M P mv st = none := by
  unfold samplerPhase
  dsimp only
  rw [if_neg h1, if_neg h2, if_neg h3]

/-- Once the distance before steering is covered and the trajectory angle is within half a
grid step of the goal angle, every further step is a straight-after step. -/
theorem samplerSteps_after (M : MathLib α) (P : Planner α) (goal : PoseStamped α)
    (mv : Maneuver α) (fuel : ℕ) :
    ∀ st : SamplerState α, ¬ st.dist_bef_steer < mv.dist_before_steering_refp →
      ¬ |getYaw M mv.refpoint_goal_tf_refstart_coord - st.theta_refp_traj|
        > |P.step_size_ / mv.signed_turning_radius_refp / 2| →
      ∀ e ∈ samplerSteps M P goal mv fuel st, e.1 = Phase.STRAIGHT_AFTER := by
  induction fuel with
  | zero =>
    intro st _ _ e he
    simp [samplerSteps] at he
  | succ fuel ih =>
    intro st h1 h2 e he
    have h1c : ¬ (samplerCheck M P goal st).dist_bef_steer < mv.dist_before_steering_refp := by
      rwa [samplerCheck_dist_bef]
    have h2c : ¬ |getYaw M mv.refpoint_goal_tf_refstart_coord
        - (samplerCheck M P goal st).theta_refp_traj|
        > |P.step_size_ / mv.signed_turning_radius_refp / 2| := by
      rwa [samplerCheck_theta]
    by_cases h3 : (samplerCheck M P goal st).dist_af_steer < mv.dist_after_steering_refp
    · obtain ⟨st2, hadv, hb, ht, -⟩ := samplerAdvance_after M P mv _ h1c h2c h3
      rw [samplerSteps_step M P goal mv fuel st st2 _ (samplerPhase_after M P mv _ h1c h2c h3)
        hadv] at he
      rcases List.mem_cons.mp he with he | he
      · rw [he]
      · split_ifs at he
        · simp at he
        · apply ih (samplerCenter M mv st2) _ _ e he
          · rw [samplerCenter_dist_bef, hb]; exact h1c
          · rw [samplerCenter_theta, ht, sub_self, abs_zero]
            exact not_lt.mpr (abs_nonneg _)
    · rw [samplerSteps_stop M P goal mv fuel st (samplerPhase_done M P mv _ h1c h2c h3)] at he
      simp at he

/-- Once the distance before steering is covered, the steps are turning steps followed by
straight-after steps. -/
theorem samplerSteps_turn (M : MathLib α) (P : Planner α) (goal : PoseStamped α)
    (mv : Maneuver α) (fuel : ℕ) :
    ∀ st : SamplerState α, ¬ st.dist_bef_steer < mv.dist_before_steering_refp →
      ∃ n2 n3 : ℕ, (samplerSteps M P goal mv fuel st).map Prod.fst
        = List.replicate n2 Phase.TURNING ++ List.replicate n3 Phase.STRAIGHT_AFTER := by
  induction fuel with
  | zero =>
    intro st _
    exact ⟨0, 0, rfl⟩
  | succ fuel ih =>
    intro st h1
    have h1c : ¬ (samplerCheck M P goal st).dist_bef_steer < mv.dist_before_steering_refp := by
      rwa [samplerCheck_dist_bef]
    by_cases h2 : |getYaw M mv.refpoint_goal_tf_refstart_coord
        - (samplerCheck M P goal st).theta_refp_traj|
        > |P.step_size_ / mv.signed_turning_radius_refp / 2|
    · obtain ⟨st2, hadv, hb, -, -⟩ := samplerAdvance_turn M P mv _ h1c h2
      rw [samplerSteps_step M P goal mv fuel st st2 _ (samplerPhase_turn M P mv _ h1c h2) hadv]
      split_ifs
      · exact ⟨1, 0, rfl⟩
      · obtain ⟨n2, n3, hn⟩ := ih (samplerCenter M mv st2)
          (by rw [samplerCenter_dist_bef, hb]; exact h1c)
        refine ⟨n2 + 1, n3, ?_⟩
        rw [List.map_cons, hn, List.replicate_succ, List.cons_append]
    · refine ⟨0, (samplerSteps M P goal mv (fuel + 1) st).length, ?_⟩
      rw [List.replicate_zero, List.nil_append, List.eq_replicate_iff]
      refine ⟨by simp, ?_⟩
      intro ph hph
      obtain ⟨e, he, rfl⟩ := List.mem_map.mp hph
      rw [samplerCheck_theta] at h2
      exact samplerSteps_after M P goal mv (fuel + 1) st h1 h2 e he

/-- The steps of the sampling loop are straight-before steps, followed by turning steps,
followed by straight-after steps. -/
theorem samplerSteps_order (M : MathLib α) (P : Planner α) (goal : PoseStamped α)
    (mv : Maneuver α) (fuel : ℕ) :
    ∀ st : SamplerState α,
      ∃ n1 n2 n3 : ℕ, (samplerSteps M P goal mv fuel st).map Prod.fst
        = List.replicate n1 Phase.STRAIGHT_BEFORE ++ List.replicate n2 Phase.TURNING
          ++ List.replicate n3 Phase.STRAIGHT_AFTER := by
  induction fuel with
  | zero =>
    intro st
    exact ⟨0, 0, 0, rfl⟩
  | succ fuel ih =>
    intro st
    by_cases h1 : (samplerCheck M P goal st).dist_bef_steer < mv.dist_before_steering_refp
    · obtain ⟨st2, hadv, -, -, -⟩ := samplerAdvance_before M P mv _ h1
      rw [samplerSteps_step M P goal mv fuel st st2 _ (samplerPhase_before M P mv _ h1) hadv]
      split_ifs
      · exact ⟨1, 0, 0, rfl⟩
      · obtain ⟨n1, n2, n3, hn⟩ := ih (samplerCenter M mv st2)
        refine ⟨n1 + 1, n2, n3, ?_⟩
        rw [List.map_cons, hn, List.replicate_succ, List.cons_append, List.cons_append]
    · rw [samplerCheck_dist_bef] at h1
      obtain ⟨n2, n3, hn⟩ := samplerSteps_turn M P goal mv (fuel + 1) st h1
      exact ⟨0, n2, n3, by rw [hn]; rfl⟩

end Steps

/-! ### The turning steps for a reference point on the rotation axis -/

section Arc

variable {α : Type} [LinearOrderedField α]

/-- The state that the turning step of `samplerAdvance` computes. -/
theorem samplerAdvance_turn_eq (M : MathLib α) (P : Planner α) (mv : Maneuver α)
    (st : SamplerState α) (h1 : ¬ st.dist_bef_steer < mv.dist_before_steering_refp)
    (h2 : |getYaw M mv.refpoint_goal_tf_refstart_coord - st.theta_refp_traj|
      > |P.step_size_ / mv.signed_turning_radius_refp / 2|) :
    samplerAdvance M P mv st = some { st with
      theta_refp_traj := st.theta_refp_traj + P.step_size_ / mv.signed_turning_radius_refp
      motion_refpoint_localtraj_ :=
        (mv.dist_before_steering_refp + mv.signed_turning_radius_refp
            * M.sin (st.theta_refp_traj + P.step_size_ / mv.signed_turning_radius_refp),
         mv.signed_turning_radius_refp
            * (1 - M.cos (st.theta_refp_traj + P.step_size_ / mv.signed_turning_radius_refp))) } := by
  unfold samplerAdvance
  dsimp only
  rw [if_neg h1, if_pos h2]

/-- For a reference point with `x = 0` the center pose is a copy of the reference
motion. -/
theorem samplerCenter_copy (M : MathLib α) (mv : Maneuver α) (st : SamplerState α)
    (hx : mv.refpoint_tf_robot_coord.x = 0) :
    (samplerCenter M mv st).center_pose_loctrajframe_
      = (st.motion_refpoint_localtraj_.1, st.motion_refpoint_localtraj_.2,
          st.theta_refp_traj) ∧
    (samplerCenter M mv st).center_traj_point_tf
      = centerToGlobal M mv ⟨st.motion_refpoint_localtraj_.1, st.motion_refpoint_localtraj_.2,
          st.theta_refp_traj⟩ := by
  unfold samplerCenter
  dsimp only
  rw [if_neg (not_not.mpr hx)]
  exact ⟨rfl, rfl⟩

/-- From a state in which the distance before steering is covered and the trajectory angle
is `t` grid steps, the `j`-th turning step (counted from `0`) ends with the trajectory
angle `(t + j + 1) * g`, and for a reference point with `x = 0` its center pose is the
point of the arc at that angle. -/
theorem samplerSteps_turning_from (M : MathLib α) (P : Planner α) (goal : PoseStamped α)
    (mv : Maneuver α) (hx : mv.refpoint_tf_robot_coord.x = 0) (fuel : ℕ) :
    ∀ (st : SamplerState α) (t : ℕ),
      ¬ st.dist_bef_steer < mv.dist_before_steering_refp →
      st.theta_refp_traj = t * (P.step_size_ / mv.signed_turning_radius_refp) →
      ∀ (j : ℕ) (q : Phase × SamplerState α),
        ((samplerSteps M P goal mv fuel st).filter
          (fun e => decide (e.1 = Phase.TURNING)))[j]? = some q →
        q.2.center_pose_loctrajframe_ =
          (mv.dist_before_steering_refp + mv.signed_turning_radius_refp
              * M.sin ((t + j + 1 : ℕ) * (P.step_size_ / mv.signed_turning_radius_refp)),
            mv.signed_turning_radius_refp
              * (1 - M.cos ((t + j + 1 : ℕ) * (P.step_size_ / mv.signed_turning_radius_refp))),
            (t + j + 1 : ℕ) * (P.step_size_ / mv.signed_turning_radius_refp)) ∧
        q.2.center_traj_point_tf = centerToGlobal M mv
          ⟨mv.dist_before_steering_refp + mv.signed_turning_radius_refp
              * M.sin ((t + j + 1 : ℕ) * (P.step_size_ / mv.signed_turning_radius_refp)),
            mv.signed_turning_radius_refp
              * (1 - M.cos ((t + j + 1 : ℕ) * (P.step_size_ / mv.signed_turning_radius_refp))),
            (t + j + 1 : ℕ) * (P.step_size_ / mv.signed_turning_radius_refp)⟩ := by
  induction fuel with
  | zero =>
    intro st t _ _ j q hq
    simp [samplerSteps] at hq
  | succ fuel ih =>
    intro st t h1 ht j q hq
    have h1c : ¬ (samplerCheck M P goal st).dist_bef_steer < mv.dist_before_steering_refp := by
      rwa [samplerCheck_dist_bef]
    by_cases h2 : |getYaw M mv.refpoint_goal_tf_refstart_coord
        - (samplerCheck M P goal st).theta_refp_traj|
        > |P.step_size_ / mv.signed_turning_radius_refp / 2|
    · have hadv := samplerAdvance_turn_eq M P mv _ h1c h2
      rw [samplerSteps_step M P goal mv fuel st _ _ (samplerPhase_turn M P mv _ h1c h2) hadv,
        List.filter_cons_of_pos (by simp)] at hq
      have hth : (samplerCheck M P goal st).theta_refp_traj
          + P.step_size_ / mv.signed_turning_radius_refp
          = ((t + 1 : ℕ) : α) * (P.step_size_ / mv.signed_turning_radius_refp) := by
        rw [samplerCheck_theta, ht]
        push_cast
        ring
      cases j with
      | zero =>
        simp only [List.getElem?_cons_zero, Option.some.injEq] at hq
        rw [← hq]
        obtain ⟨e1, e2⟩ := samplerCenter_copy M mv
          { samplerCheck M P goal st with
            theta_refp_traj := (samplerCheck M P goal st).theta_refp_traj
              + P.step_size_ / mv.signed_turning_radius_refp
            motion_refpoint_localtraj_ :=
              (mv.dist_before_steering_refp + mv.signed_turning_radius_refp
                  * M.sin ((samplerCheck M P goal st).theta_refp_traj
                    + P.step_size_ / mv.signed_turning_radius_refp),
               mv.signed_turning_radius_refp
                  * (1 - M.cos ((samplerCheck M P goal st).theta_refp_traj
                    + P.step_size_ / mv.signed_turning_radius_refp))) } hx
        dsimp only at e1 e2 ⊢
        rw [e1, e2, hth]
        exact ⟨rfl, rfl⟩
      | succ j =>
        simp only [List.getElem?_cons_succ] at hq
        split_ifs at hq with hready
        · simp at hq
        · have := ih _ (t + 1) (by rw [samplerCenter_dist_bef]; exact h1c)
            (by rw [samplerCenter_theta]; exact hth) j q hq
          have e : t + 1 + j + 1 = t + (j + 1) + 1 := by omega
          rw [e] at this
          exact this
    · rw [samplerCheck_theta] at h2
      have hall := samplerSteps_after M P goal mv (fuel + 1) st h1 h2
      have hnil : (samplerSteps M P goal mv (fuel + 1) st).filter
          (fun e => decide (e.1 = Phase.TURNING)) = [] := by
        rw [List.filter_eq_nil_iff]
        intro e he
        rw [hall e he]
        decide
      rw [hnil] at hq
      simp at hq

/-- From a state with the trajectory angle `0`, the `j`-th turning step (counted from `0`)
ends with the trajectory angle `(j + 1) * g`, and for a reference point with `x = 0` its
center pose is the point of the arc at that angle. -/
theorem samplerSteps_turning (M : MathLib α) (P : Planner α) (goal : PoseStamped α)
    (mv : Maneuver α) (hx : mv.refpoint_tf_robot_coord.x = 0) (fuel : ℕ) :
    ∀ (st : SamplerState α), st.theta_refp_traj = 0 →
      ∀ (j : ℕ) (q : Phase × SamplerState α),
        ((samplerSteps M P goal mv fuel st).filter
          (fun e => decide (e.1 = Phase.TURNING)))[j]? = some q →
        q.2.center_pose_loctrajframe_ =
          (mv.dist_before_steering_refp + mv.signed_turning_radius_refp
              * M.sin ((j + 1 : ℕ) * (P.step_size_ / mv.signed_turning_radius_refp)),
            mv.signed_turning_radius_refp
              * (1 - M.cos ((j + 1 : ℕ) * (P.step_size_ / mv.signed_turning_radius_refp))),
            (j + 1 : ℕ) * (P.step_size_ / mv.signed_turning_radius_refp)) ∧
        q.2.center_traj_point_tf = centerToGlobal M mv
          ⟨mv.dist_before_steering_refp + mv.signed_turning_radius_refp
              * M.sin ((j + 1 : ℕ) * (P.step_size_ / mv.signed_turning_radius_refp)),
            mv.signed_turning_radius_refp
              * (1 - M.cos ((j + 1 : ℕ) * (P.step_size_ / mv.signed_turning_radius_refp))),
            (j + 1 : ℕ) * (P.step_size_ / mv.signed_turning_radius_refp)⟩ := by
  induction fuel with
  | zero =>
    intro st _ j q hq
    simp [samplerSteps] at hq
  | succ fuel ih =>
    intro st ht j q hq
    by_cases h1 : (samplerCheck M P goal st).dist_bef_steer < mv.dist_before_steering_refp
    · obtain ⟨st2, hadv, -, ht2, -⟩ := samplerAdvance_before M P mv _ h1
      rw [samplerSteps_step M P goal mv fuel st st2 _ (samplerPhase_before M P mv _ h1) hadv,
        List.filter_cons_of_neg (by simp)] at hq
      split_ifs at hq with hready
      · simp at hq
      · exact ih _ (by rw [samplerCenter_theta, ht2]) j q hq
    · rw [samplerCheck_dist_bef] at h1
      have := samplerSteps_turning_from M P goal mv hx (fuel + 1) st 0 h1
        (by rw [ht]; simp) j q hq
      rw [zero_add] at this
      exact this

end Arc

/-- A list of straight-before steps, then turning steps, then straight-after steps has no
straight-before step after a turning step and only straight-after steps after a
straight-after step. -/
theorem phases_pairwise (n1 n2 n3 : ℕ) :
    (List.replicate n1 Phase.STRAIGHT_BEFORE ++ List.replicate n2 Phase.TURNING
        ++ List.replicate n3 Phase.STRAIGHT_AFTER).Pairwise
      (fun a b => (a = Phase.TURNING → b ≠ Phase.STRAIGHT_BEFORE) ∧
        (a = Phase.STRAIGHT_AFTER → b = Phase.STRAIGHT_AFTER)) := by
  simp only [List.pairwise_append, List.pairwise_replicate, List.mem_append, List.mem_replicate]
  refine ⟨⟨?_, ?_, ?_⟩, ?_, ?_⟩
  · exact Or.inr ⟨by decide, by decide⟩
  · exact Or.inr ⟨by decide, by decide⟩
  · rintro a ⟨-, rfl⟩ b ⟨-, rfl⟩
    exact ⟨by decide, by decide⟩
  · exact Or.inr ⟨by decide, by decide⟩
  · rintro a (⟨-, rfl⟩ | ⟨-, rfl⟩) b ⟨-, rfl⟩
    · exact ⟨by decide, by decide⟩
    · exact ⟨by decide, by decide⟩

/-! ### The quarter turn -/

/-- The first step of the sampling loop for the quarter turn is a turning step. -/
theorem samplerSteps_quarterTurn (P : Planner ℝ) (goal : PoseStamped ℝ)
    (hs : P.step_size_ = 1 / 20) :
    ∃ q, ((samplerSteps realMath P goal (quarterTurn realMath) 1
        (samplerInit realMath (quarterTurn realMath) [])).filter
          (fun e => decide (e.1 = Phase.TURNING)))[0]? = some q := by
  have h1 : ¬ (samplerCheck realMath P goal
      (samplerInit realMath (quarterTurn realMath) [])).dist_bef_steer
      < (quarterTurn realMath).dist_before_steering_refp := by
    rw [samplerCheck_dist_bef]
    simp [samplerInit, quarterTurn]
  have h2 : |getYaw realMath (quarterTurn realMath).refpoint_goal_tf_refstart_coord
      - (samplerCheck realMath P goal
          (samplerInit realMath (quarterTurn realMath) [])).theta_refp_traj|
      > |P.step_size_ / (quarterTurn realMath).signed_turning_radius_refp / 2| := by
    rw [samplerCheck_theta, hs]
    have e : getYaw realMath (quarterTurn realMath).refpoint_goal_tf_refstart_coord
        = Real.pi / 2 := getYaw_half_pi 1 1
    rw [e]
    have hpi := Real.pi_gt_three
    simp only [samplerInit, quarterTurn, sub_zero, div_one]
    rw [abs_of_pos (by positivity), abs_of_pos (by norm_num)]
    linarith
  obtain ⟨st2, hadv, -⟩ := samplerAdvance_turn realMath P (quarterTurn realMath) _ h1 h2
  rw [samplerSteps_step realMath P goal (quarterTurn realMath) 0 _ st2 _
    (samplerPhase_turn realMath P (quarterTurn realMath) _ h1 h2) hadv,
    List.filter_cons_of_pos (by simp)]
  exact ⟨_, List.getElem?_cons_zero⟩

/-! ### The straight approach -/

section Straight

variable {α : Type} [LinearOrderedField α]

/-- The obstacle check of a pose whose footprint cost is not negative appends the pose and
changes nothing else. -/
theorem samplerCheck_ok (M : MathLib α) (P : Planner α) (goal : PoseStamped α)
    (st : SamplerState α)
    (h : 0 ≤ footprintCost P st.center_traj_point_tf.x st.center_traj_point_tf.y
      (getYaw M st.center_traj_point_tf)) :
    samplerCheck M P goal st = { st with
      plan := st.plan ++ [{ goal with x := st.center_traj_point_tf.x,
                                      y := st.center_traj_point_tf.y,
                                      yaw := getYaw M st.center_traj_point_tf }] } := by
  unfold samplerCheck
  dsimp only
  rw [if_neg (not_lt.mpr h)]

/-- The state that the straight-before step of `samplerAdvance` computes. -/
theorem samplerAdvance_before_eq (M : MathLib α) (P : Planner α) (mv : Maneuver α)
    (st : SamplerState α) (h : st.dist_bef_steer < mv.dist_before_steering_refp) :
    samplerAdvance M P mv st = some { st with
      theta_refp_traj := 0
      motion_refpoint_localtraj_ :=
        (st.prev_motion_refpoint_localtraj_.1 + P.step_size_,
         st.prev_motion_refpoint_localtraj_.2)
      dist_bef_steer := st.dist_bef_steer + P.step_size_ } := by
  unfold samplerAdvance
  dsimp only
  rw [if_pos h]

/-- The center pose after a step of the reference point by `s` along the `x` axis of the
local trajectory frame, from a center pose with heading `0`: the center moves by `s` along
the `x` axis and keeps the heading `0`, for a reference point off the rotation axis (through
the inverse Jacobian) and for the center of rotation as reference point (copied). -/
theorem samplerCenter_straight (M : MathLib α) (hcos : M.cos 0 = 1) (hsin : M.sin 0 = 0)
    (mv : Maneuver α)
    (href : mv.refpoint_tf_robot_coord.x ≠ 0 ∨
      (mv.refpoint_tf_robot_coord.x = 0 ∧ mv.refpoint_tf_robot_coord.y = 0))
    (st : SamplerState α) (a s : α)
    (hmotion : st.motion_refpoint_localtraj_ = (a + s, 0))
    (hprev : st.prev_motion_refpoint_localtraj_ = (a, 0))
    (htheta : st.theta_refp_traj = 0)
    (hcenter : st.center_pose_loctrajframe_
      = (-mv.refpoint_tf_robot_coord.x + a, -mv.refpoint_tf_robot_coord.y, 0)) :
    (samplerCenter M mv st).center_pose_loctrajframe_
      = (-mv.refpoint_tf_robot_coord.x + (a + s), -mv.refpoint_tf_robot_coord.y, 0) ∧
    (samplerCenter M mv st).prev_motion_refpoint_localtraj_ = (a + s, 0) ∧
    (samplerCenter M mv st).center_traj_point_tf = centerToGlobal M mv
      ⟨-mv.refpoint_tf_robot_coord.x + (a + s), -mv.refpoint_tf_robot_coord.y, 0⟩ := by
  have hpose : (samplerCenter M mv st).center_pose_loctrajframe_
      = (-mv.refpoint_tf_robot_coord.x + (a + s), -mv.refpoint_tf_robot_coord.y, 0) := by
    unfold samplerCenter
    dsimp only
    rw [hmotion, hprev, htheta, hcenter]
    rcases href with hx | ⟨hx, hy⟩
    · rw [if_pos hx, if_pos hx]
      simp only [Mat2.inv, Mat2.mulVec, hcos, hsin]
      refine Prod.ext ?_ (Prod.ext ?_ ?_)
      · simp [hcos, hx]
        ring
      · simp [hsin]
      · simp
    · rw [if_neg (not_not.mpr hx)]
      simp [hx, hy]
  refine ⟨hpose, ?_, ?_⟩
  · unfold samplerCenter
    dsimp only
    exact hmotion
  · have e : (samplerCenter M mv st).center_traj_point_tf = centerToGlobal M mv
        ⟨(samplerCenter M mv st).center_pose_loctrajframe_.1,
          (samplerCenter M mv st).center_pose_loctrajframe_.2.1,
          (samplerCenter M mv st).center_pose_loctrajframe_.2.2⟩ := rfl
    rw [e, hpose]

/-- The poses of the straight approach: while the distance before steering is not covered
and no footprint cost is negative, the sampling loop appends, step after step, the center
pose that lies `a`, `a + s`, `a + 2 s`, ... along the `x` axis of the start frame. -/
theorem samplerLoop_before_poses (M : MathLib α) (hcos : M.cos 0 = 1) (hsin : M.sin 0 = 0)
    (P : Planner α) (goal : PoseStamped α) (mv : Maneuver α)
    (href : mv.refpoint_tf_robot_coord.x ≠ 0 ∨
      (mv.refpoint_tf_robot_coord.x = 0 ∧ mv.refpoint_tf_robot_coord.y = 0))
    (horacle : ∀ x y th : α, 0 ≤ footprintCost P x y th) (fuel : ℕ) :
    ∀ (st r : SamplerState α) (a : α), st.traj_ready = false →
      st.dist_bef_steer = a → st.prev_motion_refpoint_localtraj_ = (a, 0) →
      st.center_pose_loctrajframe_
        = (-mv.refpoint_tf_robot_coord.x + a, -mv.refpoint_tf_robot_coord.y, 0) →
      st.center_traj_point_tf = centerToGlobal M mv
        ⟨-mv.refpoint_tf_robot_coord.x + a, -mv.refpoint_tf_robot_coord.y, 0⟩ →
      samplerLoop M P goal mv fuel st = some r →
      ∀ k : ℕ, (∀ i : ℕ, i < k → a + i * P.step_size_ < mv.dist_before_steering_refp) →
        r.plan[st.plan.length + k]? = some
          { goal with
            x := (centerToGlobal M mv ⟨-mv.refpoint_tf_robot_coord.x + (a + k * P.step_size_),
              -mv.refpoint_tf_robot_coord.y, 0⟩).x
            y := (centerToGlobal M mv ⟨-mv.refpoint_tf_robot_coord.x + (a + k * P.step_size_),
              -mv.refpoint_tf_robot_coord.y, 0⟩).y
            yaw := getYaw M (centerToGlobal M mv
              ⟨-mv.refpoint_tf_robot_coord.x + (a + k * P.step_size_),
                -mv.refpoint_tf_robot_coord.y, 0⟩) } := by
  induction fuel with
  | zero =>
    intro st r a _ _ _ _ _ h
    simp [samplerLoop] at h
  | succ fuel ih =>
    intro st r a hready hdist hprev hcenter hctp h k hk
    cases k with
    | zero =>
      obtain ⟨-, hpos⟩ := samplerLoop_first M P goal mv (fuel + 1) st r h
      obtain ⟨l, hl⟩ := hpos (horacle _ _ _)
      rw [hl, hctp, List.getElem?_append_right (by omega)]
      simp
    | succ k =>
      have hlt : st.dist_bef_steer < mv.dist_before_steering_refp := by
        have := hk 0 (Nat.succ_pos k)
        rw [hdist]
        simpa using this
      have hcheck := samplerCheck_ok M P goal st (horacle _ _ _)
      have hadv := samplerAdvance_before_eq M P mv (samplerCheck M P goal st)
        (by rw [samplerCheck_dist_bef]; exact hlt)
      obtain ⟨c1, c2, c3⟩ := samplerCenter_straight M hcos hsin mv href
        { samplerCheck M P goal st with
          theta_refp_traj := 0
          motion_refpoint_localtraj_ :=
            ((samplerCheck M P goal st).prev_motion_refpoint_localtraj_.1 + P.step_size_,
             (samplerCheck M P goal st).prev_motion_refpoint_localtraj_.2)
          dist_bef_steer := (samplerCheck M P goal st).dist_bef_steer + P.step_size_ }
        a P.step_size_
        (by rw [hcheck]; dsimp only; rw [hprev])
        (by rw [hcheck]; exact hprev)
        rfl
        (by rw [hcheck]; exact hcenter)
      rw [samplerLoop_succ, hadv] at h
      dsimp only at h
      have hready3 : (samplerCenter M mv
          { samplerCheck M P goal st with
            theta_refp_traj := 0
            motion_refpoint_localtraj_ :=
              ((samplerCheck M P goal st).prev_motion_refpoint_localtraj_.1 + P.step_size_,
               (samplerCheck M P goal st).prev_motion_refpoint_localtraj_.2)
            dist_bef_steer := (samplerCheck M P goal st).dist_bef_steer + P.step_size_
          }).traj_ready = false := by
        rw [samplerCenter_traj_ready, hcheck]
        exact hready
      rw [if_neg (by rw [hready3]; simp)] at h
      have hrec := ih _ r (a + P.step_size_) hready3
        (by rw [samplerCenter_dist_bef]; dsimp only; rw [samplerCheck_dist_bef, hdist])
        c2 c1 c3 h k
        (by
          intro i hi
          have := hk (i + 1) (Nat.succ_lt_succ hi)
          push_cast at this
          linarith)
      have hlen : (samplerCenter M mv
          { samplerCheck M P goal st with
            theta_refp_traj := 0
            motion_refpoint_localtraj_ :=
              ((samplerCheck M P goal st).prev_motion_refpoint_localtraj_.1 + P.step_size_,
               (samplerCheck M P goal st).prev_motion_refpoint_localtraj_.2)
            dist_bef_steer := (samplerCheck M P goal st).dist_bef_steer + P.step_size_
          }).plan.length = st.plan.length + 1 := by
        rw [samplerCenter_plan, hcheck]
        simp
      rw [hlen] at hrec
      have eidx : st.plan.length + (k + 1) = st.plan.length + 1 + k := by omega
      have eval : a + ((k + 1 : ℕ) : α) * P.step_size_
          = a + P.step_size_ + (k : α) * P.step_size_ := by
        push_cast
        ring
      rw [eidx, eval]
      exact hrec

/-- The reference point that the selection hands to the sampler is a candidate reference
point or the center of rotation. -/
theorem selectManeuver_refpoint (M : MathLib α) (P : Planner α) (start_ goal : PoseStamped α)
    (h1 : P.topRightCorner_.x ≠ 0) (h2 : P.right_side_ref_point_.x ≠ 0) :
    (selectManeuver M P start_ goal).refpoint_tf_robot_coord.x ≠ 0 ∨
    ((selectManeuver M P start_ goal).refpoint_tf_robot_coord.x = 0 ∧
      (selectManeuver M P start_ goal).refpoint_tf_robot_coord.y = 0) := by
  rw [selectManeuver_eq]
  split_ifs with hc hr
  · exact Or.inr ⟨rfl, rfl⟩
  · dsimp only
    generalize (computeCurveParameters M (goalInStartFrame M start_ goal)
      P.turning_radius_).curve_type = t at hc
    cases t with
    | NONE => exact absurd rfl hc
    | LEFT_CENTER_POINT => exact Or.inl h1
    | RIGHT_CENTER_POINT => exact Or.inl h2
  · exact Or.inr ⟨rfl, rfl⟩

end Straight

/-- In exact arithmetic, the center pose that lies `b` along the `x` axis of the start
frame, expressed in the global frame. -/
theorem centerToGlobal_straight_real (mv : Maneuver ℝ) (b : ℝ) :
    (centerToGlobal realMath mv
        ⟨-mv.refpoint_tf_robot_coord.x + b, -mv.refpoint_tf_robot_coord.y, 0⟩).x
      = mv.start_tf.x + b * Real.cos mv.start_yaw ∧
    (centerToGlobal realMath mv
        ⟨-mv.refpoint_tf_robot_coord.x + b, -mv.refpoint_tf_robot_coord.y, 0⟩).y
      = mv.start_tf.y + b * Real.sin mv.start_yaw ∧
    getYaw realMath (centerToGlobal realMath mv
        ⟨-mv.refpoint_tf_robot_coord.x + b, -mv.refpoint_tf_robot_coord.y, 0⟩)
      = realMath.normalize_angle mv.start_yaw := by
  have h0 : wrapAngle Real.pi 0 = 0 := normalize_zero_realMath
  refine ⟨?_, ?_, ?_⟩
  · simp only [centerToGlobal, translate2D, rotate2D, realMath]
    ring
  · simp only [centerToGlobal, translate2D, rotate2D, realMath]
    ring
  · simp only [centerToGlobal, translate2D, rotate2D, getYaw, realMath, h0, add_zero]

/-- The straight approach of an accepted call of `makePlan`, in exact arithmetic. -/
theorem makePlan_straight_approach (P : Planner ℝ) (start goal : PoseStamped ℝ)
    (plan : List (PoseStamped ℝ)) (hinit : P.initialized_ = true)
    (hframe : goal.frame_id = P.global_frame) (hvalid : P.valid_last_goal_ = false)
    (hs : 0 < P.step_size_) (hr : P.turning_radius_ ≠ 0)
    (hne : (selectManeuver realMath P start goal).curve_type ≠ CurveType.NONE)
    (href : (selectManeuver realMath P start goal).refpoint_tf_robot_coord.x ≠ 0 ∨
      ((selectManeuver realMath P start goal).refpoint_tf_robot_coord.x = 0 ∧
        (selectManeuver realMath P start goal).refpoint_tf_robot_coord.y = 0))
    (horacle : ∀ x y th : ℝ, 0 ≤ footprintCost P x y th) :
    ∃ fuel r, makePlan realMath fuel P start goal plan = some r ∧
      ∀ k : ℕ,
        k ≤ Nat.ceil ((selectManeuver realMath P start goal).dist_before_steering_refp
          / P.step_size_) →
        r.plan[k]? = some ⟨goal.frame_id,
          start.x + k * P.step_size_ * Real.cos (getYaw realMath (poseStampedMsgToTF start)),
          start.y + k * P.step_size_ * Real.sin (getYaw realMath (poseStampedMsgToTF start)),
          getYaw realMath (poseStampedMsgToTF start)⟩ := by
  obtain ⟨fuel, r, h⟩ := makePlan_returns realMath P start goal plan hs hr
  refine ⟨fuel, r, h, ?_⟩
  intro k hk
  rw [makePlan_accepted realMath fuel P start goal plan hinit hframe,
    chooseStart_of_invalid P start hvalid, selectManeuver_withStart, if_pos hne] at h
  obtain ⟨st, hst, hrst⟩ := Option.map_eq_some'.mp h
  obtain ⟨hyaw, -, htf⟩ := selectManeuver_start_yaw realMath P start goal
  have hposes := samplerLoop_before_poses realMath Real.cos_zero Real.sin_zero
    (P.withStart start) goal (selectManeuver realMath P start goal) href
    (fun x y th => by rw [footprintCost_withStart]; exact horacle x y th) fuel
    (samplerInit realMath (selectManeuver realMath P start goal) []) st 0 rfl rfl rfl
    (by simp [samplerInit]) (by simp [samplerInit]) hst k
    (by
      intro i hi
      have hlt : i < Nat.ceil ((selectManeuver realMath P start goal).dist_before_steering_refp
          / P.step_size_) := lt_of_lt_of_le hi hk
      have := (lt_div_iff₀ hs).mp (Nat.lt_ceil.mp hlt)
      rw [zero_add]
      exact this)
  obtain ⟨ex, ey, eyaw⟩ := centerToGlobal_straight_real (selectManeuver realMath P start goal)
    (0 + k * (P.withStart start).step_size_)
  rw [ex, ey, eyaw, hyaw, htf] at hposes
  rw [← hrst]
  have hlen : (samplerInit realMath (selectManeuver realMath P start goal) []).plan.length + k
      = k := by
    simp [samplerInit]
  rw [hlen] at hposes
  rw [hposes]
  have hn : realMath.normalize_angle (getYaw realMath (poseStampedMsgToTF start))
      = getYaw realMath (poseStampedMsgToTF start) := normalize_idem_realMath _
  rw [hn, zero_add]
  rfl

/-! ### The plan of the sampling loop in terms of its steps -/

section Trace

variable {α : Type} [LinearOrderedField α]

/-- The poses that the sampling loop appends to the plan are, in order, poses of the state
at entry and of the states at the end of its steps: the loop checks the state at entry and
then the state at the end of each step, and appends the pose of each state it checks until
a footprint cost is negative. -/
theorem samplerLoop_plan_steps (M : MathLib α) (P : Planner α) (goal : PoseStamped α)
    (mv : Maneuver α) (fuel : ℕ) :
    ∀ st r : SamplerState α, samplerLoop M P goal mv fuel st = some r →
      ∃ l : List (PoseStamped α), r.plan = st.plan ++ l ∧
        l <+: (st :: (samplerSteps M P goal mv fuel st).map Prod.snd).map (trajPoint M goal) := by
  induction fuel with
  | zero =>
    intro st r h
    simp [samplerLoop] at h
  | succ fuel ih =>
    intro st r h
    have hcheck : (samplerCheck M P goal st).plan = st.plan ++ [] ∨
        (samplerCheck M P goal st).plan = st.plan ++ [trajPoint M goal st] := by
      rcases samplerCheck_plan M P goal st with ⟨hp, -, -⟩ | ⟨hp, -, -⟩
      · exact Or.inl (by rw [hp, List.append_nil])
      · exact Or.inr hp
    rw [samplerLoop_succ] at h
    cases hadv : samplerAdvance M P mv (samplerCheck M P goal st) with
    | none =>
      rw [hadv] at h
      cases h
      rcases hcheck with hp | hp
      · exact ⟨[], hp, List.nil_prefix⟩
      · refine ⟨[trajPoint M goal st], hp, ?_⟩
        rw [List.map_cons]
        exact List.prefix_append [trajPoint M goal st] _
    | some st2 =>
      rw [hadv] at h
      dsimp only at h
      obtain ⟨hp2, hr2⟩ := samplerAdvance_plan M P mv _ _ hadv
      obtain ⟨phase, hphase⟩ : ∃ phase, samplerPhase M P mv (samplerCheck M P goal st)
          = some phase := by
        cases hph : samplerPhase M P mv (samplerCheck M P goal st) with
        | none =>
          rw [(samplerPhase_eq_none_iff M P mv _).mp hph] at hadv
          cases hadv
        | some phase => exact ⟨phase, rfl⟩
      rw [samplerSteps_step M P goal mv fuel st st2 phase hphase hadv]
      by_cases hready3 : (samplerCenter M mv st2).traj_ready = true
      · rw [if_pos hready3] at h
        cases h
        rw [samplerCenter_plan, hp2]
        rcases hcheck with hp | hp
        · exact ⟨[], hp, List.nil_prefix⟩
        · refine ⟨[trajPoint M goal st], hp, ?_⟩
          rw [List.map_cons]
          exact List.prefix_append [trajPoint M goal st] _
      · rw [if_neg hready3] at h
        rw [if_neg hready3]
        obtain ⟨l, hl, hpre⟩ := ih _ r h
        rw [samplerCenter_plan, hp2] at hl
        rw [samplerCenter_traj_ready, hr2] at hready3
        rcases samplerCheck_plan M P goal st with ⟨-, hr, -⟩ | ⟨hp, -, -⟩
        · exact absurd hr hready3
        · refine ⟨trajPoint M goal st :: l, ?_, ?_⟩
          · rw [hl, hp, List.append_assoc, List.singleton_append]
            rfl
          · rw [List.map_cons, List.map_cons]
            exact (List.prefix_cons_inj _).mpr hpre

end Trace

/-- An iteration takes the straight-after branch or the final branch only in a state whose
trajectory angle is within half a grid step of the goal angle. -/
theorem samplerPhase_turning_over {α : Type} [LinearOrderedField α] (M : MathLib α)
    (P : Planner α) (mv : Maneuver α) (st : SamplerState α)
    (h : samplerPhase M P mv st = some Phase.STRAIGHT_AFTER ∨ samplerPhase M P mv st = none) :
    |getYaw M mv.refpoint_goal_tf_refstart_coord - st.theta_refp_traj|
      ≤ |P.step_size_ / mv.signed_turning_radius_refp| / 2 := by
  have e2 : |P.step_size_ / mv.signed_turning_radius_refp / 2|
      = |P.step_size_ / mv.signed_turning_radius_refp| / 2 := by
    rw [abs_div, abs_two]
  rw [← e2]
  unfold samplerPhase at h
  dsimp only at h
  split_ifs at h with h1 h2 h3
  · rcases h with h | h <;> cases h
  · rcases h with h | h <;> cases h
  · exact not_lt.mp h2
  · exact not_lt.mp h2

/-! ### The radius and the final check of the solver -/

/-- A product `a2 * c` that is not negative bounds the products `a1 * c` with
`0 ≤ a1 ≤ a2` from above, and they are not negative either. -/
theorem mul_le_of_nonneg_mul {α : Type} [LinearOrderedField α] (a1 a2 c : α) (h1 : 0 ≤ a1)
    (hle : a1 ≤ a2) (hc : 0 ≤ a2 * c) : 0 ≤ a1 * c ∧ a1 * c ≤ a2 * c := by
  by_cases ht : 0 ≤ c
  · exact ⟨mul_nonneg h1 ht, mul_le_mul_of_nonneg_right hle ht⟩
  · have ht' : c < 0 := not_le.mp ht
    have h20 : a2 = 0 := by
      by_contra hne
      have hpos : 0 < a2 := lt_of_le_of_ne (le_trans h1 hle) (Ne.symm hne)
      have := mul_neg_of_pos_of_neg hpos ht'
      linarith
    have h10 : a1 = 0 := le_antisymm (by rw [← h20]; exact hle) h1
    rw [h10, h20]
    simp

/-- Feasibility is downward closed in the radius: a curve type other than `NONE` at the
radius `r2` is the curve type at every radius `r1` with `|r1| ≤ |r2|`. -/
theorem solver_radius_downward {α : Type} [LinearOrderedField α] (M : MathLib α) (p : Pose α)
    (r1 r2 : α) (hle : |r1| ≤ |r2|)
    (h2 : (computeCurveParameters M p r2).curve_type ≠ CurveType.NONE) :
    (computeCurveParameters M p r1).curve_type = (computeCurveParameters M p r2).curve_type := by
  have h1 : (computeCurveParameters M p r1).curve_type ≠ CurveType.NONE := by
    obtain ⟨hx, hside, hb, ha, hc⟩ := (computeCurveParameters_spec M p r2).1.mp h2
    rw [(computeCurveParameters_spec M p r1).1]
    have hoff : 0 ≤ steeringOffset M p r1 ∧ steeringOffset M p r1 ≤ steeringOffset M p r2 := by
      have hc' : 0 ≤ steeringOffset M p r2 := by linarith
      unfold steeringOffset signedRadius at hc' ⊢
      generalize M.tan ((M.pi - getYaw M p) / 2) = t at hc' ⊢
      by_cases hy : 0 < p.y
      · simp only [if_pos hy, div_eq_mul_inv] at hc' ⊢
        exact mul_le_of_nonneg_mul _ _ _ (abs_nonneg r1) hle hc'
      · simp only [if_neg hy, div_eq_mul_inv, neg_mul] at hc' ⊢
        have := mul_le_of_nonneg_mul |r1| |r2| (-t⁻¹) (abs_nonneg r1) hle
          (by rw [mul_neg]; exact hc')
        rw [mul_neg, mul_neg] at this
        exact this
    exact ⟨hx, hside, by linarith [hoff.1, hoff.2], by linarith [hoff.1, hoff.2],
      by linarith [hoff.1]⟩
  rcases solver_side_independent_of_radius M p r2 r1 h2 with h | h
  · exact h
  · exact absurd h h1

/-- In exact arithmetic, the tangent of `(pi - yaw) / 2` is not negative for a heading in
`[0, pi]` and not positive for a heading in `[-pi, 0]`. -/
theorem tan_half_sign {yaw : ℝ} :
    (0 ≤ yaw → yaw ≤ Real.pi → 0 ≤ Real.tan ((Real.pi - yaw) / 2)) ∧
    (-Real.pi ≤ yaw → yaw ≤ 0 → Real.tan ((Real.pi - yaw) / 2) ≤ 0) := by
  constructor
  · intro h0 h1
    exact Real.tan_nonneg_of_nonneg_of_le_pi_div_two (by linarith) (by linarith)
  · intro h0 h1
    have h := Real.tan_nonpos_of_nonpos_of_neg_pi_div_two_le
      (x := (Real.pi - yaw) / 2 - Real.pi) (by linarith) (by linarith)
    rwa [Real.tan_sub_pi] at h

/-- In exact arithmetic the steering offset is not negative whenever the side and heading
check of the solver passes. -/
theorem solver_offset_nonneg (p : Pose ℝ) (r : ℝ)
    (hside : (0 < p.y ∧ 0 ≤ getYaw realMath p ∧ getYaw realMath p ≤ Real.pi) ∨
      (p.y ≤ 0 ∧ -Real.pi ≤ getYaw realMath p ∧ getYaw realMath p ≤ 0)) :
    0 ≤ steeringOffset realMath p r := by
  unfold steeringOffset signedRadius
  rcases hside with ⟨hy, h0, h1⟩ | ⟨hy, h0, h1⟩
  · rw [if_pos hy]
    exact div_nonneg (abs_nonneg r) (tan_half_sign.1 h0 h1)
  · rw [if_neg (not_lt.mpr hy)]
    exact div_nonneg_of_nonpos (neg_nonpos.mpr (abs_nonneg r)) (tan_half_sign.2 h0 h1)

/-- In exact arithmetic the solver without the third condition of the final check returns
what the solver returns. -/
theorem solver_third_check_redundant (p : Pose ℝ) (r : ℝ) :
    computeCurveParametersTwoChecks realMath p r = computeCurveParameters realMath p r := by
  have hoff := solver_offset_nonneg p r
  unfold steeringOffset signedRadius at hoff
  unfold computeCurveParametersTwoChecks computeCurveParameters
  simp only [bitOr_eq_or, gt_iff_lt, Bool.or_eq_true, decide_eq_true_eq]
  have hpi : realMath.pi = Real.pi := rfl
  rw [hpi] at hoff ⊢
  generalize getYaw realMath p = yaw at *
  generalize p.x - p.y / realMath.tan yaw = xi
  generalize realMath.sqrt ((p.x - xi) * (p.x - xi) + p.y * p.y) = D
  generalize realMath.tan ((Real.pi - yaw) / 2) = t at *
  by_cases hx : xi < 0
  · simp [hx]
  · by_cases hy : 0 < p.y
    · by_cases h1 : yaw < 0 ∨ Real.pi < yaw
      · simp [hx, hy, h1]
      · have h1' := h1
        rw [not_or, not_lt, not_lt] at h1'
        have ho := hoff (Or.inl ⟨hy, h1'.1, h1'.2⟩)
        rw [if_pos hy] at ho
        have hc : ¬ xi < xi - |r| / t := by linarith
        simp [hx, hy, h1, hc]
    · by_cases h1 : 0 < yaw ∨ yaw < -Real.pi
      · simp [hx, hy, h1]
      · have h1' := h1
        rw [not_or, not_lt, not_lt] at h1'
        have ho := hoff (Or.inr ⟨not_lt.mp hy, h1'.2, h1'.1⟩)
        rw [if_neg hy] at ho
        have hc : ¬ xi < xi - -|r| / t := by linarith
        simp [hx, hy, h1, hc]

/-! ### The heading of the re-framed goal -/

/-- For two goals with the same heading, other than `0`, the solver does not return
opposite turn sides: when it returns a curve type other than `NONE` for the one, it returns
that curve type or `NONE` for the other, whatever the radii are. -/
theorem solver_side_of_heading {α : Type} [LinearOrderedField α] (M : MathLib α)
    (p q : Pose α) (r r' : α) (hyaw : getYaw M q = getYaw M p) (h0 : getYaw M p ≠ 0)
    (hp : (computeCurveParameters M p r).curve_type ≠ CurveType.NONE) :
    (computeCurveParameters M q r').curve_type = (computeCurveParameters M p r).curve_type ∨
    (computeCurveParameters M q r').curve_type = CurveType.NONE := by
  by_cases hq : (computeCurveParameters M q r').curve_type = CurveType.NONE
  · exact Or.inr hq
  · left
    obtain ⟨-, hsp, -⟩ := (computeCurveParameters_spec M p r).1.mp hp
    obtain ⟨-, hsq, -⟩ := (computeCurveParameters_spec M q r').1.mp hq
    obtain ⟨hlp, hrp, -⟩ := (computeCurveParameters_spec M p r).2 hp
    obtain ⟨hlq, hrq, -⟩ := (computeCurveParameters_spec M q r').2 hq
    rw [hyaw] at hsq
    have hside : 0 < q.y ↔ 0 < p.y := by
      rcases hsp with ⟨hy, h1, -⟩ | ⟨hy, -, h2⟩
      · rcases hsq with ⟨hy', -, -⟩ | ⟨-, -, h2'⟩
        · exact ⟨fun _ => hy, fun _ => hy'⟩
        · exact absurd (le_antisymm h2' h1) h0
      · rcases hsq with ⟨-, h1', -⟩ | ⟨hy', -, -⟩
        · exact absurd (le_antisymm h2 h1') h0
        · exact ⟨fun h => absurd h (not_lt.mpr hy'), fun h => absurd h (not_lt.mpr hy)⟩
    by_cases hy : 0 < p.y
    · rw [hlp.mpr hy, hlq.mpr (hside.mpr hy)]
    · rw [hrp.mpr hy, hrq.mpr (fun h => hy (hside.mp h))]

/-- In exact arithmetic the goal re-framed about a reference point has the reported heading
of the goal in the start frame, whatever the reference point is. -/
theorem refpointGoal_yaw_real (start_ goal : PoseStamped ℝ) (ref : Pose ℝ) :
    getYaw realMath (refpointGoalInRefstartFrame realMath start_ goal ref)
      = getYaw realMath (goalInStartFrame realMath start_ goal) := by
  obtain ⟨k1, hk1⟩ := wrapAngle_eq_add Real.pi start_.yaw
  obtain ⟨k2, hk2⟩ := wrapAngle_eq_add Real.pi goal.yaw
  obtain ⟨k3, hk3⟩ := wrapAngle_eq_add Real.pi ref.yaw
  obtain ⟨k4, hk4⟩ := wrapAngle_eq_add Real.pi
    (wrapAngle Real.pi start_.yaw + wrapAngle Real.pi ref.yaw)
  obtain ⟨k5, hk5⟩ := wrapAngle_eq_add Real.pi
    (wrapAngle Real.pi goal.yaw + wrapAngle Real.pi ref.yaw)
  have e1 : getYaw realMath (refpointGoalInRefstartFrame realMath start_ goal ref)
      = wrapAngle Real.pi (-wrapAngle Real.pi
            (wrapAngle Real.pi start_.yaw + wrapAngle Real.pi ref.yaw)
          + wrapAngle Real.pi (wrapAngle Real.pi goal.yaw + wrapAngle Real.pi ref.yaw)) := rfl
  have e2 : getYaw realMath (goalInStartFrame realMath start_ goal)
      = wrapAngle Real.pi (-wrapAngle Real.pi start_.yaw + wrapAngle Real.pi goal.yaw) := rfl
  rw [e1, e2]
  have e : -wrapAngle Real.pi (wrapAngle Real.pi start_.yaw + wrapAngle Real.pi ref.yaw)
      + wrapAngle Real.pi (wrapAngle Real.pi goal.yaw + wrapAngle Real.pi ref.yaw)
      = (-wrapAngle Real.pi start_.yaw + wrapAngle Real.pi goal.yaw)
        + ((k5 - k4 : ℤ) : ℝ) * (2 * Real.pi) := by
    rw [hk4, hk5]
    push_cast
    ring
  rw [e, wrapAngle_add_int_mul Real.pi_pos]

/-- In exact arithmetic, when the heading of the goal in the start frame is not `0`, the
solve for the goal re-framed about any reference point returns the curve type of the solve
for the center of rotation or `NONE`, and the selection ends with the curve type of the
solve for the center of rotation. -/
theorem selectManeuver_keeps_side (P : Planner ℝ) (start_ goal : PoseStamped ℝ)
    (h0 : getYaw realMath (goalInStartFrame realMath start_ goal) ≠ 0) :
    (∀ (ref : Pose ℝ) (r' : ℝ),
      (computeCurveParameters realMath (goalInStartFrame realMath start_ goal)
        P.turning_radius_).curve_type ≠ CurveType.NONE →
      (computeCurveParameters realMath (refpointGoalInRefstartFrame realMath start_ goal ref)
          r').curve_type
        = (computeCurveParameters realMath (goalInStartFrame realMath start_ goal)
            P.turning_radius_).curve_type ∨
      (computeCurveParameters realMath (refpointGoalInRefstartFrame realMath start_ goal ref)
          r').curve_type = CurveType.NONE) ∧
    (selectManeuver realMath P start_ goal).curve_type
      = (computeCurveParameters realMath (goalInStartFrame realMath start_ goal)
          P.turning_radius_).curve_type := by
  have hall : ∀ (ref : Pose ℝ) (r' : ℝ),
      (computeCurveParameters realMath (goalInStartFrame realMath start_ goal)
        P.turning_radius_).curve_type ≠ CurveType.NONE →
      (computeCurveParameters realMath (refpointGoalInRefstartFrame realMath start_ goal ref)
          r').curve_type
        = (computeCurveParameters realMath (goalInStartFrame realMath start_ goal)
            P.turning_radius_).curve_type ∨
      (computeCurveParameters realMath (refpointGoalInRefstartFrame realMath start_ goal ref)
          r').curve_type = CurveType.NONE := fun ref r' hc =>
    solver_side_of_heading realMath _ _ _ r' (refpointGoal_yaw_real start_ goal ref) h0 hc
  refine ⟨hall, ?_⟩
  rw [selectManeuver_eq]
  split_ifs with hc hr
  · rfl
  · rcases hall _ P.turning_radius_ hc with h | h
    · exact h
    · exact absurd h hr
  · rfl

/-! ### The Jacobian of the reference point -/

section Jacobian

variable {α : Type} [LinearOrderedField α]

/-- The center pose that `samplerCenter` computes for a reference point with `x ≠ 0`, in
terms of `invJacobianMotRefPoint`. -/
theorem samplerCenter_jacobian (M : MathLib α) (mv : Maneuver α) (st : SamplerState α)
    (hx : mv.refpoint_tf_robot_coord.x ≠ 0) :
    (samplerCenter M mv st).center_pose_loctrajframe_ =
      (st.center_pose_loctrajframe_.1
          + 1 * ((invJacobianMotRefPoint mv).mulVec
              ((⟨M.cos st.center_pose_loctrajframe_.2.2, M.sin st.center_pose_loctrajframe_.2.2,
                  -M.sin st.center_pose_loctrajframe_.2.2,
                  M.cos st.center_pose_loctrajframe_.2.2⟩ : Mat2 α).mulVec
                ((st.motion_refpoint_localtraj_.1 - st.prev_motion_refpoint_localtraj_.1) / 1,
                 (st.motion_refpoint_localtraj_.2 - st.prev_motion_refpoint_localtraj_.2) / 1))).1
            * M.cos (st.center_pose_loctrajframe_.2.2
                + 1 * ((invJacobianMotRefPoint mv).mulVec
                  ((⟨M.cos st.center_pose_loctrajframe_.2.2,
                      M.sin st.center_pose_loctrajframe_.2.2,
                      -M.sin st.center_pose_loctrajframe_.2.2,
                      M.cos st.center_pose_loctrajframe_.2.2⟩ : Mat2 α).mulVec
                    ((st.motion_refpoint_localtraj_.1
                        - st.prev_motion_refpoint_localtraj_.1) / 1,
                     (st.motion_refpoint_localtraj_.2
                        - st.prev_motion_refpoint_localtraj_.2) / 1))).2),
        st.center_pose_loctrajframe_.2.1
          + 1 * ((invJacobianMotRefPoint mv).mulVec
              ((⟨M.cos st.center_pose_loctrajframe_.2.2, M.sin st.center_pose_loctrajframe_.2.2,
                  -M.sin st.center_pose_loctrajframe_.2.2,
                  M.cos st.center_pose_loctrajframe_.2.2⟩ : Mat2 α).mulVec
                ((st.motion_refpoint_localtraj_.1 - st.prev_motion_refpoint_localtraj_.1) / 1,
                 (st.motion_refpoint_localtraj_.2 - st.prev_motion_refpoint_localtraj_.2) / 1))).1
            * M.sin (st.center_pose_loctrajframe_.2.2
                + 1 * ((invJacobianMotRefPoint mv).mulVec
                  ((⟨M.cos st.center_pose_loctrajframe_.2.2,
                      M.sin st.center_pose_loctrajframe_.2.2,
                      -M.sin st.center_pose_loctrajframe_.2.2,
                      M.cos st.center_pose_loctrajframe_.2.2⟩ : Mat2 α).mulVec
                    ((st.motion_refpoint_localtraj_.1
                        - st.prev_motion_refpoint_localtraj_.1) / 1,
                     (st.motion_refpoint_localtraj_.2
                        - st.prev_motion_refpoint_localtraj_.2) / 1))).2),
        st.center_pose_loctrajframe_.2.2
          + 1 * ((invJacobianMotRefPoint mv).mulVec
              ((⟨M.cos st.center_pose_loctrajframe_.2.2, M.sin st.center_pose_loctrajframe_.2.2,
                  -M.sin st.center_pose_loctrajframe_.2.2,
                  M.cos st.center_pose_loctrajframe_.2.2⟩ : Mat2 α).mulVec
                ((st.motion_refpoint_localtraj_.1 - st.prev_motion_refpoint_localtraj_.1) / 1,
                 (st.motion_refpoint_localtraj_.2
                    - st.prev_motion_refpoint_localtraj_.2) / 1))).2) := by
  unfold samplerCenter invJacobianMotRefPoint jacobianMotRefPoint
  dsimp only
  rw [if_pos hx, if_pos hx]

/-- For a reference point with `x ≠ 0` the determinant of the Jacobian is that `x`, the
matrix `invJacobianMotRefPoint` is `[[1, y / x], [0, 1 / x]]`, and it is the inverse of the
Jacobian on either side. -/
theorem invJacobianMotRefPoint_of_ne (mv : Maneuver α)
    (hx : mv.refpoint_tf_robot_coord.x ≠ 0) :
    (jacobianMotRefPoint mv).det = mv.refpoint_tf_robot_coord.x ∧
    invJacobianMotRefPoint mv
      = ⟨1, mv.refpoint_tf_robot_coord.y / mv.refpoint_tf_robot_coord.x, 0,
          1 / mv.refpoint_tf_robot_coord.x⟩ ∧
    ∀ v : α × α,
      (jacobianMotRefPoint mv).mulVec ((invJacobianMotRefPoint mv).mulVec v) = v ∧
      (invJacobianMotRefPoint mv).mulVec ((jacobianMotRefPoint mv).mulVec v) = v := by
  have hinv : invJacobianMotRefPoint mv
      = ⟨1, mv.refpoint_tf_robot_coord.y / mv.refpoint_tf_robot_coord.x, 0,
          1 / mv.refpoint_tf_robot_coord.x⟩ := by
    unfold invJacobianMotRefPoint jacobianMotRefPoint Mat2.inv
    rw [if_pos hx]
    simp [hx]
  refine ⟨by simp [jacobianMotRefPoint, Mat2.det], hinv, ?_⟩
  intro v
  rw [hinv]
  unfold jacobianMotRefPoint Mat2.mulVec
  constructor
  · refine Prod.ext ?_ ?_
    · simp only
      field_simp
    · simp only
      field_simp
  · refine Prod.ext ?_ ?_
    · simp only
      field_simp
      ring
    · simp only
      field_simp

/-- For a reference point with `x = 0` the matrix `invJacobianMotRefPoint` is the zero
matrix: the Jacobian is not inverted. -/
theorem invJacobianMotRefPoint_of_eq (mv : Maneuver α)
    (hx : mv.refpoint_tf_robot_coord.x = 0) :
    invJacobianMotRefPoint mv = ⟨0, 0, 0, 0⟩ := by
  unfold invJacobianMotRefPoint
  rw [if_neg (not_not.mpr hx)]

/-- On a planner that `initialize` has left initialized, the reference point that the
selection hands to the sampler has `x ≠ 0` or is the center of rotation `(0, 0)`. -/
theorem selectManeuver_refpoint_initialized (M : MathLib α) (P0 : Planner α)
    (cm : Costmap2DROS α) (params : Parameters α) (start_ goal : PoseStamped α)
    (h0 : P0.initialized_ = false)
    (hinit : (initializePlanner P0 cm params).initialized_ = true) :
    (selectManeuver M (initializePlanner P0 cm params) start_ goal).refpoint_tf_robot_coord.x
        ≠ 0 ∨
    (selectManeuver M (initializePlanner P0 cm params) start_ goal).refpoint_tf_robot_coord
      = ⟨0, 0, 0⟩ := by
  obtain ⟨-, -, -, -, -, ⟨-, t2, -⟩, -, hright, -⟩ :=
    initializePlanner_fields P0 cm params h0 hinit
  rw [selectManeuver_eq]
  split_ifs with hc hr
  · exact Or.inr rfl
  · left
    dsimp only
    generalize (computeCurveParameters M (goalInStartFrame M start_ goal)
      (initializePlanner P0 cm params).turning_radius_).curve_type = t at hc
    cases t with
    | NONE => exact absurd rfl hc
    | LEFT_CENTER_POINT => exact t2.ne'
    | RIGHT_CENTER_POINT =>
      unfold candidateRefpoint
      rw [hright]
      norm_num
  · exact Or.inr rfl

end Jacobian

/-! ### The number of poses of the carrot planner -/

section CarrotCount

variable {α : Type} [LinearOrderedField α]

/-- The carrot loop appends at most `n` poses when `n` additions take the `double` variable
`scale` above `1`. -/
theorem carrotLoop_length_le (M : MathLib α) (P : Planner α) (goal : PoseStamped α)
    (start_x start_y start_yaw diff_x diff_y diff_yaw : α) (fuel : ℕ) :
    ∀ (n : ℕ) (scale : α) (sb : ℚ) (plan r : List (PoseStamped α)),
      1 < carrotScaleNext^[n] sb →
      carrotLoop M P goal start_x start_y start_yaw diff_x diff_y diff_yaw fuel scale sb plan
        = some r →
      r.length ≤ plan.length + n := by
  induction fuel with
  | zero =>
    intro n scale sb plan r _ h
    simp [carrotLoop] at h
  | succ fuel ih =>
    intro n scale sb plan r hs h
    rw [carrotLoop_succ] at h
    split_ifs at h with h1 h2
    · cases h
      omega
    · cases h
      omega
    · cases n with
      | zero =>
        exfalso
        apply h1
        simpa using hs
      | succ n =>
        rw [Function.iterate_succ_apply] at hs
        have := ih n (scale + 0.05) (carrotScaleNext sb) _ r hs h
        rw [List.length_append, List.length_singleton] at this
        omega

/-- Without a negative footprint cost the carrot loop appends exactly `n + 1` poses when
`n` additions keep the `double` variable `scale` at most `1` and one more takes it above
`1`. -/
theorem carrotLoop_free_length (M : MathLib α) (P : Planner α) (goal : PoseStamped α)
    (start_x start_y start_yaw diff_x diff_y diff_yaw : α)
    (horacle : ∀ x y th : α, 0 ≤ footprintCost P x y th) (n : ℕ) :
    ∀ (fuel : ℕ) (scale : α) (sb : ℚ) (plan : List (PoseStamped α)),
      (∀ k : ℕ, k ≤ n → carrotScaleNext^[k] sb ≤ 1) →
      1 < carrotScaleNext^[n + 1] sb → n + 2 ≤ fuel →
      ∃ r, carrotLoop M P goal start_x start_y start_yaw diff_x diff_y diff_yaw fuel scale sb
          plan = some r ∧ r.length = plan.length + (n + 1) := by
  induction n with
  | zero =>
    intro fuel scale sb plan h1 h2 hfuel
    obtain ⟨f, rfl⟩ : ∃ f, fuel = f + 2 := ⟨fuel - 2, by omega⟩
    have h0 : sb ≤ 1 := by simpa using h1 0 le_rfl
    rw [carrotLoop_succ, if_neg (not_lt.mpr h0),
      if_neg (not_lt.mpr (horacle _ _ _)), carrotLoop_succ,
      if_pos (by simpa using h2)]
    exact ⟨_, rfl, by simp⟩
  | succ n ih =>
    intro fuel scale sb plan h1 h2 hfuel
    obtain ⟨f, rfl⟩ : ∃ f, fuel = f + 1 := ⟨fuel - 1, by omega⟩
    have hle : sb ≤ 1 := by simpa using h1 0 (Nat.zero_le _)
    rw [carrotLoop_succ, if_neg (not_lt.mpr hle), if_neg (not_lt.mpr (horacle _ _ _))]
    obtain ⟨r, hr, hlen⟩ := ih f (scale + 0.05) (carrotScaleNext sb) (plan ++ [{ goal with
        x := start_x + scale * diff_x, y := start_y + scale * diff_y,
        yaw := M.normalize_angle (start_yaw + scale * diff_yaw) }])
      (fun k hk => by
        have := h1 (k + 1) (by omega)
        rwa [Function.iterate_succ_apply] at this)
      (by rwa [Function.iterate_succ_apply] at h2) (by omega)
    refine ⟨r, hr, ?_⟩
    rw [hlen, List.length_append, List.length_singleton]
    omega

/-- The carrot planner of an accepted call of `makePlan`: at most 20 poses for every
oracle; and without a negative footprint cost exactly 20 poses, the last of which is the
sample at the scale `0.05 * 19`, because the twentieth addition of `0.05` takes the
`double` variable `scale` above `1`. -/
theorem makePlan_carrot_count (M : MathLib α) (P : Planner α) (start goal : PoseStamped α)
    (plan : List (PoseStamped α)) (hinit : P.initialized_ = true)
    (hframe : goal.frame_id = P.global_frame)
    (hnone : (selectManeuver M P (chooseStart P start) goal).curve_type = CurveType.NONE) :
    (∃ r, makePlan M 22 P start goal plan = some r) ∧
    (∀ fuel r, makePlan M fuel P start goal plan = some r → r.plan.length ≤ 20) ∧
    ((∀ x y th : α, 0 ≤ footprintCost P x y th) →
      ∀ fuel r, makePlan M fuel P start goal plan = some r →
        r.plan.length = 20 ∧
        r.plan[19]? = some ⟨goal.frame_id, start.x + 0.05 * (19 : ℕ) * (goal.x - start.x),
          start.y + 0.05 * (19 : ℕ) * (goal.y - start.y),
          M.normalize_angle (getYaw M (poseStampedMsgToTF (chooseStart P start))
            + 0.05 * (19 : ℕ) * M.normalize_angle (getYaw M (poseStampedMsgToTF goal)
                - getYaw M (poseStampedMsgToTF (chooseStart P start))))⟩) := by
  have hnone' : (selectManeuver M (P.withStart (chooseStart P start))
      (chooseStart P start) goal).curve_type = CurveType.NONE := by
    rw [selectManeuver_withStart]
    exact hnone
  have hacc : ∀ fuel, makePlan M fuel P start goal plan =
      (carrotLoop M (P.withStart (chooseStart P start)) goal start.x start.y
          (getYaw M (poseStampedMsgToTF (chooseStart P start)))
          (goal.x - start.x) (goal.y - start.y)
          (M.normalize_angle (getYaw M (poseStampedMsgToTF goal)
            - getYaw M (poseStampedMsgToTF (chooseStart P start))))
          fuel 0 0 []).map
        (fun pl => ⟨true, pl, (P.withStart (chooseStart P start))⟩) := by
    intro fuel
    rw [makePlan_accepted M fuel P start goal plan hinit hframe,
      if_neg (not_not.mpr hnone')]
  have h20 : (1 : ℚ) < carrotScaleNext^[20] 0 := by
    rw [carrotScale_twenty]
    norm_num
  refine ⟨?_, ?_, ?_⟩
  · obtain ⟨r, h⟩ := carrotLoop_terminates_zero M (P.withStart (chooseStart P start))
      goal start.x start.y (getYaw M (poseStampedMsgToTF (chooseStart P start)))
      (goal.x - start.x) (goal.y - start.y)
      (M.normalize_angle (getYaw M (poseStampedMsgToTF goal)
        - getYaw M (poseStampedMsgToTF (chooseStart P start)))) [] 22 le_rfl
    exact ⟨⟨true, r, P.withStart (chooseStart P start)⟩, by rw [hacc, h]; rfl⟩
  · intro fuel r h
    rw [hacc] at h
    obtain ⟨pl, hpl, hr⟩ := Option.map_eq_some'.mp h
    have := carrotLoop_length_le M _ goal _ _ _ _ _ _ fuel 20 0 0 [] pl h20 hpl
    rw [← hr]
    simpa using this
  · intro horacle fuel r h
    have hsamp := makePlan_carrot_samples M fuel P start goal plan r hinit hframe hnone' h
    rw [hacc] at h
    obtain ⟨pl, hpl, hr⟩ := Option.map_eq_some'.mp h
    obtain ⟨pl22, hpl22, hlen⟩ := carrotLoop_free_length M
      (P.withStart (chooseStart P start)) goal start.x start.y
      (getYaw M (poseStampedMsgToTF (chooseStart P start)))
      (goal.x - start.x) (goal.y - start.y)
      (M.normalize_angle (getYaw M (poseStampedMsgToTF goal)
        - getYaw M (poseStampedMsgToTF (chooseStart P start))))
      (fun x y th => by rw [footprintCost_withStart]; exact horacle x y th)
      19 22 0 0 [] (fun k hk => carrotScale_le_one k (by omega)) h20 (by omega)
    have hsame : pl = pl22 := carrotLoop_fuel_unique M _ goal _ _ _ _ _ _ fuel 22 _ _ _
      pl pl22 hpl hpl22
    have hlen20 : r.plan.length = 20 := by
      rw [← hr, hsame, hlen]
      rfl
    refine ⟨hlen20, ?_⟩
    have h19 : 19 < r.plan.length := by omega
    have hget : r.plan[19]? = some r.plan[19] := List.getElem?_eq_getElem h19
    rw [hget, hsamp 19 _ hget]

end CarrotCount

/-! ### The plan under two oracles -/

section Oracles

variable {α : Type} [LinearOrderedField α]

/-- A prefix of a list all of whose elements satisfy `p` is a prefix of the longest such
prefix `takeWhile p`. -/
theorem prefix_takeWhile_of_all {β : Type} (p : β → Bool) (l : List β) :
    ∀ l' : List β, l' <+: l → (∀ q ∈ l', p q = true) → l' <+: l.takeWhile p := by
  induction l with
  | nil =>
    intro l' hpre _
    rw [List.prefix_nil] at hpre
    rw [hpre]
    exact List.nil_prefix
  | cons a l ih =>
    intro l' hpre hall
    cases l' with
    | nil => exact List.nil_prefix
    | cons b l'' =>
      obtain ⟨hab, hpre'⟩ := List.cons_prefix_cons.mp hpre
      subst hab
      have hb : p b = true := hall b (List.mem_cons_self b l'')
      rw [List.takeWhile_cons_of_pos hb]
      exact List.cons_prefix_cons.mpr
        ⟨rfl, ih l'' hpre' (fun q hq => hall q (List.mem_cons_of_mem b hq))⟩

/-- The longest prefix with footprint costs that are not negative keeps a first pose whose
cost is not negative. -/
theorem takeWhile_cons_ok (P : Planner α) (q : PoseStamped α) (l : List (PoseStamped α))
    (h : 0 ≤ footprintCost P q.x q.y q.yaw) :
    (q :: l).takeWhile (fun q => decide (0 ≤ footprintCost P q.x q.y q.yaw))
      = q :: l.takeWhile (fun q => decide (0 ≤ footprintCost P q.x q.y q.yaw)) := by
  simp [List.takeWhile_cons, h]

/-- The longest prefix with footprint costs that are not negative is empty when the cost of
the first pose is negative. -/
theorem takeWhile_cons_blocked (P : Planner α) (q : PoseStamped α) (l : List (PoseStamped α))
    (h : footprintCost P q.x q.y q.yaw < 0) :
    (q :: l).takeWhile (fun q => decide (0 ≤ footprintCost P q.x q.y q.yaw)) = [] := by
  simp [List.takeWhile_cons, h]

/-- The next point of the reference trajectory depends on the planner through the step
size alone. -/
theorem samplerAdvance_congr (M : MathLib α) (P1 P2 : Planner α) (mv : Maneuver α)
    (st : SamplerState α) (hstep : P1.step_size_ = P2.step_size_) :
    samplerAdvance M P1 mv st = samplerAdvance M P2 mv st := by
  unfold samplerAdvance
  rw [hstep]

/-- An iteration of the sampling loop that finds a negative footprint cost is the last one
and leaves the plan as it is. -/
theorem samplerLoop_blocked (M : MathLib α) (P : Planner α) (goal : PoseStamped α)
    (mv : Maneuver α) (fuel : ℕ) (st : SamplerState α)
    (h : footprintCost P st.center_traj_point_tf.x st.center_traj_point_tf.y
      (getYaw M st.center_traj_point_tf) < 0) :
    ∃ r, samplerLoop M P goal mv (fuel + 1) st = some r ∧ r.plan = st.plan := by
  rcases samplerCheck_plan M P goal st with ⟨hp, hready, -⟩ | ⟨-, -, hc⟩
  · rw [samplerLoop_succ]
    cases hadv : samplerAdvance M P mv (samplerCheck M P goal st) with
    | none => exact ⟨_, rfl, hp⟩
    | some st2 =>
      obtain ⟨hp2, hr2⟩ := samplerAdvance_plan M P mv _ _ hadv
      dsimp only
      rw [if_pos (by rw [samplerCenter_traj_ready, hr2, hready])]
      exact ⟨_, rfl, by rw [samplerCenter_plan, hp2, hp]⟩
  · exact absurd h (not_lt.mpr hc)

/-- The plan of the sampling loop under two oracles, the second negative wherever the first
is: the poses appended under the second oracle are the longest prefix of the poses appended
under the first whose footprint costs under the second are not negative. -/
theorem samplerLoop_takeWhile (M : MathLib α) (PF PO : Planner α) (goal : PoseStamped α)
    (mv : Maneuver α) (hstep : PF.step_size_ = PO.step_size_)
    (hmono : ∀ x y th : α, footprintCost PF x y th < 0 → footprintCost PO x y th < 0)
    (fuel : ℕ) :
    ∀ st rF : SamplerState α, samplerLoop M PF goal mv fuel st = some rF →
      ∃ (rO : SamplerState α) (lF : List (PoseStamped α)),
        samplerLoop M PO goal mv fuel st = some rO ∧ rF.plan = st.plan ++ lF ∧
        rO.plan = st.plan ++
          lF.takeWhile (fun q => decide (0 ≤ footprintCost PO q.x q.y q.yaw)) := by
  induction fuel with
  | zero =>
    intro st rF h
    simp [samplerLoop] at h
  | succ fuel ih =>
    intro st rF hF
    by_cases hO : footprintCost PO st.center_traj_point_tf.x st.center_traj_point_tf.y
        (getYaw M st.center_traj_point_tf) < 0
    · obtain ⟨rO, hrO, hpO⟩ := samplerLoop_blocked M PO goal mv fuel st hO
      by_cases hFc : footprintCost PF st.center_traj_point_tf.x st.center_traj_point_tf.y
          (getYaw M st.center_traj_point_tf) < 0
      · obtain ⟨rF', hrF', hpF'⟩ := samplerLoop_blocked M PF goal mv fuel st hFc
        rw [hF] at hrF'
        cases hrF'
        exact ⟨rO, [], hrO, by rw [hpF', List.append_nil], by rw [hpO]; simp⟩
      · obtain ⟨-, hpos⟩ := samplerLoop_first M PF goal mv (fuel + 1) st rF hF
        obtain ⟨l, hl⟩ := hpos (not_lt.mp hFc)
        refine ⟨rO, _, hrO, hl, ?_⟩
        rw [hpO, takeWhile_cons_blocked PO _ l hO, List.append_nil]
    · have hOk := not_lt.mp hO
      have hFk : 0 ≤ footprintCost PF st.center_traj_point_tf.x st.center_traj_point_tf.y
          (getYaw M st.center_traj_point_tf) := by
        by_contra hneg
        exact hO (hmono _ _ _ (not_le.mp hneg))
      have hcheck : samplerCheck M PO goal st = samplerCheck M PF goal st := by
        rw [samplerCheck_ok M PO goal st hOk, samplerCheck_ok M PF goal st hFk]
      have hplan : (samplerCheck M PF goal st).plan = st.plan ++ [trajPoint M goal st] := by
        rw [samplerCheck_ok M PF goal st hFk]
        rfl
      have hok : 0 ≤ footprintCost PO (trajPoint M goal st).x (trajPoint M goal st).y
          (trajPoint M goal st).yaw := hOk
      rw [samplerLoop_succ] at hF
      rw [samplerLoop_succ, hcheck, samplerAdvance_congr M PO PF mv _ hstep.symm]
      cases hadv : samplerAdvance M PF mv (samplerCheck M PF goal st) with
      | none =>
        rw [hadv] at hF
        cases hF
        refine ⟨_, [trajPoint M goal st], rfl, hplan, ?_⟩
        rw [takeWhile_cons_ok PO _ [] hok, List.takeWhile_nil]
        exact hplan
      | some st2 =>
        rw [hadv] at hF
        dsimp only at hF ⊢
        obtain ⟨hp2, -⟩ := samplerAdvance_plan M PF mv _ _ hadv
        by_cases hready : (samplerCenter M mv st2).traj_ready = true
        · rw [if_pos hready] at hF
          rw [if_pos hready]
          cases hF
          refine ⟨_, [trajPoint M goal st], rfl, by rw [samplerCenter_plan, hp2, hplan], ?_⟩
          rw [takeWhile_cons_ok PO _ [] hok, List.takeWhile_nil, samplerCenter_plan, hp2,
            hplan]
        · rw [if_neg hready] at hF
          rw [if_neg hready]
          obtain ⟨rO, lF, hrO, hlF, hlO⟩ := ih _ rF hF
          rw [samplerCenter_plan, hp2, hplan] at hlF hlO
          refine ⟨rO, trajPoint M goal st :: lF, hrO, ?_, ?_⟩
          · rw [hlF, List.append_assoc, List.singleton_append]
          · rw [hlO, takeWhile_cons_ok PO _ lF hok, List.append_assoc,
              List.singleton_append]

/-- The plan of the carrot loop under two oracles, the second negative wherever the first
is: the poses appended under the second oracle are the longest prefix of the poses appended
under the first whose footprint costs under the second are not negative. -/
theorem carrotLoop_takeWhile (M : MathLib α) (PF PO : Planner α) (goal : PoseStamped α)
    (start_x start_y start_yaw diff_x diff_y diff_yaw : α)
    (hmono : ∀ x y th : α, footprintCost PF x y th < 0 → footprintCost PO x y th < 0)
    (fuel : ℕ) :
    ∀ (scale : α) (sb : ℚ) (plan rF : List (PoseStamped α)),
      carrotLoop M PF goal start_x start_y start_yaw diff_x diff_y diff_yaw fuel scale sb plan
        = some rF →
      ∃ rO lF : List (PoseStamped α),
        carrotLoop M PO goal start_x start_y start_yaw diff_x diff_y diff_yaw fuel scale sb plan
          = some rO ∧ rF = plan ++ lF ∧
        rO = plan ++ lF.takeWhile (fun q => decide (0 ≤ footprintCost PO q.x q.y q.yaw)) := by
  induction fuel with
  | zero =>
    intro scale sb plan rF h
    simp [carrotLoop] at h
  | succ fuel ih =>
    intro scale sb plan rF hF
    rw [carrotLoop_succ] at hF
    rw [carrotLoop_succ]
    by_cases h1 : 1 < sb
    · rw [if_pos h1] at hF
      rw [if_pos h1]
      cases hF
      exact ⟨_, [], rfl, by simp, by simp⟩
    · rw [if_neg h1] at hF
      rw [if_neg h1]
      by_cases hO : footprintCost PO (start_x + scale * diff_x) (start_y + scale * diff_y)
          (M.normalize_angle (start_yaw + scale * diff_yaw)) < 0
      · rw [if_pos hO]
        by_cases hFc : footprintCost PF (start_x + scale * diff_x) (start_y + scale * diff_y)
            (M.normalize_angle (start_yaw + scale * diff_yaw)) < 0
        · rw [if_pos hFc] at hF
          cases hF
          exact ⟨_, [], rfl, by simp, by simp⟩
        · rw [if_neg hFc] at hF
          obtain ⟨l, hl, -⟩ := carrotLoop_plan M PF goal _ _ _ _ _ _ fuel _ _ _ rF hF
          refine ⟨_, _ :: l, rfl, by rw [hl, List.append_assoc, List.singleton_append], ?_⟩
          rw [takeWhile_cons_blocked PO _ l hO, List.append_nil]
      · have hFc : ¬ footprintCost PF (start_x + scale * diff_x) (start_y + scale * diff_y)
            (M.normalize_angle (start_yaw + scale * diff_yaw)) < 0 := fun hneg =>
          hO (hmono _ _ _ hneg)
        rw [if_neg hFc] at hF
        rw [if_neg hO]
        obtain ⟨rO, lF, hrO, hlF, hlO⟩ := ih _ _ _ rF hF
        refine ⟨rO, _ :: lF, hrO, by rw [hlF, List.append_assoc, List.singleton_append], ?_⟩
        rw [hlO, takeWhile_cons_ok PO _ lF (not_lt.mp hO), List.append_assoc,
          List.singleton_append]

/-- Wherever the footprint cost under an oracle that never returns a negative cost is
negative, it is negative under every oracle. -/
theorem footprintCost_withWorldModel (P : Planner α) (W : α → α → α → List (Point α) → α)
    (hW : ∀ (x y th : α) (fp : List (Point α)), 0 ≤ W x y th fp) (x y th : α)
    (h : footprintCost (P.withWorldModel W) x y th < 0) : footprintCost P x y th < 0 := by
  unfold footprintCost Planner.withWorldModel at h
  unfold footprintCost
  dsimp only at h ⊢
  split_ifs at h ⊢ with h1 h2
  · exact h
  · exact h
  · exact absurd h (not_lt.mpr (hW _ _ _ _))

/-- The plan of an accepted call of `makePlan` is the longest prefix of the plan of the
call under an oracle that never returns a negative cost whose footprint costs are not
negative. -/
theorem makePlan_takeWhile (M : MathLib α) (fuel : ℕ) (P : Planner α)
    (W : α → α → α → List (Point α) → α) (start goal : PoseStamped α)
    (plan : List (PoseStamped α)) (rF : PlanResult α)
    (hinit : P.initialized_ = true) (hframe : goal.frame_id = P.global_frame)
    (hW : ∀ (x y th : α) (fp : List (Point α)), 0 ≤ W x y th fp)
    (hF : makePlan M fuel (P.withWorldModel W) start goal plan = some rF) :
    ∃ rO, makePlan M fuel P start goal plan = some rO ∧
      rO.plan = rF.plan.takeWhile (fun q => decide (0 ≤ footprintCost P q.x q.y q.yaw)) := by
  have hmono : ∀ x y th : α,
      footprintCost ((P.withWorldModel W).withStart (chooseStart P start)) x y th < 0 →
      footprintCost (P.withStart (chooseStart P start)) x y th < 0 := by
    intro x y th h
    rw [footprintCost_withStart] at h ⊢
    exact footprintCost_withWorldModel P W hW x y th h
  have hcost : ∀ x y th : α, footprintCost (P.withStart (chooseStart P start)) x y th
      = footprintCost P x y th := fun x y th => footprintCost_withStart P _ x y th
  rw [makePlan_accepted M fuel (P.withWorldModel W) start goal plan hinit hframe] at hF
  rw [makePlan_accepted M fuel P start goal plan hinit hframe]
  have hsel : selectManeuver M ((P.withWorldModel W).withStart
      (chooseStart (P.withWorldModel W) start)) (chooseStart (P.withWorldModel W) start) goal
      = selectManeuver M (P.withStart (chooseStart P start)) (chooseStart P start) goal := rfl
  have hch : chooseStart (P.withWorldModel W) start = chooseStart P start := rfl
  rw [hsel, hch] at hF
  split_ifs at hF ⊢ with hc
  · obtain ⟨stF, hstF, hrF⟩ := Option.map_eq_some'.mp hF
    obtain ⟨rO, lF, hrO, hlF, hlO⟩ := samplerLoop_takeWhile M
      ((P.withWorldModel W).withStart (chooseStart P start))
      (P.withStart (chooseStart P start)) goal _ rfl hmono fuel _ stF hstF
    refine ⟨⟨true, rO.plan, P.withStart (chooseStart P start)⟩, by rw [hrO]; rfl, ?_⟩
    rw [← hrF]
    have e1 : stF.plan = lF := by simpa [samplerInit] using hlF
    have e2 : rO.plan = lF.takeWhile
        (fun q => decide
          (0 ≤ footprintCost (P.withStart (chooseStart P start)) q.x q.y q.yaw)) := by
      simpa [samplerInit] using hlO
    simp only [hcost] at e2
    rw [e2, ← e1]
  · obtain ⟨plF, hplF, hrF⟩ := Option.map_eq_some'.mp hF
    obtain ⟨rO, lF, hrO, hlF, hlO⟩ := carrotLoop_takeWhile M
      ((P.withWorldModel W).withStart (chooseStart P start))
      (P.withStart (chooseStart P start)) goal _ _ _ _ _ _ hmono fuel _ _ _ plF hplF
    refine ⟨⟨true, rO, P.withStart (chooseStart P start)⟩, by rw [hrO]; rfl, ?_⟩
    rw [← hrF]
    have e1 : plF = lF := by simpa using hlF
    have e2 : rO = lF.takeWhile
        (fun q => decide
          (0 ≤ footprintCost (P.withStart (chooseStart P start)) q.x q.y q.yaw)) := by
      simpa using hlO
    simp only [hcost] at e2
    rw [e2, ← e1]

end Oracles

/-! ### The final check with the constant `M_PI` of the C header -/

/-- The solver without the third condition of the final check returns what the solver
returns whenever the steering offset is not negative for a goal that passes the side and
heading check. -/
theorem solver_third_check_of_offset {α : Type} [LinearOrderedField α] (M : MathLib α)
    (p : Pose α) (r : α)
    (hoff : ((0 < p.y ∧ 0 ≤ getYaw M p ∧ getYaw M p ≤ M.pi) ∨
        (p.y ≤ 0 ∧ -M.pi ≤ getYaw M p ∧ getYaw M p ≤ 0)) → 0 ≤ steeringOffset M p r) :
    computeCurveParametersTwoChecks M p r = computeCurveParameters M p r := by
  unfold steeringOffset signedRadius at hoff
  unfold computeCurveParametersTwoChecks computeCurveParameters
  simp only [bitOr_eq_or, gt_iff_lt, Bool.or_eq_true, decide_eq_true_eq]
  generalize getYaw M p = yaw at *
  generalize p.x - p.y / M.tan yaw = xi
  generalize M.sqrt ((p.x - xi) * (p.x - xi) + p.y * p.y) = D
  generalize M.tan ((M.pi - yaw) / 2) = t at *
  by_cases hx : xi < 0
  · simp [hx]
  · by_cases hy : 0 < p.y
    · by_cases h1 : yaw < 0 ∨ M.pi < yaw
      · simp [hx, hy, h1]
      · have h1' := h1
        rw [not_or, not_lt, not_lt] at h1'
        have ho := hoff (Or.inl ⟨hy, h1'.1, h1'.2⟩)
        rw [if_pos hy] at ho
        have hc : ¬ xi < xi - |r| / t := by linarith
        simp [hx, hy, h1, hc]
    · by_cases h1 : 0 < yaw ∨ yaw < -M.pi
      · simp [hx, hy, h1]
      · have h1' := h1
        rw [not_or, not_lt, not_lt] at h1'
        have ho := hoff (Or.inr ⟨not_lt.mp hy, h1'.2, h1'.1⟩)
        rw [if_neg hy] at ho
        have hc : ¬ xi < xi - -|r| / t := by linarith
        simp [hx, hy, h1, hc]

/-- The constant `M_PI` of the C header lies below pi, by more than `1e-16` and by less
than `1e-15`. -/
theorem headerPi_bounds :
    headerPiMath.pi + 1 / 10 ^ 16 < Real.pi ∧ Real.pi < headerPiMath.pi + 1 / 10 ^ 15 ∧
    0 < headerPiMath.pi := by
  have h1 := Real.pi_gt_d20
  have h2 := Real.pi_lt_d20
  have e : headerPiMath.pi = 884279719003555 / 281474976710656 := rfl
  rw [e]
  refine ⟨?_, ?_, by norm_num⟩
  · refine lt_trans ?_ h1
    norm_num
  · refine lt_trans h2 ?_
    norm_num

/-- With the constant `M_PI` of the C header the steering offset is not negative for a
goal on the left that passes the side and heading check, and for a goal not on the left
that passes it with a heading of at most `-1e-15`. -/
theorem solver_offset_nonneg_headerPi (p : Pose ℝ) (r : ℝ)
    (hreg : 0 < p.y ∨ getYaw headerPiMath p ≤ -(1 / 10 ^ 15))
    (hside : (0 < p.y ∧ 0 ≤ getYaw headerPiMath p ∧ getYaw headerPiMath p ≤ headerPiMath.pi) ∨
      (p.y ≤ 0 ∧ -headerPiMath.pi ≤ getYaw headerPiMath p ∧ getYaw headerPiMath p ≤ 0)) :
    0 ≤ steeringOffset headerPiMath p r := by
  obtain ⟨hlo, hhi, hpos⟩ := headerPi_bounds
  have htan : headerPiMath.tan = Real.tan := rfl
  unfold steeringOffset signedRadius
  rw [htan]
  generalize getYaw headerPiMath p = yaw at *
  generalize headerPiMath.pi = q at *
  rcases hside with ⟨hy, h0, h1⟩ | ⟨hy, h0, h1⟩
  · rw [if_pos hy]
    refine div_nonneg (abs_nonneg r) ?_
    exact Real.tan_nonneg_of_nonneg_of_le_pi_div_two (by linarith) (by linarith)
  · rw [if_neg (not_lt.mpr hy)]
    have hyaw : yaw ≤ -(1 / 10 ^ 15) := by
      rcases hreg with h | h
      · exact absurd h (not_lt.mpr hy)
      · exact h
    refine div_nonneg_of_nonpos (neg_nonpos.mpr (abs_nonneg r)) ?_
    have h := Real.tan_nonpos_of_nonpos_of_neg_pi_div_two_le
      (x := (q - yaw) / 2 - Real.pi) (by linarith) (by linarith)
    rwa [Real.tan_sub_pi] at h

/-- The reported yaw of a pose with the heading `-1e-16`. -/
theorem getYaw_headerPi_small (x y : ℝ) :
    getYaw headerPiMath ⟨x, y, -(1 / 10 ^ 16)⟩ = -(1 / 10 ^ 16) := by
  have h3 := Real.pi_gt_three
  exact wrapAngle_of_mem (by norm_num; linarith) (by norm_num; linarith)

/-- The solver without the third condition of the final check returns a curve type other
than `NONE` exactly when `x_i >= 0`, the side and heading check passes, and the two
distances are not negative; the curve type is then `RIGHT` exactly for a goal that is not
on the left. -/
theorem computeCurveParametersTwoChecks_spec {α : Type} [LinearOrderedField α]
    (M : MathLib α) (p : Pose α) (r : α) :
    ((computeCurveParametersTwoChecks M p r).curve_type ≠ CurveType.NONE ↔
      (0 ≤ xIntersection M p ∧
       ((0 < p.y ∧ 0 ≤ getYaw M p ∧ getYaw M p ≤ M.pi) ∨
        (p.y ≤ 0 ∧ -M.pi ≤ getYaw M p ∧ getYaw M p ≤ 0)) ∧
       (0 ≤ xIntersection M p - steeringOffset M p r ∧
        0 ≤ distToIntersection M p - steeringOffset M p r))) ∧
    ((computeCurveParametersTwoChecks M p r).curve_type ≠ CurveType.NONE →
      ((computeCurveParametersTwoChecks M p r).curve_type = CurveType.RIGHT_CENTER_POINT ↔
        ¬ 0 < p.y)) := by
  unfold computeCurveParametersTwoChecks steeringOffset distToIntersection signedRadius
    xIntersection
  simp only [bitOr_eq_or, gt_iff_lt, pow_two]
  generalize getYaw M p = yaw
  generalize p.x - p.y / M.tan yaw = xi
  generalize M.sqrt ((p.x - xi) * (p.x - xi) + p.y * p.y) = D
  generalize M.tan ((M.pi - yaw) / 2) = t
  by_cases hx : xi < 0
  · simp [hx, not_le.mpr hx]
  · by_cases hy : 0 < p.y
    · by_cases h1 : yaw < 0
      · simp [hx, hy, h1, not_le.mpr h1]
      by_cases h2 : M.pi < yaw
      · simp [hx, hy, h1, h2, not_le.mpr h2]
      by_cases hb : xi - |r| / t < 0
      · simp [hx, hy, h1, h2, hb, not_le.mpr hb]
      by_cases ha : D - |r| / t < 0
      · simp [hx, hy, h1, h2, hb, ha, not_le.mpr ha]
      · simp [hx, hy, h1, h2, hb, ha, not_lt.mp hx, not_lt.mp h1, not_lt.mp h2, not_lt.mp hb,
          not_lt.mp ha]
    · by_cases h1 : 0 < yaw
      · simp [hx, hy, h1, not_le.mpr h1]
      by_cases h2 : yaw < -M.pi
      · simp [hx, hy, h1, h2, not_le.mpr h2]
      by_cases hb : xi - -|r| / t < 0
      · simp [hx, hy, h1, h2, hb, not_le.mpr hb]
      by_cases ha : D - -|r| / t < 0
      · simp [hx, hy, h1, h2, hb, ha, not_le.mpr ha]
      · simp [hx, hy, h1, h2, hb, ha, not_lt.mp hx, not_lt.mp h1, not_lt.mp h2, not_lt.mp hb,
          not_lt.mp ha, not_lt.mp hy]

/-- With the constant `M_PI` of the C header, on the goal `(0.3, -1e-17, -1e-16)` with the
radius `0.8` the side and heading check passes and the steering offset is negative, so the
solver returns `NONE`, and the solver without the third condition of the final check
returns `RIGHT`. -/
theorem solver_headerPi_near_zero :
    ((-(1 / 10 ^ 17) : ℝ) ≤ 0 ∧
      -headerPiMath.pi ≤ getYaw headerPiMath ⟨3 / 10, -(1 / 10 ^ 17), -(1 / 10 ^ 16)⟩ ∧
      getYaw headerPiMath ⟨3 / 10, -(1 / 10 ^ 17), -(1 / 10 ^ 16)⟩ ≤ 0) ∧
    steeringOffset headerPiMath ⟨3 / 10, -(1 / 10 ^ 17), -(1 / 10 ^ 16)⟩ (4 / 5) < 0 ∧
    (computeCurveParameters headerPiMath ⟨3 / 10, -(1 / 10 ^ 17), -(1 / 10 ^ 16)⟩
      (4 / 5)).curve_type = CurveType.NONE ∧
    (computeCurveParametersTwoChecks headerPiMath ⟨3 / 10, -(1 / 10 ^ 17), -(1 / 10 ^ 16)⟩
      (4 / 5)).curve_type = CurveType.RIGHT_CENTER_POINT := by
  obtain ⟨hlo, hhi, hpos⟩ := headerPi_bounds
  have hyaw := getYaw_headerPi_small (3 / 10) (-(1 / 10 ^ 17))
  have htan : headerPiMath.tan = Real.tan := rfl
  have h3 := Real.pi_gt_three
  have ht1 : (1 / 10 ^ 16 : ℝ) < Real.tan (1 / 10 ^ 16) :=
    Real.lt_tan (by norm_num) (by norm_num; linarith)
  have ht1' : Real.tan (-(1 / 10 ^ 16)) < -(1 / 10 ^ 16) := by
    rw [Real.tan_neg]
    linarith
  have ht2 : 0 < Real.tan ((headerPiMath.pi - -(1 / 10 ^ 16)) / 2) :=
    Real.tan_pos_of_pos_of_lt_pi_div_two (by linarith) (by linarith)
  have hside : (-(1 / 10 ^ 17) : ℝ) ≤ 0 ∧
      -headerPiMath.pi ≤ getYaw headerPiMath ⟨3 / 10, -(1 / 10 ^ 17), -(1 / 10 ^ 16)⟩ ∧
      getYaw headerPiMath ⟨3 / 10, -(1 / 10 ^ 17), -(1 / 10 ^ 16)⟩ ≤ 0 := by
    rw [hyaw]
    refine ⟨by norm_num, ?_, by norm_num⟩
    have : (1 / 10 ^ 16 : ℝ) ≤ 1 := by norm_num
    linarith
  have hoff : steeringOffset headerPiMath ⟨3 / 10, -(1 / 10 ^ 17), -(1 / 10 ^ 16)⟩ (4 / 5)
      < 0 := by
    unfold steeringOffset signedRadius
    rw [hyaw, htan]
    simp only
    rw [if_neg (by norm_num)]
    exact div_neg_of_neg_of_pos (by norm_num) ht2
  have hxi : (1 / 5 : ℝ)
      < xIntersection headerPiMath ⟨3 / 10, -(1 / 10 ^ 17), -(1 / 10 ^ 16)⟩ := by
    unfold xIntersection
    rw [hyaw, htan]
    simp only
    have hneg : Real.tan (-(1 / 10 ^ 16)) < 0 := by linarith
    have : -(1 / 10 ^ 17 : ℝ) / Real.tan (-(1 / 10 ^ 16)) < 1 / 10 := by
      rw [div_lt_iff_of_neg hneg]
      nlinarith
    linarith
  have hD : 0 ≤ distToIntersection headerPiMath ⟨3 / 10, -(1 / 10 ^ 17), -(1 / 10 ^ 16)⟩ :=
    Real.sqrt_nonneg _
  refine ⟨hside, hoff, ?_, ?_⟩
  · by_contra hne
    obtain ⟨-, -, -, -, hc⟩ := (computeCurveParameters_spec headerPiMath _ _).1.mp hne
    linarith
  · obtain ⟨hiff, htype⟩ := computeCurveParametersTwoChecks_spec headerPiMath
      ⟨3 / 10, -(1 / 10 ^ 17), -(1 / 10 ^ 16)⟩ (4 / 5)
    have hne := hiff.mpr ⟨by linarith, Or.inr hside, by linarith, by linarith⟩
    exact (htype hne).mpr (by norm_num)

/-! ### The heading of the goal `(2, 1, pi / 2)` seen from the origin -/

/-- On a planner without a valid last goal, the goal `(2, 1, pi / 2)` seen from the start
`(0, 0, 0)` has the heading `pi / 2`, which is no multiple of `pi`. -/
theorem scenario1_heading (P : Planner ℝ) (hvalid : P.valid_last_goal_ = false)
    (fs fg : String) (k : ℤ) :
    getYaw realMath (goalInStartFrame realMath (chooseStart P ⟨fs, 0, 0, 0⟩)
      ⟨fg, 2, 1, Real.pi / 2⟩) ≠ k * realMath.pi := by
  rw [chooseStart_of_invalid P _ hvalid, goalInStartFrame_scenario1, getYaw_half_pi]
  exact half_pi_not_multiple k

/-! ### The solver with the special values of IEEE arithmetic -/

section IEEE

variable {α : Type} [LinearOrderedField α]

/-- Where both quotients of the solver are the quotients of the field, the solver with the
special values of IEEE arithmetic computes what `computeCurveParameters` computes. -/
theorem computeCurveParametersIEEE_of_fin (M : MathLib α) (p : Pose α) (r : α)
    (h1 : (DoubleValue.fin p.y).div (DoubleValue.tan M (getYaw M p))
      = DoubleValue.fin (p.y / M.tan (getYaw M p)))
    (h2 : ∀ R : α, (DoubleValue.fin R).div (DoubleValue.tan M ((M.pi - getYaw M p) / 2))
      = DoubleValue.fin (R / M.tan ((M.pi - getYaw M p) / 2))) :
    computeCurveParametersIEEE M p r = (computeCurveParameters M p r).toIEEE := by
  unfold computeCurveParametersIEEE computeCurveParameters CurveParameters.toIEEE
  simp only [h1, h2, DoubleValue.sub, DoubleValue.neg,
    DoubleValue.add, DoubleValue.mul, DoubleValue.lt, DoubleValue.sqrt, bitOr_eq_or,
    gt_iff_lt, Bool.or_eq_true, decide_eq_true_eq, ← sub_eq_add_neg]
  generalize getYaw M p = yaw
  generalize p.x - p.y / M.tan yaw = xi
  have hsq : ¬ (p.x - xi) * (p.x - xi) + p.y * p.y < 0 :=
    not_lt.mpr (add_nonneg (mul_self_nonneg _) (mul_self_nonneg _))
  simp only [if_neg hsq]
  generalize M.sqrt ((p.x - xi) * (p.x - xi) + p.y * p.y) = D
  generalize M.tan ((M.pi - yaw) / 2) = t
  by_cases hx : xi < 0
  · simp [hx]
  · by_cases hy : 0 < p.y
    · by_cases hs : yaw < 0 ∨ M.pi < yaw
      · simp [hx, hy, hs]
      · simp [hx, hy, hs, DoubleValue.lt, DoubleValue.add, ← sub_eq_add_neg]
        split_ifs <;> rfl
    · by_cases hs : 0 < yaw ∨ yaw < -M.pi
      · simp [hx, hy, hs]
      · simp [hx, hy, hs, DoubleValue.lt, DoubleValue.add, ← sub_eq_add_neg]
        split_ifs <;> rfl

/-- A goal on the axis of the start with the heading `0`, in front of the start or behind
it: the source computes `x_i` as `x - 0 / 0`, a NaN, for which every comparison is false,
and returns `RIGHT` with NaN distances. -/
theorem computeCurveParametersIEEE_on_axis (M : MathLib α) (p : Pose α) (r : α)
    (hy : p.y = 0) (hyaw : getYaw M p = 0) (hcos : M.cos 0 ≠ 0) (htan : M.tan 0 = 0)
    (hpi : 0 ≤ M.pi) :
    computeCurveParametersIEEE M p r
      = ⟨CurveType.RIGHT_CENTER_POINT, DoubleValue.nan, DoubleValue.nan, -|r|⟩ := by
  unfold computeCurveParametersIEEE
  have h0 : ¬ (0 : α) < -M.pi := by linarith
  have hx : (DoubleValue.fin p.x).sub ((DoubleValue.fin (0 : α)).div (DoubleValue.tan M 0))
      = DoubleValue.nan := by
    simp [DoubleValue.tan, hcos, htan, DoubleValue.div, DoubleValue.sub, DoubleValue.neg,
      DoubleValue.add]
  simp only [hy, hyaw, hx, bitOr_eq_or]
  simp [DoubleValue.sub, DoubleValue.neg, DoubleValue.add, DoubleValue.lt, DoubleValue.mul,
    DoubleValue.sqrt, h0]

/-- A goal on the right of the axis of the start with the heading `0`: the source computes
`x_i` as `x - y / 0 = +inf`, and returns `RIGHT` with infinite distances. -/
theorem computeCurveParametersIEEE_parallel_right (M : MathLib α) (p : Pose α) (r : α)
    (hy : p.y < 0) (hyaw : getYaw M p = 0) (hcos : M.cos 0 ≠ 0) (htan : M.tan 0 = 0)
    (hpi : 0 ≤ M.pi)
    (ht : M.cos (M.pi / 2) = 0 ∨ M.tan (M.pi / 2) ≠ 0) :
    computeCurveParametersIEEE M p r
      = ⟨CurveType.RIGHT_CENTER_POINT, DoubleValue.posInf, DoubleValue.posInf, -|r|⟩ := by
  unfold computeCurveParametersIEEE
  have hy2 : ¬ 0 < p.y := by linarith
  have h0 : ¬ (0 : α) < -M.pi := by linarith
  have hx : (DoubleValue.fin p.x).sub ((DoubleValue.fin p.y).div (DoubleValue.tan M 0))
      = DoubleValue.posInf := by
    simp [DoubleValue.tan, hcos, htan, DoubleValue.div, DoubleValue.sub, DoubleValue.neg,
      DoubleValue.add, hy2, hy]
  have hoff : ∃ c : α, (DoubleValue.fin (-|r|)).div (DoubleValue.tan M (M.pi / 2))
      = DoubleValue.fin c := by
    unfold DoubleValue.tan
    by_cases hc : M.cos (M.pi / 2) = 0
    · rw [if_pos hc]
      split_ifs <;> exact ⟨0, rfl⟩
    · rw [if_neg hc]
      have ht' : M.tan (M.pi / 2) ≠ 0 := ht.resolve_left hc
      exact ⟨-|r| / M.tan (M.pi / 2), by simp only [DoubleValue.div, if_neg ht']⟩
  obtain ⟨c, hc⟩ := hoff
  simp only [hyaw, hx, bitOr_eq_or, if_neg hy2]
  simp [DoubleValue.sub, DoubleValue.neg, DoubleValue.add, DoubleValue.lt, DoubleValue.mul,
    DoubleValue.sqrt, DoubleValue.sign, h0, hc]

/-- In exact arithmetic, for a goal whose heading is no multiple of `pi`, the solver with
the special values of IEEE arithmetic computes what `computeCurveParameters` computes: no
quotient has the divisor zero, and a number over the tangent at a pole is zero in either. -/
theorem computeCurveParametersIEEE_realMath (p : Pose ℝ) (r : ℝ)
    (hyaw : ∀ k : ℤ, getYaw realMath p ≠ k * Real.pi) :
    computeCurveParametersIEEE realMath p r = (computeCurveParameters realMath p r).toIEEE := by
  have hmem := wrapAngle_mem Real.pi_pos p.yaw
  have hy : getYaw realMath p = wrapAngle Real.pi p.yaw := rfl
  have hs : Real.sin (getYaw realMath p) ≠ 0 := by
    intro h
    obtain ⟨n, hn⟩ := Real.sin_eq_zero_iff.mp h
    exact hyaw n hn.symm
  have hpi := Real.pi_pos
  obtain ⟨h0, hpi1, hnpi⟩ := not_multiple_pi hyaw
  rw [hy] at hs h0 hpi1 hnpi
  apply computeCurveParametersIEEE_of_fin
  · rw [hy]
    generalize wrapAngle Real.pi p.yaw = yaw at *
    unfold DoubleValue.tan
    show (DoubleValue.fin p.y).div
      (if Real.cos yaw = 0 then
        if 0 < Real.sin yaw then DoubleValue.posInf else DoubleValue.negInf
      else DoubleValue.fin (Real.tan yaw)) = DoubleValue.fin (p.y / Real.tan yaw)
    by_cases hc : Real.cos yaw = 0
    · rw [if_pos hc]
      have ht : Real.tan yaw = 0 := by rw [Real.tan_eq_sin_div_cos, hc, div_zero]
      rw [ht, div_zero]
      split_ifs <;> rfl
    · rw [if_neg hc]
      have ht : Real.tan yaw ≠ 0 := by
        rw [Real.tan_eq_sin_div_cos]
        exact div_ne_zero hs hc
      simp [DoubleValue.div, ht]
  · intro R
    rw [hy]
    generalize wrapAngle Real.pi p.yaw = yaw at *
    unfold DoubleValue.tan
    show (DoubleValue.fin R).div
      (if Real.cos ((Real.pi - yaw) / 2) = 0 then
        if 0 < Real.sin ((Real.pi - yaw) / 2) then DoubleValue.posInf else DoubleValue.negInf
      else DoubleValue.fin (Real.tan ((Real.pi - yaw) / 2)))
      = DoubleValue.fin (R / Real.tan ((Real.pi - yaw) / 2))
    have hrange : 0 < (Real.pi - yaw) / 2 ∧ (Real.pi - yaw) / 2 < Real.pi := by
      constructor
      · have : yaw < Real.pi := lt_of_le_of_ne hmem.2 hpi1
        linarith
      · linarith [hmem.1]
    have hne : (Real.pi - yaw) / 2 ≠ Real.pi / 2 := by
      intro h
      apply h0
      linarith
    have hsin : 0 < Real.sin ((Real.pi - yaw) / 2) :=
      Real.sin_pos_of_pos_of_lt_pi hrange.1 hrange.2
    have hcos : Real.cos ((Real.pi - yaw) / 2) ≠ 0 := by
      intro h
      rcases lt_or_gt_of_ne hne with hlt | hgt
      · have := Real.cos_pos_of_mem_Ioo (x := (Real.pi - yaw) / 2) ⟨by linarith, hlt⟩
        linarith
      · have := Real.cos_neg_of_pi_div_two_lt_of_lt (x := (Real.pi - yaw) / 2) hgt
          (by linarith)
        linarith
    rw [if_neg hcos]
    have ht : Real.tan ((Real.pi - yaw) / 2) ≠ 0 := by
      rw [Real.tan_eq_sin_div_cos]
      exact div_ne_zero hsin.ne' hcos
    simp [DoubleValue.div, ht]

/-- In exact arithmetic, for a goal whose heading is no multiple of `pi`, the solver with
the special values of IEEE arithmetic decides as the conditions on `x_i`, `D`, `R` and
`offset` say, and a result other than `NONE` carries the distances `x_i - offset` and
`D - offset` and the signed radius `R`. -/
theorem computeCurveParametersIEEE_spec (p : Pose ℝ) (r : ℝ)
    (hyaw : ∀ k : ℤ, getYaw realMath p ≠ k * Real.pi) :
    ((computeCurveParametersIEEE realMath p r).curve_type ≠ CurveType.NONE ↔
      (0 ≤ xIntersection realMath p ∧
       ((0 < p.y ∧ 0 ≤ getYaw realMath p ∧ getYaw realMath p ≤ Real.pi) ∨
        (p.y ≤ 0 ∧ -Real.pi ≤ getYaw realMath p ∧ getYaw realMath p ≤ 0)) ∧
       (0 ≤ xIntersection realMath p - steeringOffset realMath p r ∧
        0 ≤ distToIntersection realMath p - steeringOffset realMath p r ∧
        xIntersection realMath p - steeringOffset realMath p r ≤ xIntersection realMath p))) ∧
    ((computeCurveParametersIEEE realMath p r).curve_type ≠ CurveType.NONE →
      ((computeCurveParametersIEEE realMath p r).curve_type = CurveType.LEFT_CENTER_POINT
        ↔ 0 < p.y) ∧
      (computeCurveParametersIEEE realMath p r).dist_before_steering
        = DoubleValue.fin (xIntersection realMath p - steeringOffset realMath p r) ∧
      (computeCurveParametersIEEE realMath p r).dist_after_steering
        = DoubleValue.fin (distToIntersection realMath p - steeringOffset realMath p r) ∧
      (computeCurveParametersIEEE realMath p r).signed_turning_radius = signedRadius p r) := by
  rw [computeCurveParametersIEEE_realMath p r hyaw]
  obtain ⟨hiff, hout⟩ := computeCurveParameters_spec realMath p r
  refine ⟨hiff, fun hne => ?_⟩
  obtain ⟨hl, -, hb, ha, hR⟩ := hout hne
  exact ⟨hl, congrArg DoubleValue.fin hb, congrArg DoubleValue.fin ha, hR⟩

/-- The solver of the source on the goal `(-1, 0, 0)` behind the start, radius `0.8`. -/
theorem solverIEEE_goal_behind :
    computeCurveParametersIEEE realMath ⟨-1, 0, 0⟩ (4 / 5)
      = ⟨CurveType.RIGHT_CENTER_POINT, DoubleValue.nan, DoubleValue.nan, -(4 / 5)⟩ := by
  have h := computeCurveParametersIEEE_on_axis realMath ⟨-1, 0, 0⟩ (4 / 5) rfl
    (getYaw_zero_realMath (-1) 0)
    (by show Real.cos 0 ≠ 0; rw [Real.cos_zero]; exact one_ne_zero)
    (by show Real.tan 0 = 0; exact Real.tan_zero)
    (by show (0 : ℝ) ≤ Real.pi; exact Real.pi_pos.le)
  rw [h, abs_of_pos (by norm_num : (0 : ℝ) < 4 / 5)]

/-- The intersection `x_i` that the source computes for the goal `(-1, 0, 0)`: a NaN. -/
theorem xIntersectionIEEE_goal_behind :
    (DoubleValue.fin (-1 : ℝ)).sub
        ((DoubleValue.fin 0).div (DoubleValue.tan realMath (getYaw realMath ⟨-1, 0, 0⟩)))
      = DoubleValue.nan := by
  rw [getYaw_zero_realMath]
  have hc : realMath.cos 0 ≠ 0 := by
    show Real.cos 0 ≠ 0
    rw [Real.cos_zero]
    exact one_ne_zero
  have ht : realMath.tan 0 = 0 := Real.tan_zero
  simp [DoubleValue.tan, hc, ht, DoubleValue.div, DoubleValue.sub, DoubleValue.neg,
    DoubleValue.add]

/-- The solver of the source on the goal `(2, -1, 0)`, on the right of the start and
parallel to it, radius `0.8`. -/
theorem solverIEEE_parallel_goal :
    computeCurveParametersIEEE realMath ⟨2, -1, 0⟩ (4 / 5)
      = ⟨CurveType.RIGHT_CENTER_POINT, DoubleValue.posInf, DoubleValue.posInf, -(4 / 5)⟩ := by
  have h := computeCurveParametersIEEE_parallel_right realMath ⟨2, -1, 0⟩ (4 / 5)
    (by show (-1 : ℝ) < 0; norm_num)
    (getYaw_zero_realMath 2 (-1))
    (by show Real.cos 0 ≠ 0; rw [Real.cos_zero]; exact one_ne_zero)
    (by show Real.tan 0 = 0; exact Real.tan_zero)
    (by show (0 : ℝ) ≤ Real.pi; exact Real.pi_pos.le)
    (Or.inl (by show Real.cos (Real.pi / 2) = 0; exact Real.cos_pi_div_two))
  rw [h, abs_of_pos (by norm_num : (0 : ℝ) < 4 / 5)]

/-- The goal `(2, -1, 0)` seen from the start `(0, 0, 0)`. -/
theorem goalInStartFrame_parallel_goal (fs fg : String) :
    goalInStartFrame realMath ⟨fs, 0, 0, 0⟩ ⟨fg, 2, -1, 0⟩ = ⟨2, -1, 0⟩ := by
  have h0 : wrapAngle Real.pi 0 = 0 := normalize_zero_realMath
  simp [goalInStartFrame, rotate2D, translate2D, poseStampedMsgToTF, getYaw, realMath, h0]

/-- The goal `(2, -1, 0)` re-framed about a reference point, seen from the reference point
at the start `(0, 0, 0)`: the two headings are equal, so the re-framed goal is the goal. -/
theorem refpointGoal_parallel_goal (fs fg : String) (q : Pose ℝ) (hq : q.yaw = 0) :
    refpointGoalInRefstartFrame realMath ⟨fs, 0, 0, 0⟩ ⟨fg, 2, -1, 0⟩ q = ⟨2, -1, 0⟩ := by
  have h0 : wrapAngle Real.pi 0 = 0 := normalize_zero_realMath
  obtain ⟨qx, qy, qyaw⟩ := q
  simp only at hq
  subst hq
  simp [refpointGoalInRefstartFrame, rotate2D, translate2D, poseStampedMsgToTF, getYaw,
    realMath, h0]

end IEEE

/-! ## Claims -/

/-- C1 (the code departs from the claim). For the goal `(-1, 0, 0)`, straight behind the
start with the heading of the start, and the radius `0.8`, the source computes
`x_i = -1 - 0 / tan 0`, a NaN: condition (1) of the claim, `x_i >= 0`, does not hold, but
every comparison with a NaN is false, so neither the test `x_i < 0` nor the final check
rejects the goal, and the solver returns `RIGHT` with NaN distances where the claim has
`NONE`. -/
theorem computeCurveParameters_goal_behind_is_right_turn :
    (DoubleValue.fin (-1 : ℝ)).sub
        ((DoubleValue.fin 0).div (DoubleValue.tan realMath (getYaw realMath ⟨-1, 0, 0⟩)))
      = DoubleValue.nan ∧
    computeCurveParametersIEEE realMath ⟨-1, 0, 0⟩ (4 / 5)
      = ⟨CurveType.RIGHT_CENTER_POINT, DoubleValue.nan, DoubleValue.nan, -(4 / 5)⟩ :=
  ⟨xIntersectionIEEE_goal_behind, solverIEEE_goal_behind⟩

/-- C2. Geometric soundness of the solver in exact arithmetic: when the goal heading is
no multiple of `pi` and the solver returns a curve type other than `NONE`, the path
"straight `dist_before` along `+x`, arc of signed radius `R` through the angle `yaw`,
straight `dist_after` along the heading `yaw`" ends at the goal position. -/
theorem computeCurveParameters_reaches_goal (p : Pose ℝ) (r : ℝ)
    (hyaw : ∀ k : ℤ, getYaw realMath p ≠ k * Real.pi)
    (hne : (computeCurveParameters realMath p r).curve_type ≠ CurveType.NONE) :
    (computeCurveParameters realMath p r).dist_before_steering
        + (computeCurveParameters realMath p r).signed_turning_radius
            * Real.sin (getYaw realMath p)
        + (computeCurveParameters realMath p r).dist_after_steering
            * Real.cos (getYaw realMath p) = p.x ∧
    (computeCurveParameters realMath p r).signed_turning_radius
          * (1 - Real.cos (getYaw realMath p))
        + (computeCurveParameters realMath p r).dist_after_steering
            * Real.sin (getYaw realMath p) = p.y := by
  obtain ⟨hs, hc, hxi, hD, hoff⟩ := solver_quantities_real p r hyaw hne
  obtain ⟨-, -, hb, ha, hR⟩ := (computeCurveParameters_spec realMath p r).2 hne
  rw [hb, ha, hR, hxi, hD, hoff]
  generalize signedRadius p r = R
  generalize getYaw realMath p = yaw at *
  have h2 : yaw = 2 * (yaw / 2) := by ring
  have hsin : Real.sin yaw = 2 * Real.sin (yaw / 2) * Real.cos (yaw / 2) := by
    rw [← Real.sin_two_mul, ← h2]
  have hcos : Real.cos yaw = 2 * Real.cos (yaw / 2) ^ 2 - 1 := by
    rw [← Real.cos_two_mul, ← h2]
  have hsq := Real.sin_sq_add_cos_sq (yaw / 2)
  rw [hsin] at hs
  rw [hsin, hcos]
  have hsh : Real.sin (yaw / 2) ≠ 0 := fun h => hs (by rw [h]; ring)
  generalize Real.sin (yaw / 2) = sh at *
  generalize Real.cos (yaw / 2) = ch at *
  constructor
  · field_simp
    ring
  · field_simp
    linear_combination (-4 * R * sh * ch ^ 2) * hsq

/-- Witness for C2: the goal `(2, 1, pi / 2)` with radius `0.8` gives `LEFT` with
`dist_before = 1.2`, `dist_after = 0.2`, `R = 0.8`, and that path ends at `(2, 1)`. -/
theorem computeCurveParameters_reaches_goal_witness :
    computeCurveParameters realMath ⟨2, 1, Real.pi / 2⟩ (4 / 5)
      = ⟨CurveType.LEFT_CENTER_POINT, 6 / 5, 1 / 5, 4 / 5⟩ ∧
    ((6 / 5 : ℝ) + 4 / 5 * Real.sin (Real.pi / 2) + 1 / 5 * Real.cos (Real.pi / 2) = 2 ∧
     (4 / 5 : ℝ) * (1 - Real.cos (Real.pi / 2)) + 1 / 5 * Real.sin (Real.pi / 2) = 1) := by
  refine ⟨solver_scenario1, ?_⟩
  have h := computeCurveParameters_reaches_goal ⟨2, 1, Real.pi / 2⟩ (4 / 5)
    (by rw [getYaw_half_pi]; exact half_pi_not_multiple)
    (by rw [solver_scenario1]; decide)
  rw [solver_scenario1, getYaw_half_pi] at h
  exact h

/-- C3 (the code departs from the claim). On the goal `(1, 0, -pi / 2)` with radius `0.8`
the solver returns `NONE` while its outputs are `dist_before = 0.2`, `dist_after = -0.8`
and signed radius `-0.8`, not the initial values `-1`, `-1`, `0`. -/
theorem computeCurveParameters_none_outputs_not_reset :
    computeCurveParameters realMath ⟨1, 0, -(Real.pi / 2)⟩ (4 / 5)
      = ⟨CurveType.NONE, 1 / 5, -(4 / 5), -(4 / 5)⟩ :=
  solver_late_none

/-- C4, counterexample. With radius `0` the goal `(1, 0, -pi / 4)` on the start axis gives
`RIGHT`, and its mirror image `(1, -0, pi / 4)` gives `NONE`, not `LEFT`. -/
theorem computeCurveParameters_mirror_fails_on_axis :
    (computeCurveParameters realMath ⟨1, 0, -(Real.pi / 4)⟩ 0).curve_type
      = CurveType.RIGHT_CENTER_POINT ∧
    (computeCurveParameters realMath ⟨1, -0, -(-(Real.pi / 4))⟩ 0).curve_type
      = CurveType.NONE ∧
    (computeCurveParameters realMath ⟨1, -0, -(-(Real.pi / 4))⟩ 0).curve_type
      ≠ (computeCurveParameters realMath ⟨1, 0, -(Real.pi / 4)⟩ 0).curve_type.mirror := by
  obtain ⟨h1, h2⟩ := solver_axis_goal
  refine ⟨h1, h2, ?_⟩
  rw [h1, h2]
  decide

/-- C4, amended. Mirror symmetry of the solver in exact arithmetic for a goal off the start
axis (`y ≠ 0`) whose heading is no multiple of `pi` (so that no quotient of the solver has
the divisor zero): on a pose `q` with the position `(x, -y)` and the heading `-yaw` the
solver returns the curve type of `(x, y, yaw)` with `LEFT` and `RIGHT` exchanged, the same
two distances and the negated signed radius. -/
theorem computeCurveParameters_mirror (p q : Pose ℝ) (r : ℝ) (hx : q.x = p.x)
    (hy : q.y = -p.y) (hyaw : getYaw realMath q = -getYaw realMath p) (hy0 : p.y ≠ 0) :
    (∀ k : ℤ, getYaw realMath p ≠ k * Real.pi) →
    (computeCurveParameters realMath q r).curve_type
      = (computeCurveParameters realMath p r).curve_type.mirror ∧
    (computeCurveParameters realMath q r).dist_before_steering
      = (computeCurveParameters realMath p r).dist_before_steering ∧
    (computeCurveParameters realMath q r).dist_after_steering
      = (computeCurveParameters realMath p r).dist_after_steering ∧
    (computeCurveParameters realMath q r).signed_turning_radius
      = -(computeCurveParameters realMath p r).signed_turning_radius := by
  intro _
  rw [solver_mirror p q r hx hy hyaw hy0]
  exact ⟨rfl, rfl, rfl, rfl⟩

/-- Witness for C4 as amended: the goal `(2, 1, pi / 2)` and its mirror image
`(2, -1, -pi / 2)` with radius `0.8`. -/
theorem computeCurveParameters_mirror_witness :
    (computeCurveParameters realMath ⟨2, -1, -(Real.pi / 2)⟩ (4 / 5)).curve_type
      = CurveType.RIGHT_CENTER_POINT ∧
    (computeCurveParameters realMath ⟨2, -1, -(Real.pi / 2)⟩ (4 / 5)).dist_before_steering
      = 6 / 5 ∧
    (computeCurveParameters realMath ⟨2, -1, -(Real.pi / 2)⟩ (4 / 5)).dist_after_steering
      = 1 / 5 ∧
    (computeCurveParameters realMath ⟨2, -1, -(Real.pi / 2)⟩ (4 / 5)).signed_turning_radius
      = -(4 / 5) := by
  have h := computeCurveParameters_mirror ⟨2, 1, Real.pi / 2⟩ ⟨2, -1, -(Real.pi / 2)⟩ (4 / 5)
    rfl rfl (by rw [getYaw_neg_half_pi, getYaw_half_pi]) (by norm_num)
    (fun k => by rw [getYaw_half_pi]; exact half_pi_not_multiple k)
  rw [solver_scenario1] at h
  exact h

/-- C5. Feasibility boundary in exact arithmetic: for a goal whose heading is no multiple
of `pi` and whose tangent-line intersection `x_i` is exactly `0`, the solver returns
`NONE` for every positive turning radius. -/
theorem computeCurveParameters_boundary_none (p : Pose ℝ) (r : ℝ) (hr : 0 < r)
    (hyaw : ∀ k : ℤ, getYaw realMath p ≠ k * Real.pi) (hxi : xIntersection realMath p = 0) :
    (computeCurveParameters realMath p r).curve_type = CurveType.NONE :=
  solver_boundary p r hr hyaw hxi

/-- Witness for C5: the goal `(1, 1, pi / 4)` has `x_i = 1 - 1 / tan (pi / 4) = 0`. -/
theorem computeCurveParameters_boundary_none_witness :
    xIntersection realMath ⟨1, 1, Real.pi / 4⟩ = 0 ∧
    (computeCurveParameters realMath ⟨1, 1, Real.pi / 4⟩ 1).curve_type = CurveType.NONE := by
  have hxi : xIntersection realMath ⟨1, 1, Real.pi / 4⟩ = 0 := by
    rw [xIntersection, getYaw_quarter_pi]
    simp [realMath]
  exact ⟨hxi, computeCurveParameters_boundary_none ⟨1, 1, Real.pi / 4⟩ 1 one_pos
    (by rw [getYaw_quarter_pi]; exact quarter_pi_not_multiple) hxi⟩

/-- C6. The flag that `makePlan` returns is `false` exactly when the planner is not
initialized or the frame of the goal differs from the global frame; in every other case (a
curve was found, the carrot planner ran, or a negative cost ended the trajectory) it is
`true`.  For a positive step size, a non-zero turning radius and a goal whose heading
relative to the start is no multiple of `pi` (so that the distances of the solver are
finite in the source as they are here) the call does return. -/
theorem makePlan_false_iff_rejected {α : Type} [LinearOrderedField α] [FloorRing α]
    (M : MathLib α) (P : Planner α) (start goal : PoseStamped α)
    (plan : List (PoseStamped α)) :
    ((∀ k : ℤ, getYaw M (goalInStartFrame M (chooseStart P start) goal) ≠ k * M.pi) →
      0 < P.step_size_ → P.turning_radius_ ≠ 0 →
      ∃ fuel r, makePlan M fuel P start goal plan = some r) ∧
    ∀ fuel r, makePlan M fuel P start goal plan = some r →
      (r.success = false ↔ (P.initialized_ = false ∨ goal.frame_id ≠ P.global_frame)) :=
  ⟨fun _ hs hr => makePlan_returns M P start goal plan hs hr,
    fun fuel r h => makePlan_success M fuel P start goal plan r h⟩

/-- Witness for C6: the scenario planner accepts the goal `(2, 1, pi / 2)` from the start
`(0, 0, 0)` and returns `true`. -/
theorem makePlan_false_iff_rejected_witness :
    ∃ fuel r, makePlan realMath fuel (scenarioPlanner ℝ) ⟨"map", 0, 0, 0⟩
        ⟨"map", 2, 1, Real.pi / 2⟩ [] = some r ∧ r.success = true := by
  obtain ⟨hret, hiff⟩ := makePlan_false_iff_rejected realMath (scenarioPlanner ℝ)
    ⟨"map", 0, 0, 0⟩ ⟨"map", 2, 1, Real.pi / 2⟩ []
  obtain ⟨fuel, r, h⟩ := hret (scenario1_heading (scenarioPlanner ℝ) rfl "map" "map")
    (by norm_num [scenarioPlanner]) (by norm_num [scenarioPlanner])
  refine ⟨fuel, r, h, ?_⟩
  have hno : ¬ r.success = false := by
    rw [hiff fuel r h]
    simp [scenarioPlanner]
  simpa using hno

/-- C7. On an initialized planner, a goal whose frame differs from the global frame makes
`makePlan` return `false` with an empty plan, whatever the plan argument held. -/
theorem makePlan_frame_mismatch_empty {α : Type} [LinearOrderedField α] (M : MathLib α)
    (fuel : ℕ) (P : Planner α) (start goal : PoseStamped α) (plan : List (PoseStamped α))
    (hinit : P.initialized_ = true) (hframe : goal.frame_id ≠ P.global_frame) :
    ∃ r, makePlan M fuel P start goal plan = some r ∧ r.success = false ∧ r.plan = [] :=
  ⟨_, makePlan_frame_mismatch M fuel P start goal plan hinit hframe, rfl, rfl⟩

/-- Witness for C7: the scenario planner, whose global frame is `map`, with a goal in the
frame `odom` and a plan argument that holds one pose. -/
theorem makePlan_frame_mismatch_empty_witness :
    ∃ r, makePlan realMath 0 (scenarioPlanner ℝ) ⟨"map", 0, 0, 0⟩ ⟨"odom", 3, 0, 0⟩
        [⟨"map", 1, 1, 0⟩] = some r ∧ r.success = false ∧ r.plan = [] :=
  makePlan_frame_mismatch_empty realMath 0 (scenarioPlanner ℝ) ⟨"map", 0, 0, 0⟩
    ⟨"odom", 3, 0, 0⟩ [⟨"map", 1, 1, 0⟩] rfl (by decide)

/-- C8. Every pose of the plan of a successful call of `makePlan`, from the trajectory
sampler or from the carrot planner, has been given a non-negative footprint cost; so when
the cost is negative for every pose with `x > 1`, every pose of the plan has `x ≤ 1`.  For
a positive step size, a non-zero turning radius and a goal whose heading relative to the
start is no multiple of `pi` (so that the distances of the solver are finite in the source
as they are here) the call does return. -/
theorem makePlan_plan_collision_free {α : Type} [LinearOrderedField α] [FloorRing α]
    (M : MathLib α) (P : Planner α) (start goal : PoseStamped α)
    (plan : List (PoseStamped α)) :
    ((∀ k : ℤ, getYaw M (goalInStartFrame M (chooseStart P start) goal) ≠ k * M.pi) →
      0 < P.step_size_ → P.turning_radius_ ≠ 0 →
      ∃ fuel r, makePlan M fuel P start goal plan = some r) ∧
    ∀ fuel r, makePlan M fuel P start goal plan = some r → r.success = true →
      (∀ q ∈ r.plan, 0 ≤ footprintCost P q.x q.y q.yaw) ∧
      ((∀ x y th : α, 1 < x → footprintCost P x y th < 0) → ∀ q ∈ r.plan, q.x ≤ 1) := by
  refine ⟨fun _ hs hr => makePlan_returns M P start goal plan hs hr, ?_⟩
  intro fuel r h hsucc
  have hsafe := makePlan_safe M fuel P start goal plan r h hsucc
  refine ⟨hsafe, ?_⟩
  intro horacle q hq
  by_contra hx
  exact absurd (horacle q.x q.y q.yaw (not_le.mp hx)) (not_lt.mpr (hsafe q hq))

/-- Witness for C8: the scenario planner, whose footprint cost is negative exactly for
`x > 1`, from the start `(0, 0, 0)`: the call for the goal `(2, 1, pi / 2)` returns a plan
whose poses have `x ≤ 1`, and whatever the call for the goal `(3, 0, 0)` returns is a plan
whose poses have `x ≤ 1`. -/
theorem makePlan_plan_collision_free_witness :
    (∃ fuel r, makePlan realMath fuel (scenarioPlanner ℝ) ⟨"map", 0, 0, 0⟩
        ⟨"map", 2, 1, Real.pi / 2⟩ [] = some r ∧ r.success = true ∧ ∀ q ∈ r.plan, q.x ≤ 1) ∧
    ∀ fuel r, makePlan realMath fuel (scenarioPlanner ℝ) ⟨"map", 0, 0, 0⟩ ⟨"map", 3, 0, 0⟩ []
        = some r → ∀ q ∈ r.plan, q.x ≤ 1 := by
  have horacle : ∀ x y th : ℝ, 1 < x → footprintCost (scenarioPlanner ℝ) x y th < 0 := by
    intro x y th hx
    simp [footprintCost, scenarioPlanner, hx]
  have hsucc : ∀ (goal : PoseStamped ℝ) (fuel : ℕ) (r : PlanResult ℝ), goal.frame_id = "map" →
      makePlan realMath fuel (scenarioPlanner ℝ) ⟨"map", 0, 0, 0⟩ goal [] = some r →
      r.success = true := by
    intro goal fuel r hg h
    have hno : ¬ r.success = false := by
      rw [makePlan_success realMath fuel _ _ _ _ r h]
      simp [scenarioPlanner, hg]
    simpa using hno
  constructor
  · obtain ⟨hret, hall⟩ := makePlan_plan_collision_free realMath (scenarioPlanner ℝ)
      ⟨"map", 0, 0, 0⟩ ⟨"map", 2, 1, Real.pi / 2⟩ []
    obtain ⟨fuel, r, h⟩ := hret (scenario1_heading (scenarioPlanner ℝ) rfl "map" "map")
      (by norm_num [scenarioPlanner]) (by norm_num [scenarioPlanner])
    exact ⟨fuel, r, h, hsucc _ fuel r rfl h, (hall fuel r h (hsucc _ fuel r rfl h)).2 horacle⟩
  · intro fuel r h
    exact ((makePlan_plan_collision_free realMath (scenarioPlanner ℝ)
      ⟨"map", 0, 0, 0⟩ ⟨"map", 3, 0, 0⟩ []).2 fuel r h (hsucc _ fuel r rfl h)).2 horacle

/-- C9 (the code departs from the claim). For the start `(0, 0, 0)` and the goal
`(3, 0, 0)` the goal in the start frame is `(3, 0, 0)`, on which the solver takes the
right-turn branch and returns `RIGHT`, not `NONE`; the selection ends with `RIGHT` as
well, so that `makePlan` runs the trajectory sampler and not the carrot planner. -/
theorem straight_ahead_goal_is_right_turn (P : Planner ℝ) (fs fg : String) :
    (computeCurveParameters realMath ⟨3, 0, 0⟩ P.turning_radius_).curve_type
      = CurveType.RIGHT_CENTER_POINT ∧
    (selectManeuver realMath P ⟨fs, 0, 0, 0⟩ ⟨fg, 3, 0, 0⟩).curve_type
      = CurveType.RIGHT_CENTER_POINT :=
  ⟨by rw [solver_straight_ahead], selectManeuver_straight_ahead P fs fg⟩

/-- C10. In exact arithmetic, for an accepted call of `makePlan` on a planner without a
valid last goal (`initialize` unsets `valid_last_goal_` and `makePlan` leaves it as it is):
the plan is empty when the footprint cost of the start pose is negative, and otherwise its
first pose has the position and the heading of the start, from the trajectory sampler and
from the carrot planner alike.  For a positive step size, a non-zero turning radius and a
goal whose heading relative to the start is no multiple of `pi` (so that the distances of
the solver are finite in the source as they are here) the call does return. -/
theorem makePlan_starts_at_start (P : Planner ℝ) (start goal : PoseStamped ℝ)
    (plan : List (PoseStamped ℝ)) (hinit : P.initialized_ = true)
    (hframe : goal.frame_id = P.global_frame) (hvalid : P.valid_last_goal_ = false) :
    ((∀ k : ℤ, getYaw realMath (goalInStartFrame realMath start goal) ≠ k * Real.pi) →
      0 < P.step_size_ → P.turning_radius_ ≠ 0 →
      ∃ fuel r, makePlan realMath fuel P start goal plan = some r) ∧
    ∀ fuel r, makePlan realMath fuel P start goal plan = some r →
      (footprintCost P start.x start.y (getYaw realMath (poseStampedMsgToTF start)) < 0 →
        r.plan = []) ∧
      (0 ≤ footprintCost P start.x start.y (getYaw realMath (poseStampedMsgToTF start)) →
        ∃ rest, r.plan = ⟨goal.frame_id, start.x, start.y,
          getYaw realMath (poseStampedMsgToTF start)⟩ :: rest) :=
  ⟨fun _ hs hr => makePlan_returns realMath P start goal plan hs hr,
    fun fuel r h => makePlan_first_pose fuel P start goal plan r hinit hframe hvalid h⟩

/-- Witness for C10: the scenario planner from the start `(0, 0, 0)`, whose footprint cost
is `0`, to the goal `(2, 1, pi / 2)`; the plan begins with the pose `(0, 0, 0)`. -/
theorem makePlan_starts_at_start_witness :
    ∃ fuel r rest, makePlan realMath fuel (scenarioPlanner ℝ) ⟨"map", 0, 0, 0⟩
        ⟨"map", 2, 1, Real.pi / 2⟩ [] = some r ∧ r.plan = ⟨"map", 0, 0, 0⟩ :: rest := by
  obtain ⟨hret, hall⟩ := makePlan_starts_at_start (scenarioPlanner ℝ)
    ⟨"map", 0, 0, 0⟩ ⟨"map", 2, 1, Real.pi / 2⟩ [] rfl rfl rfl
  obtain ⟨fuel, r, h⟩ := hret
    (fun k => by
      rw [goalInStartFrame_scenario1, getYaw_half_pi]
      exact half_pi_not_multiple k)
    (by norm_num [scenarioPlanner]) (by norm_num [scenarioPlanner])
  have hyaw : getYaw realMath (poseStampedMsgToTF (⟨"map", 0, 0, 0⟩ : PoseStamped ℝ)) = 0 :=
    normalize_zero_realMath
  obtain ⟨rest, hrest⟩ := (hall fuel r h).2 (by
    rw [hyaw]
    norm_num [footprintCost, scenarioPlanner])
  rw [hyaw] at hrest
  exact ⟨fuel, r, rest, h, hrest⟩

/-- C11. Whenever the carrot planner runs (an accepted call of `makePlan` whose selection
ends with `NONE`, on a planner without a valid last goal), the call returns within 22
iterations of the carrot loop, and the `k`-th pose of its plan, for every index `k` of the
plan, is the sample at the scale `0.05 * k`: the position `start + 0.05 * k * (goal - start)`
and the heading `normalize (start_yaw + 0.05 * k * normalize (goal_yaw - start_yaw))`; so
the scale of successive poses increases by exactly `0.05`. -/
theorem makePlan_carrot_progress {α : Type} [LinearOrderedField α] (M : MathLib α)
    (P : Planner α) (start goal : PoseStamped α) (plan : List (PoseStamped α))
    (hinit : P.initialized_ = true) (hframe : goal.frame_id = P.global_frame)
    (hvalid : P.valid_last_goal_ = false)
    (hnone : (selectManeuver M P start goal).curve_type = CurveType.NONE) :
    (∃ r, makePlan M 22 P start goal plan = some r) ∧
    ∀ fuel r, makePlan M fuel P start goal plan = some r →
      ∀ (k : ℕ) (q : PoseStamped α), r.plan[k]? = some q →
        q = ⟨goal.frame_id, start.x + 0.05 * k * (goal.x - start.x),
          start.y + 0.05 * k * (goal.y - start.y),
          M.normalize_angle (getYaw M (poseStampedMsgToTF start)
            + 0.05 * k * M.normalize_angle (getYaw M (poseStampedMsgToTF goal)
                - getYaw M (poseStampedMsgToTF start)))⟩ := by
  have hnone' : (selectManeuver M (P.withStart (chooseStart P start)) (chooseStart P start)
      goal).curve_type = CurveType.NONE := by
    rw [chooseStart_of_invalid P start hvalid, selectManeuver_withStart]
    exact hnone
  constructor
  · obtain ⟨r, h⟩ := carrotLoop_terminates_zero M (P.withStart (chooseStart P start))
      goal start.x start.y (getYaw M (poseStampedMsgToTF (chooseStart P start)))
      (goal.x - start.x) (goal.y - start.y)
      (M.normalize_angle (getYaw M (poseStampedMsgToTF goal)
        - getYaw M (poseStampedMsgToTF (chooseStart P start)))) [] 22 le_rfl
    refine ⟨⟨true, r, P.withStart (chooseStart P start)⟩, ?_⟩
    rw [makePlan_accepted M 22 P start goal plan hinit hframe, if_neg (not_not.mpr hnone'), h]
    rfl
  · intro fuel r h k q hq
    have := makePlan_carrot_samples M fuel P start goal plan r hinit hframe hnone' h k q hq
    rw [chooseStart_of_invalid P start hvalid] at this
    exact this

/-- Witness for C11: the scenario planner from the start `(0, 0, 0)` to the goal
`(-1, 1, pi / 4)`, whose tangent-line intersection lies behind the start. -/
theorem makePlan_carrot_progress_witness :
    (∃ r, makePlan realMath 22 (scenarioPlanner ℝ) ⟨"map", 0, 0, 0⟩
        ⟨"map", -1, 1, Real.pi / 4⟩ [] = some r) ∧
    ∀ fuel r, makePlan realMath fuel (scenarioPlanner ℝ) ⟨"map", 0, 0, 0⟩
        ⟨"map", -1, 1, Real.pi / 4⟩ [] = some r →
      ∀ (k : ℕ) (q : PoseStamped ℝ), r.plan[k]? = some q →
        q = ⟨"map", 0 + 0.05 * k * (-1 - 0), 0 + 0.05 * k * (1 - 0),
          realMath.normalize_angle
            (getYaw realMath (poseStampedMsgToTF (⟨"map", 0, 0, 0⟩ : PoseStamped ℝ))
              + 0.05 * k * realMath.normalize_angle
                (getYaw realMath
                    (poseStampedMsgToTF (⟨"map", -1, 1, Real.pi / 4⟩ : PoseStamped ℝ))
                  - getYaw realMath (poseStampedMsgToTF (⟨"map", 0, 0, 0⟩ : PoseStamped ℝ))))⟩ :=
  makePlan_carrot_progress realMath (scenarioPlanner ℝ) ⟨"map", 0, 0, 0⟩
    ⟨"map", -1, 1, Real.pi / 4⟩ [] rfl rfl rfl (selectManeuver_behind _ _ _)

/-- C12. On a planner that `initialize` has left initialized, for an accepted call whose
solve for the center of rotation is not `NONE`: the candidate reference point is the one
point of the footprint with `x > 0` and `y < 0` for `LEFT`, and `(0.1, y)` with the `y` of
the one point of the footprint with `x < 0` and `y < 0` for `RIGHT`; when the solve for the
goal re-framed about the candidate returns `NONE`, the sampler is given the reference point
`(0, 0)`, the goal in the start frame and the distances and the signed radius of the solve
for the center; otherwise it is given the candidate, the re-framed goal and the results of
the second solve.  In both cases the curve type is not `NONE` and `makePlan` returns what
the sampling loop returns, so the carrot planner does not run. -/
theorem selectManeuver_reference_point {α : Type} [LinearOrderedField α] (M : MathLib α)
    (fuel : ℕ) (P0 P : Planner α) (cm : Costmap2DROS α) (params : Parameters α)
    (start goal : PoseStamped α) (plan : List (PoseStamped α))
    (h0 : P0.initialized_ = false) (hP : P = initializePlanner P0 cm params)
    (hinit : P.initialized_ = true) (hframe : goal.frame_id = P.global_frame)
    (hcenter : (computeCurveParameters M (goalInStartFrame M start goal)
      P.turning_radius_).curve_type ≠ CurveType.NONE) :
    (∃ c ∈ cm.footprint, (0 < c.x ∧ c.y < 0) ∧
      (∀ c2 ∈ cm.footprint, 0 < c2.x ∧ c2.y < 0 → c2 = c) ∧
      candidateRefpoint P CurveType.LEFT_CENTER_POINT = ⟨c.x, c.y, 0⟩) ∧
    (∃ c ∈ cm.footprint, (c.x < 0 ∧ c.y < 0) ∧
      (∀ c2 ∈ cm.footprint, c2.x < 0 ∧ c2.y < 0 → c2 = c) ∧
      candidateRefpoint P CurveType.RIGHT_CENTER_POINT = ⟨0.1, c.y, 0⟩) ∧
    ((computeCurveParameters M
        (refpointGoalInRefstartFrame M start goal
          (candidateRefpoint P (computeCurveParameters M (goalInStartFrame M start goal)
            P.turning_radius_).curve_type))
        P.turning_radius_).curve_type = CurveType.NONE →
      selectManeuver M P start goal =
        { curve_type := (computeCurveParameters M (goalInStartFrame M start goal)
            P.turning_radius_).curve_type
          start_tf := poseStampedMsgToTF start
          start_yaw := getYaw M (poseStampedMsgToTF start)
          goal_yaw := getYaw M (poseStampedMsgToTF goal)
          refpoint_tf_robot_coord := ⟨0, 0, 0⟩
          refpoint_goal_tf_refstart_coord := goalInStartFrame M start goal
          dist_before_steering_refp := (computeCurveParameters M
            (goalInStartFrame M start goal) P.turning_radius_).dist_before_steering
          dist_after_steering_refp := (computeCurveParameters M
            (goalInStartFrame M start goal) P.turning_radius_).dist_after_steering
          signed_turning_radius_refp := (computeCurveParameters M
            (goalInStartFrame M start goal) P.turning_radius_).signed_turning_radius }) ∧
    ((computeCurveParameters M
        (refpointGoalInRefstartFrame M start goal
          (candidateRefpoint P (computeCurveParameters M (goalInStartFrame M start goal)
            P.turning_radius_).curve_type))
        P.turning_radius_).curve_type ≠ CurveType.NONE →
      selectManeuver M P start goal =
        { curve_type := (computeCurveParameters M
            (refpointGoalInRefstartFrame M start goal
              (candidateRefpoint P (computeCurveParameters M (goalInStartFrame M start goal)
                P.turning_radius_).curve_type))
            P.turning_radius_).curve_type
          start_tf := poseStampedMsgToTF start
          start_yaw := getYaw M (poseStampedMsgToTF start)
          goal_yaw := getYaw M (poseStampedMsgToTF goal)
          refpoint_tf_robot_coord :=
            candidateRefpoint P (computeCurveParameters M (goalInStartFrame M start goal)
              P.turning_radius_).curve_type
          refpoint_goal_tf_refstart_coord :=
            refpointGoalInRefstartFrame M start goal
              (candidateRefpoint P (computeCurveParameters M (goalInStartFrame M start goal)
                P.turning_radius_).curve_type)
          dist_before_steering_refp := (computeCurveParameters M
            (refpointGoalInRefstartFrame M start goal
              (candidateRefpoint P (computeCurveParameters M (goalInStartFrame M start goal)
                P.turning_radius_).curve_type))
            P.turning_radius_).dist_before_steering
          dist_after_steering_refp := (computeCurveParameters M
            (refpointGoalInRefstartFrame M start goal
              (candidateRefpoint P (computeCurveParameters M (goalInStartFrame M start goal)
                P.turning_radius_).curve_type))
            P.turning_radius_).dist_after_steering
          signed_turning_radius_refp := (computeCurveParameters M
            (refpointGoalInRefstartFrame M start goal
              (candidateRefpoint P (computeCurveParameters M (goalInStartFrame M start goal)
                P.turning_radius_).curve_type))
            P.turning_radius_).signed_turning_radius }) ∧
    (selectManeuver M P start goal).curve_type ≠ CurveType.NONE ∧
    makePlan M fuel P start goal plan =
      (samplerLoop M (P.withStart start) goal (selectManeuver M P start goal) fuel
        (samplerInit M (selectManeuver M P start goal) [])).map
        (fun st => ⟨true, st.plan, P.withStart start⟩) := by
  have hne : (selectManeuver M P start goal).curve_type ≠ CurveType.NONE := by
    rw [Ne, selectManeuver_none_iff]
    exact hcenter
  have hvalid : P.valid_last_goal_ = false := by
    rw [hP]
    exact initializePlanner_valid_last_goal P0 cm params h0
  rw [hP] at hinit
  obtain ⟨-, -, -, -, -, ⟨t1, t2, t3⟩, ⟨b1, b2, b3⟩, hright, -⟩ :=
    initializePlanner_fields P0 cm params h0 hinit
  obtain ⟨hlen, q0, q1, q2, q3⟩ := (initializePlanner_initialized_iff P0 cm params h0).mp hinit
  obtain ⟨-, huniq⟩ := footprint_quadrants cm.footprint hlen q0 q1 q2 q3
  rw [← hP] at hinit t1 t2 t3 b1 b2 b3 hright
  refine ⟨⟨P.topRightCorner_, t1, ⟨t2, t3⟩, ?_, rfl⟩, ⟨P.bottomRightCorner_, b1, ⟨b2, b3⟩, ?_, ?_⟩,
    ?_, ?_, hne, ?_⟩
  · intro c2 hc2 hq
    apply huniq c2 hc2 _ t1
    rw [(quadrant_iff c2).2.1.mpr hq, (quadrant_iff _).2.1.mpr ⟨t2, t3⟩]
  · intro c2 hc2 hq
    apply huniq c2 hc2 _ b1
    rw [(quadrant_iff c2).2.2.1.mpr hq, (quadrant_iff _).2.2.1.mpr ⟨b2, b3⟩]
  · unfold candidateRefpoint
    rw [hright]
  · intro h
    rw [selectManeuver_eq, if_pos hcenter, if_pos h]
  · intro h
    rw [selectManeuver_eq, if_pos hcenter, if_neg h]
  · rw [makePlan_accepted M fuel P start goal plan hinit hframe,
      chooseStart_of_invalid P start hvalid, selectManeuver_withStart, if_pos hne]

/-- Witness for C12: the planner initialized on the scenario costmap, from the start
`(0, 0, 0)` to the goal `(2, 1, pi / 2)`, for which the solve for the center of rotation
gives `LEFT`. -/
theorem selectManeuver_reference_point_witness :
    candidateRefpoint
        (initializePlanner (uninitializedPlanner ℝ) (scenarioCostmap ℝ)
          ⟨none, none, none, none⟩) CurveType.LEFT_CENTER_POINT = ⟨0.5, -0.3, 0⟩ ∧
    (selectManeuver realMath
        (initializePlanner (uninitializedPlanner ℝ) (scenarioCostmap ℝ)
          ⟨none, none, none, none⟩)
        ⟨"map", 0, 0, 0⟩ ⟨"map", 2, 1, Real.pi / 2⟩).curve_type ≠ CurveType.NONE := by
  have hinit := initializePlanner_scenario (α := ℝ) ⟨none, none, none, none⟩
  obtain ⟨hframe, -, -, -, hrad, -⟩ := initializePlanner_fields
    (uninitializedPlanner ℝ) (scenarioCostmap ℝ) ⟨none, none, none, none⟩ rfl hinit
  have hr : (initializePlanner (uninitializedPlanner ℝ) (scenarioCostmap ℝ)
      ⟨none, none, none, none⟩).turning_radius_ = 4 / 5 := by
    rw [hrad]; norm_num
  obtain ⟨⟨c, hc, hq, -, hcand⟩, -, -, -, hne, -⟩ := selectManeuver_reference_point realMath 0
    (uninitializedPlanner ℝ) _ (scenarioCostmap ℝ) ⟨none, none, none, none⟩
    ⟨"map", 0, 0, 0⟩ ⟨"map", 2, 1, Real.pi / 2⟩ [] rfl rfl hinit
    (by rw [hframe]; rfl)
    (by rw [goalInStartFrame_scenario1, hr, solver_scenario1]; decide)
  refine ⟨?_, hne⟩
  rw [hcand]
  simp only [scenarioCostmap, List.mem_cons, List.mem_singleton, List.not_mem_nil,
    or_false] at hc
  rcases hc with rfl | rfl | rfl | rfl
  · norm_num at hq
  · rfl
  · norm_num at hq
  · norm_num at hq

/-- C13 (the code departs from the claim). For the start `(0, 0, 0)` and the goal
`(2, -1, 0)`, on the right of the start and parallel to it, on the planner of the scenario
in a world without obstacles: the goal in the frame of the start, and the goal re-framed
about the reference point of a right turn, are both `(2, -1, 0)`, for which the source
computes `x_i = 2 - (-1) / tan 0 = +inf` and returns `RIGHT` with the distances
`dist_before = +inf` and `dist_after = +inf`; the test `dist_bef_steer < dist_before` of
the sampling loop then holds for every distance `dist_bef_steer` the loop has covered, so
every iteration takes the straight-before branch, and the loop ends only on a negative
cost, which this world does not have. -/
theorem samplerLoop_straight_before_never_ends :
    goalInStartFrame realMath ⟨"map", 0, 0, 0⟩ ⟨"map", 2, -1, 0⟩ = ⟨2, -1, 0⟩ ∧
    refpointGoalInRefstartFrame realMath ⟨"map", 0, 0, 0⟩ ⟨"map", 2, -1, 0⟩
        (candidateRefpoint (freePlanner ℝ) CurveType.RIGHT_CENTER_POINT) = ⟨2, -1, 0⟩ ∧
    computeCurveParametersIEEE realMath ⟨2, -1, 0⟩ (freePlanner ℝ).turning_radius_
      = ⟨CurveType.RIGHT_CENTER_POINT, DoubleValue.posInf, DoubleValue.posInf, -(4 / 5)⟩ ∧
    ∀ dist_bef_steer : ℝ,
      (DoubleValue.fin dist_bef_steer).lt
        (computeCurveParametersIEEE realMath ⟨2, -1, 0⟩
          (freePlanner ℝ).turning_radius_).dist_before_steering = true := by
  have hr : (freePlanner ℝ).turning_radius_ = 4 / 5 := by
    norm_num [freePlanner, scenarioPlanner]
  rw [hr, solverIEEE_parallel_goal]
  exact ⟨goalInStartFrame_parallel_goal "map" "map",
    refpointGoal_parallel_goal "map" "map" _ rfl, rfl, fun _ => rfl⟩

/-- C14 (the code departs from the claim). The planner is initialized on the scenario
costmap with `use_last_goal_as_start` set to `true`, and `makePlan` is called for the start
`(0, 0, 0)` and the goal `g1 = (2, 1, pi / 2)`: the call returns success and leaves
`last_goal_as_start_` set but `valid_last_goal_` unset, so the next call with the start
pose `(0, 1, 0)` takes that pose as its start, and its plan begins with `(0, 1, 0)` and not
with `g1`. -/
theorem last_goal_cache_never_written :
    ∃ fuel r1,
      makePlan realMath fuel
        (initializePlanner (uninitializedPlanner ℝ) (scenarioCostmap ℝ)
          ⟨none, none, none, some true⟩)
        ⟨"map", 0, 0, 0⟩ ⟨"map", 2, 1, Real.pi / 2⟩ [] = some r1 ∧
      r1.success = true ∧ r1.planner.last_goal_as_start_ = true ∧
      r1.planner.valid_last_goal_ = false ∧
      chooseStart r1.planner ⟨"map", 0, 1, 0⟩ = ⟨"map", 0, 1, 0⟩ ∧
      ∀ (fuel2 : ℕ) (goal2 : PoseStamped ℝ) (plan2 : List (PoseStamped ℝ))
        (r2 : PlanResult ℝ), goal2.frame_id = "map" →
        makePlan realMath fuel2 r1.planner ⟨"map", 0, 1, 0⟩ goal2 plan2 = some r2 →
        ∃ rest, r2.plan = ⟨"map", 0, 1, 0⟩ :: rest := by
  have hinit := initializePlanner_scenario (α := ℝ) ⟨none, none, none, some true⟩
  obtain ⟨hframe, hfoot, hwm, hstep, hrad, -⟩ := initializePlanner_fields
    (uninitializedPlanner ℝ) (scenarioCostmap ℝ) ⟨none, none, none, some true⟩ rfl hinit
  obtain ⟨fuel, r1, h⟩ := makePlan_returns realMath
    (initializePlanner (uninitializedPlanner ℝ) (scenarioCostmap ℝ)
      ⟨none, none, none, some true⟩)
    ⟨"map", 0, 0, 0⟩ ⟨"map", 2, 1, Real.pi / 2⟩ []
    (by rw [hstep]; norm_num [scenarioCostmap]) (by rw [hrad]; norm_num)
  have hsucc : r1.success = true := by
    have hno : ¬ r1.success = false := by
      rw [makePlan_success realMath fuel _ _ _ _ r1 h, hinit, hframe]
      simp [scenarioCostmap]
    simpa using hno
  obtain ⟨hv, -, hlg, hch⟩ := makePlan_never_caches_goal realMath fuel _ _ _ _ _ _ r1 rfl h
  obtain ⟨-, -, hi, hg, hcost⟩ := makePlan_keeps_members realMath fuel _ _ _ _ r1 h
  refine ⟨fuel, r1, h, hsucc, hlg, hv, hch _, ?_⟩
  intro fuel2 goal2 plan2 r2 hframe2 h2
  have hyaw : getYaw realMath (poseStampedMsgToTF (⟨"map", 0, 1, 0⟩ : PoseStamped ℝ)) = 0 :=
    normalize_zero_realMath
  obtain ⟨-, hfirst⟩ := makePlan_first_pose fuel2 r1.planner ⟨"map", 0, 1, 0⟩ goal2 plan2 r2
    (by rw [hi, hinit]) (by rw [hg, hframe, hframe2]; rfl) hv h2
  rw [hyaw, hcost, hframe2] at hfirst
  apply hfirst
  unfold footprintCost
  rw [hinit, hfoot, hwm]
  norm_num [scenarioCostmap]

/-- C15. Starting from an uninitialized planner, `initialize` leaves the planner
initialized exactly when the footprint has four points and each of the four open quadrants
holds at least one of them.  In particular a footprint with a point on a coordinate axis,
or with a number of points other than four, leaves the planner uninitialized, and every
call of `makePlan` on it returns `false`. -/
theorem initializePlanner_valid_footprint {α : Type} [LinearOrderedField α] (M : MathLib α)
    (P : Planner α) (cm : Costmap2DROS α) (params : Parameters α)
    (h0 : P.initialized_ = false) :
    ((initializePlanner P cm params).initialized_ = true ↔
      (cm.footprint.length = 4 ∧
        (∃ p ∈ cm.footprint, 0 < p.x ∧ 0 < p.y) ∧
        (∃ p ∈ cm.footprint, 0 < p.x ∧ p.y < 0) ∧
        (∃ p ∈ cm.footprint, p.x < 0 ∧ p.y < 0) ∧
        (∃ p ∈ cm.footprint, p.x < 0 ∧ 0 < p.y))) ∧
    ((cm.footprint.length ≠ 4 ∨ ∃ p ∈ cm.footprint, p.x = 0 ∨ p.y = 0) →
      (initializePlanner P cm params).initialized_ = false ∧
      ∀ (fuel : ℕ) (start goal : PoseStamped α) (plan : List (PoseStamped α)),
        ∃ r, makePlan M fuel (initializePlanner P cm params) start goal plan = some r ∧
          r.success = false) := by
  refine ⟨initializePlanner_initialized_iff P cm params h0, ?_⟩
  intro hbad
  have hno : (initializePlanner P cm params).initialized_ ≠ true := by
    intro hyes
    obtain ⟨hlen, q0, q1, q2, q3⟩ := (initializePlanner_initialized_iff P cm params h0).mp hyes
    rcases hbad with hbad | ⟨p, hp, haxis⟩
    · exact hbad hlen
    · exact (footprint_quadrants cm.footprint hlen q0 q1 q2 q3).1 p hp
        ((quadrant_iff p).2.2.2.2 haxis)
  refine ⟨by simpa using hno, ?_⟩
  intro fuel start goal plan
  exact ⟨_, makePlan_after_failed_initializePlanner M fuel P cm params start goal plan hno, rfl⟩

/-- Witness for C15: on the scenario costmap, whose footprint is a rectangle around the
center of rotation, `initialize` succeeds; with the first corner moved onto the `x` axis
it does not. -/
theorem initializePlanner_valid_footprint_witness :
    (initializePlanner (uninitializedPlanner ℝ) (scenarioCostmap ℝ)
      ⟨none, none, none, none⟩).initialized_ = true ∧
    (initializePlanner (uninitializedPlanner ℝ)
      { scenarioCostmap ℝ with
        footprint := [⟨0.5, 0⟩, ⟨0.5, -0.3⟩, ⟨-0.5, -0.3⟩, ⟨-0.5, 0.3⟩] }
      ⟨none, none, none, none⟩).initialized_ = false :=
  ⟨(initializePlanner_valid_footprint realMath (uninitializedPlanner ℝ) (scenarioCostmap ℝ)
      ⟨none, none, none, none⟩ rfl).1.mpr scenarioCostmap_quadrants,
    ((initializePlanner_valid_footprint realMath (uninitializedPlanner ℝ)
      { scenarioCostmap ℝ with
        footprint := [⟨0.5, 0⟩, ⟨0.5, -0.3⟩, ⟨-0.5, -0.3⟩, ⟨-0.5, 0.3⟩] }
      ⟨none, none, none, none⟩ rfl).2
      (Or.inr ⟨⟨0.5, 0⟩, by simp, Or.inr rfl⟩)).1⟩

/-- C16. Monotonicity in the radius: when the solver returns a curve type other than
`NONE` for a goal at the radius `r1`, then at every radius `r2` (in particular at every
larger one) it returns the same curve type or `NONE`, never the opposite turn side. -/
theorem computeCurveParameters_radius_keeps_side {α : Type} [LinearOrderedField α]
    (M : MathLib α) (p : Pose α) (r1 r2 : α)
    (h1 : (computeCurveParameters M p r1).curve_type ≠ CurveType.NONE) :
    (computeCurveParameters M p r2).curve_type = (computeCurveParameters M p r1).curve_type ∨
    (computeCurveParameters M p r2).curve_type = CurveType.NONE :=
  solver_side_independent_of_radius M p r1 r2 h1

/-- Witness for C16: the goal `(2, 1, pi / 2)`, for which the radius `0.8` gives `LEFT`,
at the larger radius `3`. -/
theorem computeCurveParameters_radius_keeps_side_witness :
    (computeCurveParameters realMath ⟨2, 1, Real.pi / 2⟩ (4 / 5)).curve_type
      = CurveType.LEFT_CENTER_POINT ∧
    ((computeCurveParameters realMath ⟨2, 1, Real.pi / 2⟩ 3).curve_type
        = (computeCurveParameters realMath ⟨2, 1, Real.pi / 2⟩ (4 / 5)).curve_type ∨
      (computeCurveParameters realMath ⟨2, 1, Real.pi / 2⟩ 3).curve_type = CurveType.NONE) :=
  ⟨by rw [solver_scenario1],
    computeCurveParameters_radius_keeps_side realMath ⟨2, 1, Real.pi / 2⟩ (4 / 5) 3
      (by rw [solver_scenario1]; decide)⟩

/-- C17. Transform round trip in exact arithmetic: for every pose `p`, offset `(vx, vy)`
and angle `theta`, `translate2D` by the offset, `rotate2D` by `-theta`, `rotate2D` by
`theta` and `translate2D` by minus the offset give a pose with the position of `p` whose
rotation angle is that of `p` up to a multiple of `2 pi`, so that the reported yaw is the
reported yaw of `p`. -/
theorem translate2D_rotate2D_round_trip (p : Pose ℝ) (vx vy theta : ℝ) :
    (translate2D (rotate2D realMath (rotate2D realMath (translate2D p vx vy) (-theta)) theta)
        (-vx) (-vy)).x = p.x ∧
    (translate2D (rotate2D realMath (rotate2D realMath (translate2D p vx vy) (-theta)) theta)
        (-vx) (-vy)).y = p.y ∧
    (∃ k : ℤ,
      (translate2D (rotate2D realMath (rotate2D realMath (translate2D p vx vy) (-theta)) theta)
        (-vx) (-vy)).yaw = p.yaw + k * (2 * Real.pi)) ∧
    getYaw realMath
      (translate2D (rotate2D realMath (rotate2D realMath (translate2D p vx vy) (-theta)) theta)
        (-vx) (-vy)) = getYaw realMath p :=
  round_trip_real p vx vy theta

/-- C18. Phase order of the trajectory sampler: from every state and for every number of
iterations, the steps that the sampling loop takes are a sequence of straight-before steps,
followed by turning steps, followed by straight-after steps; so after a turning step no
straight-before step is taken, and after a straight-after step only straight-after steps
are taken.  The steps are those of the run of the loop: the poses that the loop appends to
the plan are, in order, poses of the state at entry and of the states that the steps end
in. -/
theorem samplerSteps_phase_order {α : Type} [LinearOrderedField α] (M : MathLib α)
    (P : Planner α) (goal : PoseStamped α) (mv : Maneuver α) (fuel : ℕ)
    (st : SamplerState α) :
    (∃ n1 n2 n3 : ℕ, (samplerSteps M P goal mv fuel st).map Prod.fst
      = List.replicate n1 Phase.STRAIGHT_BEFORE ++ List.replicate n2 Phase.TURNING
        ++ List.replicate n3 Phase.STRAIGHT_AFTER) ∧
    ((samplerSteps M P goal mv fuel st).map Prod.fst).Pairwise
      (fun a b => (a = Phase.TURNING → b ≠ Phase.STRAIGHT_BEFORE) ∧
        (a = Phase.STRAIGHT_AFTER → b = Phase.STRAIGHT_AFTER)) ∧
    ∀ r : SamplerState α, samplerLoop M P goal mv fuel st = some r →
      ∃ l : List (PoseStamped α), r.plan = st.plan ++ l ∧
        l <+: (st :: (samplerSteps M P goal mv fuel st).map Prod.snd).map
          (trajPoint M goal) := by
  obtain ⟨n1, n2, n3, h⟩ := samplerSteps_order M P goal mv fuel st
  refine ⟨⟨n1, n2, n3, h⟩, ?_, fun r hr => samplerLoop_plan_steps M P goal mv fuel st r hr⟩
  rw [h]
  exact phases_pairwise n1 n2 n3

/-- C19. Straight approach in exact arithmetic: for an accepted call of `makePlan` on a
planner without a valid last goal, with a positive step size `s`, a non-zero turning radius,
a selection that ends with a curve type other than `NONE` and with a reference point that
has `x ≠ 0` (mapped through the inverse Jacobian) or is the center of rotation, an oracle
that never returns a negative cost, and a goal whose heading relative to the start is no
multiple of `pi` (so that the distances of the solver are finite in the source as they are
here): the call returns, and for every `k` up to the
number `n` of straight-before steps (the least `n` with `n * s ≥ dist_before`, which is the
ceiling of `dist_before / s`) the `k`-th pose of the plan is the pose of the center of
rotation `(start_x + k * s * cos start_yaw, start_y + k * s * sin start_yaw)` with the
heading `start_yaw`. -/
theorem makePlan_straight_before_poses (P : Planner ℝ) (start goal : PoseStamped ℝ)
    (plan : List (PoseStamped ℝ)) (hinit : P.initialized_ = true)
    (hframe : goal.frame_id = P.global_frame) (hvalid : P.valid_last_goal_ = false)
    (hs : 0 < P.step_size_) (hr : P.turning_radius_ ≠ 0)
    (hne : (selectManeuver realMath P start goal).curve_type ≠ CurveType.NONE)
    (href : (selectManeuver realMath P start goal).refpoint_tf_robot_coord.x ≠ 0 ∨
      ((selectManeuver realMath P start goal).refpoint_tf_robot_coord.x = 0 ∧
        (selectManeuver realMath P start goal).refpoint_tf_robot_coord.y = 0))
    (horacle : ∀ x y th : ℝ, 0 ≤ footprintCost P x y th) :
    (∀ k : ℤ, getYaw realMath (goalInStartFrame realMath start goal) ≠ k * Real.pi) →
    ∃ fuel r, makePlan realMath fuel P start goal plan = some r ∧
      ∀ k : ℕ,
        k ≤ Nat.ceil ((selectManeuver realMath P start goal).dist_before_steering_refp
          / P.step_size_) →
        r.plan[k]? = some ⟨goal.frame_id,
          start.x + k * P.step_size_ * Real.cos (getYaw realMath (poseStampedMsgToTF start)),
          start.y + k * P.step_size_ * Real.sin (getYaw realMath (poseStampedMsgToTF start)),
          getYaw realMath (poseStampedMsgToTF start)⟩ :=
  fun _ =>
    makePlan_straight_approach P start goal plan hinit hframe hvalid hs hr hne href horacle

/-- Witness for C19: the scenario planner in a world without obstacles, from the start
`(0, 0, 0)` to the goal `(2, 1, pi / 2)`. -/
theorem makePlan_straight_before_poses_witness :
    ∃ fuel r, makePlan realMath fuel (freePlanner ℝ) ⟨"map", 0, 0, 0⟩
        ⟨"map", 2, 1, Real.pi / 2⟩ [] = some r ∧
      ∀ k : ℕ,
        k ≤ Nat.ceil ((selectManeuver realMath (freePlanner ℝ) ⟨"map", 0, 0, 0⟩
          ⟨"map", 2, 1, Real.pi / 2⟩).dist_before_steering_refp / (freePlanner ℝ).step_size_) →
        r.plan[k]? = some ⟨"map",
          0 + k * (freePlanner ℝ).step_size_
            * Real.cos (getYaw realMath (poseStampedMsgToTF (⟨"map", 0, 0, 0⟩ : PoseStamped ℝ))),
          0 + k * (freePlanner ℝ).step_size_
            * Real.sin (getYaw realMath (poseStampedMsgToTF (⟨"map", 0, 0, 0⟩ : PoseStamped ℝ))),
          getYaw realMath (poseStampedMsgToTF (⟨"map", 0, 0, 0⟩ : PoseStamped ℝ))⟩ := by
  have hrad : (freePlanner ℝ).turning_radius_ = 4 / 5 := by
    norm_num [freePlanner, scenarioPlanner]
  exact makePlan_straight_before_poses (freePlanner ℝ) ⟨"map", 0, 0, 0⟩
    ⟨"map", 2, 1, Real.pi / 2⟩ [] rfl rfl rfl
    (by norm_num [freePlanner, scenarioPlanner]) (by rw [hrad]; norm_num)
    (by
      rw [Ne, selectManeuver_none_iff, goalInStartFrame_scenario1, hrad, solver_scenario1]
      decide)
    (selectManeuver_refpoint realMath (freePlanner ℝ) _ _
      (by norm_num [freePlanner, scenarioPlanner])
      (by norm_num [freePlanner, scenarioPlanner]))
    (by
      intro x y th
      simp [footprintCost, freePlanner, scenarioPlanner])
    (fun k => by
      rw [goalInStartFrame_scenario1, getYaw_half_pi]
      exact half_pi_not_multiple k)

/-- C20. Center-reference arc in exact arithmetic: when the reference point is the center
of rotation (offset `(0, 0)`), the state at the end of the `j`-th turning step (`j`
counted from `0`, so that it is step number `j + 1`) of a run of the sampling loop holds
the center pose `(dist_before + R * sin ((j + 1) * g), R * (1 - cos ((j + 1) * g)))` with
the heading `(j + 1) * g` in the start frame, where `g = step_size / R`, and its image
under the rotation by the start yaw and the translation by the start position as the pose
in the global frame; the point lies on the circle of radius `|R|` centred at
`(dist_before, R)`. -/
theorem turning_steps_on_arc (P : Planner ℝ) (goal : PoseStamped ℝ) (mv : Maneuver ℝ)
    (plan : List (PoseStamped ℝ)) (fuel : ℕ)
    (hx : mv.refpoint_tf_robot_coord.x = 0) (hy : mv.refpoint_tf_robot_coord.y = 0) :
    ∀ (j : ℕ) (q : Phase × SamplerState ℝ),
      ((samplerSteps realMath P goal mv fuel (samplerInit realMath mv plan)).filter
        (fun e => decide (e.1 = Phase.TURNING)))[j]? = some q →
      q.2.center_pose_loctrajframe_ =
        (mv.dist_before_steering_refp + mv.signed_turning_radius_refp
            * Real.sin ((j + 1 : ℕ) * (P.step_size_ / mv.signed_turning_radius_refp)),
          mv.signed_turning_radius_refp
            * (1 - Real.cos ((j + 1 : ℕ) * (P.step_size_ / mv.signed_turning_radius_refp))),
          (j + 1 : ℕ) * (P.step_size_ / mv.signed_turning_radius_refp)) ∧
      q.2.center_traj_point_tf =
        translate2D
          (rotate2D realMath
            ⟨q.2.center_pose_loctrajframe_.1, q.2.center_pose_loctrajframe_.2.1,
              q.2.center_pose_loctrajframe_.2.2⟩ mv.start_yaw)
          mv.start_tf.x mv.start_tf.y ∧
      (q.2.center_pose_loctrajframe_.1 - mv.dist_before_steering_refp) ^ 2
          + (q.2.center_pose_loctrajframe_.2.1 - mv.signed_turning_radius_refp) ^ 2
        = mv.signed_turning_radius_refp ^ 2 := by
  intro j q hq
  obtain ⟨e1, e2⟩ := samplerSteps_turning realMath P goal mv hx fuel
    (samplerInit realMath mv plan) rfl j q hq
  refine ⟨e1, ?_, ?_⟩
  · rw [e2, e1]
    simp only [centerToGlobal, translate2D, hx, hy, add_zero]
  · rw [e1]
    simp only [realMath]
    have hsq := Real.sin_sq_add_cos_sq
      ((j + 1 : ℕ) * (P.step_size_ / mv.signed_turning_radius_refp))
    linear_combination mv.signed_turning_radius_refp ^ 2 * hsq

/-- Witness for C20: the quarter turn with the step size `0.05` of the scenario planner,
whose first step is a turning step; it ends at `(sin 0.05, 1 - cos 0.05)` with the heading
`0.05`. -/
theorem turning_steps_on_arc_witness :
    ∃ q : Phase × SamplerState ℝ,
      ((samplerSteps realMath (scenarioPlanner ℝ) ⟨"map", 1, 1, Real.pi / 2⟩
        (quarterTurn realMath) 1
        (samplerInit realMath (quarterTurn realMath) [])).filter
          (fun e => decide (e.1 = Phase.TURNING)))[0]? = some q ∧
      q.2.center_pose_loctrajframe_
        = (Real.sin (1 / 20), 1 - Real.cos (1 / 20), 1 / 20) := by
  obtain ⟨q, hq⟩ := samplerSteps_quarterTurn (scenarioPlanner ℝ) ⟨"map", 1, 1, Real.pi / 2⟩
    (by norm_num [scenarioPlanner])
  refine ⟨q, hq, ?_⟩
  obtain ⟨e1, -, -⟩ := turning_steps_on_arc (scenarioPlanner ℝ) ⟨"map", 1, 1, Real.pi / 2⟩
    (quarterTurn realMath) [] 1 rfl rfl 0 q hq
  rw [e1]
  norm_num [quarterTurn, scenarioPlanner]

/-- C21. Jacobian inversion is safe: on a planner that `initialize` has left initialized,
for the reference point `(refX, refY)` that the selection hands to the sampler: when
`refX ≠ 0`, the determinant of the Jacobian `[[1, -refY], [0, refX]]` is `refX`, so not
`0`, and the matrix the sampler uses is `[[1, refY / refX], [0, 1 / refX]]`, the inverse of
the Jacobian on either side; when `refX = 0`, the reference point is the center of rotation
`(0, 0)`, the Jacobian is not inverted (the matrix is set to zero), and the center pose is
a copy of the reference motion. -/
theorem jacobian_inversion_safe {α : Type} [LinearOrderedField α] (M : MathLib α)
    (P0 P : Planner α) (cm : Costmap2DROS α) (params : Parameters α)
    (start_ goal : PoseStamped α) (h0 : P0.initialized_ = false)
    (hP : P = initializePlanner P0 cm params) (hinit : P.initialized_ = true) :
    ((selectManeuver M P start_ goal).refpoint_tf_robot_coord.x ≠ 0 →
      (jacobianMotRefPoint (selectManeuver M P start_ goal)).det
        = (selectManeuver M P start_ goal).refpoint_tf_robot_coord.x ∧
      (jacobianMotRefPoint (selectManeuver M P start_ goal)).det ≠ 0 ∧
      invJacobianMotRefPoint (selectManeuver M P start_ goal)
        = ⟨1, (selectManeuver M P start_ goal).refpoint_tf_robot_coord.y
              / (selectManeuver M P start_ goal).refpoint_tf_robot_coord.x, 0,
            1 / (selectManeuver M P start_ goal).refpoint_tf_robot_coord.x⟩ ∧
      ∀ v : α × α,
        (jacobianMotRefPoint (selectManeuver M P start_ goal)).mulVec
          ((invJacobianMotRefPoint (selectManeuver M P start_ goal)).mulVec v) = v ∧
        (invJacobianMotRefPoint (selectManeuver M P start_ goal)).mulVec
          ((jacobianMotRefPoint (selectManeuver M P start_ goal)).mulVec v) = v) ∧
    ((selectManeuver M P start_ goal).refpoint_tf_robot_coord.x = 0 →
      (selectManeuver M P start_ goal).refpoint_tf_robot_coord = ⟨0, 0, 0⟩ ∧
      invJacobianMotRefPoint (selectManeuver M P start_ goal) = ⟨0, 0, 0, 0⟩ ∧
      ∀ st : SamplerState α,
        (samplerCenter M (selectManeuver M P start_ goal) st).center_pose_loctrajframe_
          = (st.motion_refpoint_localtraj_.1, st.motion_refpoint_localtraj_.2,
              st.theta_refp_traj)) := by
  subst hP
  constructor
  · intro hx
    obtain ⟨hdet, hinv, hmul⟩ := invJacobianMotRefPoint_of_ne _ hx
    exact ⟨hdet, by rw [hdet]; exact hx, hinv, hmul⟩
  · intro hx
    refine ⟨?_, invJacobianMotRefPoint_of_eq _ hx, fun st => (samplerCenter_copy M _ st hx).1⟩
    rcases selectManeuver_refpoint_initialized M P0 cm params start_ goal h0 hinit with h | h
    · exact absurd hx h
    · exact h

/-- Witness for C21: the planner initialized on the scenario costmap, from the start
`(0, 0, 0)` to the goal `(2, 1, pi / 2)`: the reference point has `x ≠ 0` or is the center
of rotation. -/
theorem jacobian_inversion_safe_witness :
    (selectManeuver realMath
        (initializePlanner (uninitializedPlanner ℝ) (scenarioCostmap ℝ)
          ⟨none, none, none, none⟩)
        ⟨"map", 0, 0, 0⟩ ⟨"map", 2, 1, Real.pi / 2⟩).refpoint_tf_robot_coord.x ≠ 0 ∨
    (selectManeuver realMath
        (initializePlanner (uninitializedPlanner ℝ) (scenarioCostmap ℝ)
          ⟨none, none, none, none⟩)
        ⟨"map", 0, 0, 0⟩ ⟨"map", 2, 1, Real.pi / 2⟩).refpoint_tf_robot_coord = ⟨0, 0, 0⟩ := by
  by_cases hx : (selectManeuver realMath
      (initializePlanner (uninitializedPlanner ℝ) (scenarioCostmap ℝ)
        ⟨none, none, none, none⟩)
      ⟨"map", 0, 0, 0⟩ ⟨"map", 2, 1, Real.pi / 2⟩).refpoint_tf_robot_coord.x = 0
  · exact Or.inr ((jacobian_inversion_safe realMath (uninitializedPlanner ℝ) _
      (scenarioCostmap ℝ) ⟨none, none, none, none⟩ ⟨"map", 0, 0, 0⟩
      ⟨"map", 2, 1, Real.pi / 2⟩ rfl rfl
      (initializePlanner_scenario ⟨none, none, none, none⟩)).2 hx).1
  · exact Or.inl hx

/-- C22. Feasibility is downward closed in the radius: for every goal and radii `r1`, `r2`
with `|r1| ≤ |r2|`, when the solver returns a curve type other than `NONE` at `r2` it
returns the same curve type at `r1`. -/
theorem computeCurveParameters_feasible_at_smaller_radius {α : Type} [LinearOrderedField α]
    (M : MathLib α) (p : Pose α) (r1 r2 : α) (hle : |r1| ≤ |r2|)
    (h2 : (computeCurveParameters M p r2).curve_type ≠ CurveType.NONE) :
    (computeCurveParameters M p r1).curve_type = (computeCurveParameters M p r2).curve_type :=
  solver_radius_downward M p r1 r2 hle h2

/-- Witness for C22: the goal `(2, 1, pi / 2)`, for which the radius `0.8` gives `LEFT`,
at the smaller radius `0.5`. -/
theorem computeCurveParameters_feasible_at_smaller_radius_witness :
    (computeCurveParameters realMath ⟨2, 1, Real.pi / 2⟩ (1 / 2)).curve_type
      = CurveType.LEFT_CENTER_POINT := by
  have h := computeCurveParameters_feasible_at_smaller_radius realMath
    ⟨2, 1, Real.pi / 2⟩ (1 / 2) (4 / 5)
    (by rw [abs_of_pos (by norm_num), abs_of_pos (by norm_num)]; norm_num)
    (by rw [solver_scenario1]; decide)
  rw [solver_scenario1] at h
  exact h

/-- C23. The returned plan is the collision-free prefix of the unobstructed plan: for every
accepted call, every oracle (the world model of the planner `P`) and every oracle `W` that
never returns a negative cost, whenever the call under `W` returns, the call under the
oracle of `P` returns as well, and its plan is the longest prefix of the plan under `W` all
of whose poses have a footprint cost under the oracle of `P` that is not negative: it is
such a prefix, and every such prefix is a prefix of it.  This holds for the trajectory
sampler and for the carrot planner alike; for a positive step size, a non-zero turning
radius and a goal whose heading relative to the start is no multiple of `pi` (so that the
distances of the solver are finite in the source as they are here) the call under `W` does
return. -/
theorem makePlan_collision_free_prefix {α : Type} [LinearOrderedField α] [FloorRing α]
    (M : MathLib α) (P : Planner α) (W : α → α → α → List (Point α) → α)
    (start goal : PoseStamped α) (plan : List (PoseStamped α))
    (hinit : P.initialized_ = true) (hframe : goal.frame_id = P.global_frame)
    (hW : ∀ (x y th : α) (fp : List (Point α)), 0 ≤ W x y th fp) :
    ((∀ k : ℤ, getYaw M (goalInStartFrame M (chooseStart P start) goal) ≠ k * M.pi) →
      0 < P.step_size_ → P.turning_radius_ ≠ 0 →
      ∃ fuel rF, makePlan M fuel (P.withWorldModel W) start goal plan = some rF) ∧
    ∀ fuel rF, makePlan M fuel (P.withWorldModel W) start goal plan = some rF →
      ∃ rO, makePlan M fuel P start goal plan = some rO ∧
        rO.plan = rF.plan.takeWhile (fun q => decide (0 ≤ footprintCost P q.x q.y q.yaw)) ∧
        rO.plan <+: rF.plan ∧
        (∀ q ∈ rO.plan, 0 ≤ footprintCost P q.x q.y q.yaw) ∧
        ∀ l : List (PoseStamped α), l <+: rF.plan →
          (∀ q ∈ l, 0 ≤ footprintCost P q.x q.y q.yaw) → l <+: rO.plan := by
  refine ⟨fun _ hs hr => makePlan_returns M (P.withWorldModel W) start goal plan hs hr, ?_⟩
  intro fuel rF hF
  obtain ⟨rO, hrO, hplan⟩ := makePlan_takeWhile M fuel P W start goal plan rF hinit hframe hW hF
  refine ⟨rO, hrO, hplan, ?_, ?_, ?_⟩
  · rw [hplan]
    exact List.takeWhile_prefix _
  · intro q hq
    rw [hplan] at hq
    simpa using List.mem_takeWhile_imp hq
  · intro l hpre hall
    rw [hplan]
    exact prefix_takeWhile_of_all _ _ l hpre (fun q hq => by simpa using hall q hq)

/-- Witness for C23: the scenario planner, whose footprint cost is negative exactly for
`x > 1`, and the oracle that returns `0` everywhere, from the start `(0, 0, 0)` to the goal
`(2, 1, pi / 2)`. -/
theorem makePlan_collision_free_prefix_witness :
    ∃ fuel rF rO,
      makePlan realMath fuel ((scenarioPlanner ℝ).withWorldModel (fun _ _ _ _ => 0))
        ⟨"map", 0, 0, 0⟩ ⟨"map", 2, 1, Real.pi / 2⟩ [] = some rF ∧
      makePlan realMath fuel (scenarioPlanner ℝ) ⟨"map", 0, 0, 0⟩ ⟨"map", 2, 1, Real.pi / 2⟩ []
        = some rO ∧
      rO.plan = rF.plan.takeWhile
        (fun q => decide (0 ≤ footprintCost (scenarioPlanner ℝ) q.x q.y q.yaw)) := by
  obtain ⟨hret, hall⟩ := makePlan_collision_free_prefix realMath (scenarioPlanner ℝ)
    (fun _ _ _ _ => 0) ⟨"map", 0, 0, 0⟩ ⟨"map", 2, 1, Real.pi / 2⟩ [] rfl rfl
    (fun _ _ _ _ => le_refl 0)
  obtain ⟨fuel, rF, hF⟩ := hret (scenario1_heading (scenarioPlanner ℝ) rfl "map" "map")
    (by norm_num [scenarioPlanner]) (by norm_num [scenarioPlanner])
  obtain ⟨rO, hO, hplan, -⟩ := hall fuel rF hF
  exact ⟨fuel, rF, rO, hF, hO, hplan⟩

/-- C24 (the code departs from the claim). In binary64 arithmetic twenty additions of
`0.05` take the variable `scale` of the carrot loop from `0` to `1 + 2 ^ (-52)`, which is
above `1`, so the loop ends before it samples the scale `1.0`: in a world without obstacles
the plan from the start `(0, 0, 0)` to the goal `(-1, 1, pi / 4)` has 20 poses and not 21,
and its last pose is the sample at the scale `0.95`, the position `(-0.95, 0.95)` with the
heading `0.95 * pi / 4`, and not the goal. -/
theorem makePlan_carrot_stops_short :
    carrotScaleNext^[20] 0 = 1 + 1 / 2 ^ 52 ∧
    ∃ r, makePlan realMath 22 (freePlanner ℝ) ⟨"map", 0, 0, 0⟩
        ⟨"map", -1, 1, Real.pi / 4⟩ [] = some r ∧
      r.plan.length = 20 ∧
      r.plan[19]? = some ⟨"map", -(19 / 20), 19 / 20, 19 / 20 * (Real.pi / 4)⟩ ∧
      r.plan[20]? = none := by
  refine ⟨carrotScale_twenty, ?_⟩
  obtain ⟨⟨r, hr⟩, -, h3⟩ := makePlan_carrot_count realMath (freePlanner ℝ) ⟨"map", 0, 0, 0⟩
    ⟨"map", -1, 1, Real.pi / 4⟩ [] rfl rfl (selectManeuver_behind _ _ _)
  obtain ⟨hlen, hlast⟩ := h3
    (by
      intro x y th
      simp [footprintCost, freePlanner, scenarioPlanner]) 22 r hr
  refine ⟨r, hr, hlen, ?_, ?_⟩
  · have hpi := Real.pi_pos
    have hstart : getYaw realMath (poseStampedMsgToTF
        (chooseStart (freePlanner ℝ) (⟨"map", 0, 0, 0⟩ : PoseStamped ℝ))) = 0 := by
      rw [chooseStart_of_invalid _ _ rfl]
      exact normalize_zero_realMath
    have hgoal : getYaw realMath
        (poseStampedMsgToTF (⟨"map", -1, 1, Real.pi / 4⟩ : PoseStamped ℝ)) = Real.pi / 4 :=
      getYaw_quarter_pi (-1) 1
    have hdiff : realMath.normalize_angle (Real.pi / 4 - 0) = Real.pi / 4 := by
      rw [sub_zero]
      exact wrapAngle_of_mem (by linarith) (by linarith)
    have hyaw : realMath.normalize_angle (0 + 0.05 * ((19 : ℕ) : ℝ) * (Real.pi / 4))
        = 19 / 20 * (Real.pi / 4) := by
      have e : (0 : ℝ) + 0.05 * ((19 : ℕ) : ℝ) * (Real.pi / 4) = 19 / 20 * (Real.pi / 4) := by
        norm_num
      rw [e]
      exact wrapAngle_of_mem (by linarith) (by linarith)
    rw [hlast, hstart, hgoal, hdiff, hyaw]
    norm_num
  · exact List.getElem?_eq_none (by omega)

/-- C25, counterexample. With the constant `M_PI` of the C header, the binary64 number
nearest to pi, which is smaller than pi: on the goal `(0.3, -1e-17, -1e-16)` with the radius
`0.8` the side and heading check passes (`y ≤ 0` and `-M_PI ≤ yaw ≤ 0`), the offset
`R / tan ((M_PI - yaw) / 2)` is negative, the solver returns `NONE`, and the solver without
the condition `dist_before > x_intersection` returns `RIGHT`. -/
theorem computeCurveParameters_third_check_decides :
    ((-(1 / 10 ^ 17) : ℝ) ≤ 0 ∧
      -headerPiMath.pi ≤ getYaw headerPiMath ⟨3 / 10, -(1 / 10 ^ 17), -(1 / 10 ^ 16)⟩ ∧
      getYaw headerPiMath ⟨3 / 10, -(1 / 10 ^ 17), -(1 / 10 ^ 16)⟩ ≤ 0) ∧
    steeringOffset headerPiMath ⟨3 / 10, -(1 / 10 ^ 17), -(1 / 10 ^ 16)⟩ (4 / 5) < 0 ∧
    (computeCurveParameters headerPiMath ⟨3 / 10, -(1 / 10 ^ 17), -(1 / 10 ^ 16)⟩
      (4 / 5)).curve_type = CurveType.NONE ∧
    (computeCurveParametersTwoChecks headerPiMath ⟨3 / 10, -(1 / 10 ^ 17), -(1 / 10 ^ 16)⟩
      (4 / 5)).curve_type = CurveType.RIGHT_CENTER_POINT :=
  solver_headerPi_near_zero

/-- C25, amended. With the constant `M_PI` of the C header, for a goal on the left
(`y > 0`) and for a goal whose heading is at most `-1e-15`: whenever the side and heading
check passes, the offset `R / tan ((M_PI - yaw) / 2)` is not negative, so that
`dist_before > x_i` does not hold; and the solver without the condition
`dist_before > x_intersection` returns what the solver returns (the curve type and the
three outputs). -/
theorem computeCurveParameters_third_check_redundant (p : Pose ℝ) (r : ℝ)
    (hreg : 0 < p.y ∨ getYaw headerPiMath p ≤ -(1 / 10 ^ 15)) :
    (((0 < p.y ∧ 0 ≤ getYaw headerPiMath p ∧ getYaw headerPiMath p ≤ headerPiMath.pi) ∨
        (p.y ≤ 0 ∧ -headerPiMath.pi ≤ getYaw headerPiMath p ∧ getYaw headerPiMath p ≤ 0)) →
      0 ≤ steeringOffset headerPiMath p r ∧
      ¬ xIntersection headerPiMath p - steeringOffset headerPiMath p r
          > xIntersection headerPiMath p) ∧
    computeCurveParametersTwoChecks headerPiMath p r = computeCurveParameters headerPiMath p r ∧
    (computeCurveParametersTwoChecks headerPiMath p r).curve_type
      = (computeCurveParameters headerPiMath p r).curve_type := by
  have heq := solver_third_check_of_offset headerPiMath p r
    (solver_offset_nonneg_headerPi p r hreg)
  refine ⟨fun hside => ?_, heq, by rw [heq]⟩
  have h := solver_offset_nonneg_headerPi p r hreg hside
  exact ⟨h, by linarith⟩

/-- Witness for C25 as amended: the goal `(2, -1, -pi / 2)` on the right, whose heading is
below `-1e-15`, with the radius `0.8`. -/
theorem computeCurveParameters_third_check_redundant_witness :
    getYaw headerPiMath ⟨2, -1, -(Real.pi / 2)⟩ ≤ -(1 / 10 ^ 15) ∧
    computeCurveParametersTwoChecks headerPiMath ⟨2, -1, -(Real.pi / 2)⟩ (4 / 5)
      = computeCurveParameters headerPiMath ⟨2, -1, -(Real.pi / 2)⟩ (4 / 5) := by
  have hyaw : getYaw headerPiMath ⟨2, -1, -(Real.pi / 2)⟩ ≤ -(1 / 10 ^ 15) := by
    have e : getYaw headerPiMath ⟨2, -1, -(Real.pi / 2)⟩ = -(Real.pi / 2) :=
      getYaw_neg_half_pi 2 (-1)
    have h3 := Real.pi_gt_three
    rw [e]
    have : (1 / 10 ^ 15 : ℝ) ≤ 1 := by norm_num
    linarith
  exact ⟨hyaw, (computeCurveParameters_third_check_redundant ⟨2, -1, -(Real.pi / 2)⟩ (4 / 5)
    (Or.inr hyaw)).2.1⟩

/-- C26. The re-framed solve does not flip the turn side, in exact arithmetic: for every
start, goal and reference point, when the heading of the goal relative to the start is not
`0` and the solve for the center of rotation returns `LEFT` or `RIGHT`, the solve for the
goal re-framed about the reference point returns the same curve type or `NONE`; so the
curve type that the selection ends with is that of the solve for the center of rotation. -/
theorem selectManeuver_curve_type_of_center (P : Planner ℝ) (start_ goal : PoseStamped ℝ)
    (h0 : getYaw realMath (goalInStartFrame realMath start_ goal) ≠ 0) :
    (∀ (ref : Pose ℝ) (r' : ℝ),
      (computeCurveParameters realMath (goalInStartFrame realMath start_ goal)
        P.turning_radius_).curve_type ≠ CurveType.NONE →
      (computeCurveParameters realMath (refpointGoalInRefstartFrame realMath start_ goal ref)
          r').curve_type
        = (computeCurveParameters realMath (goalInStartFrame realMath start_ goal)
            P.turning_radius_).curve_type ∨
      (computeCurveParameters realMath (refpointGoalInRefstartFrame realMath start_ goal ref)
          r').curve_type = CurveType.NONE) ∧
    (selectManeuver realMath P start_ goal).curve_type
      = (computeCurveParameters realMath (goalInStartFrame realMath start_ goal)
          P.turning_radius_).curve_type :=
  selectManeuver_keeps_side P start_ goal h0

/-- Witness for C26: the scenario planner from the start `(0, 0, 0)` to the goal
`(2, 1, pi / 2)`, whose heading relative to the start is `pi / 2`: the solve for the center
of rotation gives `LEFT`, and the selection ends with `LEFT`. -/
theorem selectManeuver_curve_type_of_center_witness :
    (selectManeuver realMath (scenarioPlanner ℝ) ⟨"map", 0, 0, 0⟩
      ⟨"map", 2, 1, Real.pi / 2⟩).curve_type = CurveType.LEFT_CENTER_POINT := by
  have hr : (scenarioPlanner ℝ).turning_radius_ = 4 / 5 := by
    norm_num [scenarioPlanner]
  have h := (selectManeuver_curve_type_of_center (scenarioPlanner ℝ) ⟨"map", 0, 0, 0⟩
    ⟨"map", 2, 1, Real.pi / 2⟩
    (by
      rw [goalInStartFrame_scenario1, getYaw_half_pi]
      exact (div_pos Real.pi_pos two_pos).ne')).2
  rw [goalInStartFrame_scenario1, hr, solver_scenario1] at h
  exact h

end ManeuverPlanner
